import Mathlib

/-!
# go-id3: the ID3v2 tag reader

A shallow embedding of `id3.go`, `id3v22.go`, `id3v23.go` and `id3v24.go`.

* Go `byte` is `Fin 256`; `int`, `int32` values are `Int`, with the 32-bit
  wrap-around written out where a conversion can overflow.
* A Go `string` is its sequence of bytes (UTF-8 for text built from code points).
* A Go `panic` is the `error` side of `Except Panic`.
* The `*bufio.Reader` the parser works on is a `Reader`: the bytes not yet
  consumed, the number of bytes consumed so far, a schedule that cuts
  successive `Read` calls short, as an `io.Reader` is allowed to, and whether
  the stream hands out its last bytes together with `io.EOF`, as an
  `io.Reader` is allowed to as well.
-/

namespace ID3

/-! ## Bytes and strings -/

/-- Go `byte`. -/
abbrev Byte := Fin 256

/-- Go `string`: an immutable sequence of bytes. -/
abbrev GoString := List Byte

/-- The bytes of an ASCII string literal of the source, such as `"ID3"` or `"TIT2"`. -/
def ascii (s : String) : GoString :=
  s.toList.map fun c => Fin.ofNat c.toNat

/-- Conversion `int32(x)` of a non-negative value: keep the low 32 bits, read as two's complement. -/
def toInt32 (x : Nat) : Int :=
  if x % 2 ^ 32 < 2 ^ 31 then ((x % 2 ^ 32 : Nat) : Int) else ((x % 2 ^ 32 : Nat) : Int) - 2 ^ 32

/-! ## Size codec (`id3.go`) -/

/-- Loop body of `parseSize`, on the bit pattern of `size`: `len` is `len(data)`, `i` the index of
the first byte of `rest`, `size` the accumulator.
`shift := uint32(len(data)-i-1) * 7; size |= int32(b&0x7f) << shift`. -/
def parseSizeLoop (len : Nat) : Nat → List Byte → Nat → Nat
  | _, [], size => size
  | i, b :: rest, size =>
    let shift := ((len - i - 1) * 7) % 2 ^ 32
    parseSizeLoop len (i + 1) rest (size ||| (((b.val &&& 0x7f) <<< shift) % 2 ^ 32))

/-- Function `parseSize(data []byte) int32`.  The warning printed for a byte with its high bit set
has no effect on the result and is not modelled. -/
def parseSize (data : List Byte) : Int :=
  toInt32 (parseSizeLoop data.length 0 data 0)

/-! ## Panics -/

/-- What a Go `panic` of the package carries.  A panic aborts `Read`: no record is returned. -/
inductive Panic where
  /-- Is `panic("Unrecognized ID3v2 version: %d")` in `Read`. -/
  | unsupportedVersion (version : Nat)
  /-- Is `panic("Unrecognized frame ID: %s, size=%d")` in `ReadFrame`. -/
  | unrecognizedFrame (id : GoString) (size : Int)
  /-- Is `panic("Sequence is too short too contain a UTF-16 BOM")`. -/
  | utf16TooShort
  /-- Is `panic("UTF-16 BE found!")`. -/
  | utf16BE
  /-- Is `panic("Unrecognized UTF-16 BOM: 0x%02X%02X")`. -/
  | utf16BOM (b0 b1 : Byte)
  /-- Is `panic("Unsupported text encoding UTF-16BE.")`. -/
  | unsupportedEncoding
  /-- Is `panic(err)` with the end-of-stream error of a `Read`. -/
  | eof
  /-- Run-time panic: index out of range. -/
  | indexOutOfRange
  /-- Run-time panic: `make([]byte, c)` with a negative length. -/
  | makeslice
  /-- Not a panic: the loop is still running when the iteration budget of the model is used up. -/
  | diverge
  deriving DecidableEq, Repr

deriving instance DecidableEq for Except

/-- A panic that is not the unsupported-version panic of `Read`. -/
def Panic.NotVersion (e : Panic) : Prop :=
  ∀ v, e ≠ .unsupportedVersion v

/-! ## The byte stream

`bufio.Reader` and `io.LimitReader` belong to the Go standard library.  Their behaviour is what
the `Reader` below gives: `Peek(n)` returns the next `n` bytes without advancing, or an error
when fewer than `n` are left; `Read(p)` returns at least one and at most `len(p)` of the next
bytes, or the end-of-stream error when none is left.

An `io.Reader` may return its last bytes together with `io.EOF` instead of returning the error
on the call after.  A `bufio.Reader` hides that from its caller when the bytes go through its
buffer, which is the case for every `Read` of fewer than 4096 bytes (the size of the buffer); a
`Read(p)` with `len(p) >= 4096` on an empty buffer goes to the underlying reader directly and
returns what that reader returns, bytes and `io.EOF` together when the stream ends there. -/

/-- State of a `*bufio.Reader`: `data` are the bytes not yet consumed, `pos` counts the bytes
consumed so far (the cursor), `short` caps the byte counts of the coming `Read` calls
(an empty schedule means that every `Read` delivers all it is asked for, if available), and
`eofWithData` says that a `Read` for 4096 bytes or more that takes the last bytes of the stream
returns them together with `io.EOF`. -/
structure Reader where
  data : List Byte
  pos : Nat
  short : List Nat
  eofWithData : Bool := false
  deriving DecidableEq, Repr

/-- A stream holding the bytes `s`, read without short reads, whose end is reported by a `Read`
of its own. -/
def Reader.ofBytes (s : List Byte) : Reader :=
  { data := s, pos := 0, short := [], eofWithData := false }

/-- Number of bytes the next `Read` of `n` bytes delivers when enough are left. -/
def Reader.chunk (r : Reader) (n : Nat) : Nat :=
  match r.short with
  | [] => n
  | c :: _ => min n (max c 1)

/-- Method `Peek(n)`: the bytes returned, whether `err != nil`, and the reader (unchanged). -/
def Reader.Peek (r : Reader) (n : Nat) : List Byte × Bool × Reader :=
  (r.data.take n, decide (r.data.length < n), r)

/-- Method `Read(p)` with `len(p) = n`: the bytes stored in `p`, whether `err != nil`, and the
reader afterwards.  The error comes alone when no byte is left, and together with the last bytes
of the stream when `n >= 4096` and the stream is one that ends so. -/
def Reader.Read (r : Reader) (n : Nat) : List Byte × Bool × Reader :=
  if n = 0 then ([], false, r)
  else if r.data.isEmpty then ([], true, r)
  else
    let got := r.data.take (r.chunk n)
    (got, r.eofWithData && decide (4096 ≤ n ∧ r.data.length ≤ r.chunk n),
      { data := r.data.drop (r.chunk n), pos := r.pos + got.length, short := r.short.tail,
        eofWithData := r.eofWithData })

/-- The reader `r'` is the reader `r` moved `n` bytes ahead: the same stream, with some of the
coming reads done. -/
def Reader.Advanced (r r' : Reader) (n : Nat) : Prop :=
  r'.data = r.data.drop n ∧ r'.pos = r.pos + n ∧ r'.eofWithData = r.eofWithData ∧
    ∃ k, r'.short = r.short.drop k

/-- Function `io.LimitReader(r, n)` wrapped in a new `bufio.Reader`: a reader over the next `n`
bytes of `r` only, with its own cursor.  The last bytes of the region come with `io.EOF` only
when they are the last bytes of the stream. -/
def LimitReader (r : Reader) (n : Int) : Reader :=
  { data := r.data.take n.toNat, pos := 0, short := r.short,
    eofWithData := r.eofWithData && decide (r.data.length ≤ n.toNat) }

/-- Loop of `readBytes`: `need` is `c - pos`, `b` the bytes stored so far.
`for pos < c { i, err := reader.Read(b[pos:]); pos += i; if err != nil { panic(err) } }`.
An error panics whether or not bytes came with it, also when they are the last bytes asked for.
The first argument bounds the number of iterations: a `Read` that does not fail delivers at
least one byte, so `c` iterations are enough. -/
def readBytesLoop : Nat → Reader → Nat → List Byte → Except Panic (List Byte × Reader)
  | _, reader, 0, b => .ok (b, reader)
  | 0, _, _ + 1, _ => .error .diverge
  | fuel + 1, reader, need + 1, b =>
    match reader.Read (need + 1) with
    | (_, true, _) => .error .eof
    | (got, false, reader) => readBytesLoop fuel reader (need + 1 - got.length) (b ++ got)

/-- Function `readBytes(reader, c)`. -/
def readBytes (reader : Reader) (c : Int) : Except Panic (List Byte × Reader) :=
  if c < 0 then .error .makeslice
  else readBytesLoop c.toNat reader c.toNat []

/-- Loop of `skipBytes`: `need` is `c - pos`; the scratch buffer holds `1024*4` bytes.  The first
argument bounds the number of iterations, as in `readBytesLoop`. -/
def skipBytesLoop : Nat → Reader → Nat → Except Panic Reader
  | _, reader, 0 => .ok reader
  | 0, _, _ + 1 => .error .diverge
  | fuel + 1, reader, need + 1 =>
    let stop := if need + 1 > 1024 * 4 then 1024 * 4 else need + 1
    match reader.Read stop with
    | (_, true, _) => .error .eof
    | (got, false, reader) => skipBytesLoop fuel reader (need + 1 - got.length)

/-- Function `skipBytes(reader, c)`: a negative `c` skips nothing. -/
def skipBytes (reader : Reader) (c : Int) : Except Panic Reader :=
  skipBytesLoop c.toNat reader c.toNat

/-- Loop of `io.ReadFull` (used by `binary.Read`): reads until `need` more bytes are stored or a
`Read` fails; returns the bytes stored and whether it failed, which it has not when the `Read`
that reports an error stores the last bytes asked for.  The first argument bounds the number of
iterations, as in `readBytesLoop`. -/
def readFullLoop : Nat → Reader → Nat → List Byte → Except Panic (List Byte × Bool × Reader)
  | _, reader, 0, buf => .ok (buf, false, reader)
  | 0, _, _ + 1, _ => .error .diverge
  | fuel + 1, reader, need + 1, buf =>
    match reader.Read (need + 1) with
    | (got, true, reader) => .ok (buf ++ got, decide (got.length < need + 1), reader)
    | (got, false, reader) => readFullLoop fuel reader (need + 1 - got.length) (buf ++ got)

/-! ## Tag header (`id3.go`) -/

/-- Struct `ID3v2Header`. -/
structure ID3v2Header where
  Version : Nat
  MinorVersion : Nat
  Unsynchronization : Bool
  Extended : Bool
  Experimental : Bool
  Footer : Bool
  Size : Int
  deriving DecidableEq, Repr

/-- Struct `File`; `new(File)` is `{}`. -/
structure File where
  Header : Option ID3v2Header := none
  Name : GoString := []
  Artist : GoString := []
  Album : GoString := []
  Year : GoString := []
  Track : GoString := []
  Disc : GoString := []
  Genre : GoString := []
  Length : GoString := []
  deriving DecidableEq, Repr

/-- Function `isID3Tag`. -/
def isID3Tag (reader : Reader) : Bool :=
  match reader.Peek 3 with
  | (data, err, _) =>
    if data.length < 3 ∨ err then false
    else data.getD 0 0 = 0x49 && data.getD 1 0 = 0x44 && data.getD 2 0 = 0x33

/-- Expression `b&1<<k != 0` on a byte `b`.  In Go `&` and `<<` have the same precedence and
associate to the left, so this is `((b & 1) << k) != 0`, computed in 8 bits. -/
def flagBit (b : Byte) (k : Nat) : Bool :=
  ((b.val &&& 1) <<< k) % 256 != 0

/-- Function `parseID3v2Header`: one `Read` into a zeroed 10-byte buffer, whose byte count and
error are not looked at. -/
def parseID3v2Header (reader : Reader) : ID3v2Header × Reader :=
  match reader.Read 10 with
  | (got, _, reader) =>
    let data := got ++ List.replicate (10 - got.length) (0 : Byte)
    ({ Version := (data.getD 3 0).val
       MinorVersion := (data.getD 4 0).val
       Unsynchronization := flagBit (data.getD 5 0) 7
       Extended := flagBit (data.getD 5 0) 6
       Experimental := flagBit (data.getD 5 0) 5
       Footer := flagBit (data.getD 5 0) 4
       Size := parseSize (data.drop 6) }, reader)

/-! ## Text decoder (`id3.go`) -/

/-- Function `expand`: the bytes as code points. -/
def expand (data : List Byte) : List Nat :=
  data.map fun b => b.val

/-- Loop of `toUTF16` over the bytes after the byte-order mark:
`uint16(data[i])<<shift0 | uint16(data[i+1])<<shift1`. -/
def toUTF16Loop (shift0 shift1 : Nat) : List Byte → Except Panic (List Nat)
  | [] => .ok []
  | [_] => .error .indexOutOfRange
  | d0 :: d1 :: rest =>
    match toUTF16Loop shift0 shift1 rest with
    | .error e => .error e
    | .ok s => .ok ((((d0.val <<< shift0) % 2 ^ 16) ||| ((d1.val <<< shift1) % 2 ^ 16)) :: s)

/-- Function `toUTF16`. -/
def toUTF16 (data : List Byte) : Except Panic (List Nat) :=
  if data.length < 2 then .error .utf16TooShort
  else
    let data := if data.length % 2 > 0 then data ++ [0] else data
    if data.getD 0 0 = 0xFF ∧ data.getD 1 0 = 0xFE then
      toUTF16Loop 0 8 (data.drop 2)
    else if data.getD 0 0 = 0xFE ∧ data.getD 1 0 = 0xFF then
      .error .utf16BE
    else
      .error (.utf16BOM (data.getD 0 0) (data.getD 1 0))

/-- Library function `utf16.Decode`: surrogate pairs are combined, a surrogate half without its
partner becomes U+FFFD. -/
def utf16Decode : List Nat → List Nat
  | [] => []
  | [r] => [if 0xd800 ≤ r ∧ r < 0xe000 then 0xFFFD else r]
  | r :: r2 :: rest =>
    if 0xd800 ≤ r ∧ r < 0xdc00 ∧ 0xdc00 ≤ r2 ∧ r2 < 0xe000 then
      ((((r - 0xd800) <<< 10) ||| (r2 - 0xdc00)) + 0x10000) :: utf16Decode rest
    else
      (if 0xd800 ≤ r ∧ r < 0xe000 then 0xFFFD else r) :: utf16Decode (r2 :: rest)

/-- UTF-8 encoding of one code point, as the conversion `string(rune)` gives it; a value that is
no valid code point gives the encoding of U+FFFD. -/
def encodeRune (r : Nat) : List Byte :=
  if r < 0x80 then [Fin.ofNat r]
  else if r < 0x800 then [Fin.ofNat (0xC0 ||| (r >>> 6)), Fin.ofNat (0x80 ||| (r &&& 0x3F))]
  else if (0xD800 ≤ r ∧ r < 0xE000) ∨ 0x10FFFF < r then [0xEF, 0xBF, 0xBD]
  else if r < 0x10000 then
    [Fin.ofNat (0xE0 ||| (r >>> 12)), Fin.ofNat (0x80 ||| ((r >>> 6) &&& 0x3F)),
     Fin.ofNat (0x80 ||| (r &&& 0x3F))]
  else
    [Fin.ofNat (0xF0 ||| (r >>> 18)), Fin.ofNat (0x80 ||| ((r >>> 12) &&& 0x3F)),
     Fin.ofNat (0x80 ||| ((r >>> 6) &&& 0x3F)), Fin.ofNat (0x80 ||| (r &&& 0x3F))]

/-- Conversion `string(p)` of a slice of code points. -/
def runesToString (p : List Nat) : GoString :=
  p.flatMap encodeRune

/-- Call `strings.TrimRight(s, "\u0000")`.  U+0000 is the single byte 0, and no other code point
(nor an invalid byte) ends in a byte 0, so the trailing zero bytes are what is removed. -/
def trimRightNul (s : GoString) : GoString :=
  (s.reverse.dropWhile fun b => b = 0).reverse

/-- Function `parseString`. -/
def parseString (data : List Byte) : Except Panic GoString :=
  match data with
  | [] => .error .indexOutOfRange
  | sel :: rest =>
    if sel = 0 then .ok (trimRightNul (runesToString (expand rest)))
    else if sel = 1 then
      match toUTF16 rest with
      | .error e => .error e
      | .ok u => .ok (trimRightNul (runesToString (utf16Decode u)))
    else if sel = 2 then .error .unsupportedEncoding
    else if sel = 3 then .ok (trimRightNul rest)
    else .ok (trimRightNul (runesToString (expand data)))

/-- Function `readString`. -/
def readString (reader : Reader) (c : Int) : Except Panic (GoString × Reader) :=
  match readBytes reader c with
  | .error e => .error e
  | .ok (b, reader) =>
    match parseString b with
    | .error e => .error e
    | .ok s => .ok (s, reader)

/-! ## Version 2.2 frames (`id3v22.go`) -/

/-- Struct `v22Parser`. -/
structure v22Parser where
  reader : Reader
  deriving DecidableEq, Repr

/-- Method `HasFrame` of `v22Parser`: the answer and the parser afterwards. -/
def v22Parser.HasFrame (parser : v22Parser) : Bool × v22Parser :=
  match parser.reader.Peek 3 with
  | (data, err, reader) =>
    if err then (false, ⟨reader⟩)
    else (data.all fun c => !((c < 0x41 || c > 0x5A) && (c < 0x30 || c > 0x39)), ⟨reader⟩)

/-- Identifiers of the `case`s of `v22Parser.ReadFrame` that fall through to `skipBytes`. -/
def v22SkipIDs : List GoString :=
  ["CM1", "COM", "IPP", "PCS", "PIC", "TCM", "TCT", "TDR", "TEN", "TID", "TP2", "TT1", "UFI",
   "ULT", "WFD"].map ascii

/-- Method `ReadFrame` of `v22Parser`. -/
def v22Parser.ReadFrame (parser : v22Parser) (file : File) : Except Panic (File × v22Parser) :=
  match readBytes parser.reader 3 with
  | .error e => .error e
  | .ok (id, reader) =>
    match readBytes reader 3 with
    | .error e => .error e
    | .ok (size, reader) =>
      -- int32(size[0])<<16 | int32(size[1])<<8 | int32(size[2]), below 2^24
      let frameSize : Int :=
        (((size.getD 0 0).val <<< 16 ||| (size.getD 1 0).val <<< 8 ||| (size.getD 2 0).val : Nat) : Int)
      if id = ascii "TAL" then
        (readString reader frameSize).map fun (s, reader) => ({ file with Album := s }, ⟨reader⟩)
      else if id = ascii "TRK" then
        (readString reader frameSize).map fun (s, reader) => ({ file with Track := s }, ⟨reader⟩)
      else if id = ascii "TP1" then
        (readString reader frameSize).map fun (s, reader) => ({ file with Artist := s }, ⟨reader⟩)
      else if id = ascii "TT2" then
        (readString reader frameSize).map fun (s, reader) => ({ file with Name := s }, ⟨reader⟩)
      else if id = ascii "TYE" then
        (readString reader frameSize).map fun (s, reader) => ({ file with Year := s }, ⟨reader⟩)
      else if id = ascii "TPA" then
        (readString reader frameSize).map fun (s, reader) => ({ file with Disc := s }, ⟨reader⟩)
      else if id = ascii "TCO" then
        (readString reader frameSize).map fun (s, reader) => ({ file with Genre := s }, ⟨reader⟩)
      else if id ∈ v22SkipIDs then
        (skipBytes reader frameSize).map fun reader => (file, ⟨reader⟩)
      else
        .error (.unrecognizedFrame id frameSize)

/-! ## Version 2.3 frames (`id3v23.go`) -/

/-- Struct `v23Parser`. -/
structure v23Parser where
  reader : Reader
  deriving DecidableEq, Repr

/-- Method `HasFrame` of `v23Parser`. -/
def v23Parser.HasFrame (parser : v23Parser) : Bool × v23Parser :=
  match parser.reader.Peek 4 with
  | (data, err, reader) =>
    if err then (false, ⟨reader⟩)
    else (data.all fun c => !((c < 0x41 || c > 0x5A) && (c < 0x30 || c > 0x39)), ⟨reader⟩)

/-- Call `binary.Read(reader, binary.BigEndian, &x)` for a fixed-size `x` of `n` bytes: the bytes
to decode into `x`, or `none` when `io.ReadFull` failed and `x` is left as it was (the error
`binary.Read` returns is dropped by `ReadFrame`). -/
def binaryRead (reader : Reader) (n : Nat) : Except Panic (Option (List Byte) × Reader) :=
  match readFullLoop n reader n [] with
  | .error e => .error e
  | .ok (_, true, reader) => .ok (none, reader)
  | .ok (buf, false, reader) => .ok (some buf, reader)

/-- Big-endian value of four bytes, as `binary.BigEndian.Uint32`. -/
def bigEndian32 (b : List Byte) : Nat :=
  (b.getD 3 0).val ||| (b.getD 2 0).val <<< 8 ||| (b.getD 1 0).val <<< 16 ||| (b.getD 0 0).val <<< 24

/-- Identifiers of the `case`s of `v23Parser.ReadFrame` that fall through to `skipBytes`. -/
def v23SkipIDs : List GoString :=
  ["APIC", "COMM", "GEOB", "PRIV", "MCDI", "NCON", "POPM", "RGAD", "RVAD", "SYLT", "TBPM", "TCMP",
   "TCOM", "TCOP", "TDAT", "TDEN", "TDTG", "TENC", "TFLT", "TIT1", "TIT3", "TLAN", "TMED", "TOPE",
   "TORY", "TPE2", "TPE3", "TPUB", "TSIZ", "TSRC", "TSSE", "TXXX", "USER", "UFID", "USLT", "XSOP",
   "WCOM", "WOAF", "WXXX"].map ascii

/-- Method `ReadFrame` of `v23Parser`.  The frame size is an `int32` that starts at 0; the two
flag bytes are read into the frame and not used. -/
def v23Parser.ReadFrame (parser : v23Parser) (file : File) : Except Panic (File × v23Parser) :=
  match readBytes parser.reader 4 with
  | .error e => .error e
  | .ok (id, reader) =>
    match binaryRead reader 4 with
    | .error e => .error e
    | .ok (size, reader) =>
      let frameSize : Int :=
        match size with
        | none => 0
        | some b => toInt32 (bigEndian32 b)
      match binaryRead reader 2 with
      | .error e => .error e
      | .ok (_, reader) =>
        if id = ascii "TALB" then
          (readString reader frameSize).map fun (s, reader) => ({ file with Album := s }, ⟨reader⟩)
        else if id = ascii "TRCK" then
          (readString reader frameSize).map fun (s, reader) => ({ file with Track := s }, ⟨reader⟩)
        else if id = ascii "TPE1" then
          (readString reader frameSize).map fun (s, reader) => ({ file with Artist := s }, ⟨reader⟩)
        else if id = ascii "TCON" then
          (readString reader frameSize).map fun (s, reader) => ({ file with Genre := s }, ⟨reader⟩)
        else if id = ascii "TIT2" then
          (readString reader frameSize).map fun (s, reader) => ({ file with Name := s }, ⟨reader⟩)
        else if id = ascii "TYER" then
          (readString reader frameSize).map fun (s, reader) => ({ file with Year := s }, ⟨reader⟩)
        else if id = ascii "TPOS" then
          (readString reader frameSize).map fun (s, reader) => ({ file with Disc := s }, ⟨reader⟩)
        else if id = ascii "TLEN" then
          (readString reader frameSize).map fun (s, reader) => ({ file with Length := s }, ⟨reader⟩)
        else if id ∈ v23SkipIDs then
          (skipBytes reader frameSize).map fun reader => (file, ⟨reader⟩)
        else
          .error (.unrecognizedFrame id frameSize)

/-! ## Version 2.4 frames (`id3v24.go`) -/

/-- Struct `v24Parser`. -/
structure v24Parser where
  reader : Reader
  deriving DecidableEq, Repr

/-- Method `HasFrame` of `v24Parser`. -/
def v24Parser.HasFrame (parser : v24Parser) : Bool × v24Parser :=
  match parser.reader.Peek 4 with
  | (data, err, reader) =>
    if err then (false, ⟨reader⟩)
    else (data.all fun c => !((c < 0x41 || c > 0x5A) && (c < 0x30 || c > 0x39)), ⟨reader⟩)

/-- Identifiers of the `case`s of `v24Parser.ReadFrame` that fall through to `skipBytes`. -/
def v24SkipIDs : List GoString :=
  ["APIC", "COMM", "MCDI", "PRIV", "RVA2", "TCMP", "TCOM", "TCOP", "TDEN", "TDTG", "TENC", "TLAN",
   "TPE2", "TPUB", "TSOP", "TSRC", "TSSE", "TXXX", "UFID", "WXXX"].map ascii

/-- Method `ReadFrame` of `v24Parser`.  The eight booleans decoded from the two flag bytes live
in the transient frame only and are not used. -/
def v24Parser.ReadFrame (parser : v24Parser) (file : File) : Except Panic (File × v24Parser) :=
  match readBytes parser.reader 4 with
  | .error e => .error e
  | .ok (id, reader) =>
    match readBytes reader 4 with
    | .error e => .error e
    | .ok (size, reader) =>
      let frameSize : Int := parseSize size
      match readBytes reader 2 with
      | .error e => .error e
      | .ok (_, reader) =>
        if id = ascii "TALB" then
          (readString reader frameSize).map fun (s, reader) => ({ file with Album := s }, ⟨reader⟩)
        else if id = ascii "TRCK" then
          (readString reader frameSize).map fun (s, reader) => ({ file with Track := s }, ⟨reader⟩)
        else if id = ascii "TPE1" then
          (readString reader frameSize).map fun (s, reader) => ({ file with Artist := s }, ⟨reader⟩)
        else if id = ascii "TCON" then
          (readString reader frameSize).map fun (s, reader) => ({ file with Genre := s }, ⟨reader⟩)
        else if id = ascii "TIT2" then
          (readString reader frameSize).map fun (s, reader) => ({ file with Name := s }, ⟨reader⟩)
        else if id = ascii "TDRC" then
          (readString reader frameSize).map fun (s, reader) => ({ file with Year := s }, ⟨reader⟩)
        else if id = ascii "TPOS" then
          (readString reader frameSize).map fun (s, reader) => ({ file with Disc := s }, ⟨reader⟩)
        else if id = ascii "TLEN" then
          (readString reader frameSize).map fun (s, reader) => ({ file with Length := s }, ⟨reader⟩)
        else if id ∈ v24SkipIDs then
          (skipBytes reader frameSize).map fun reader => (file, ⟨reader⟩)
        else
          .error (.unrecognizedFrame id frameSize)

/-! ## Tag engine (`id3.go`) -/

/-- Interface `ID3Parser` with its three implementations. -/
inductive ID3Parser where
  | v22 (p : v22Parser)
  | v23 (p : v23Parser)
  | v24 (p : v24Parser)
  deriving DecidableEq, Repr

/-- Function `NewID3v22Parser`. -/
def NewID3v22Parser (reader : Reader) : ID3Parser := .v22 ⟨reader⟩

/-- Function `NewID3v23Parser`. -/
def NewID3v23Parser (reader : Reader) : ID3Parser := .v23 ⟨reader⟩

/-- Function `NewID3v24Parser`. -/
def NewID3v24Parser (reader : Reader) : ID3Parser := .v24 ⟨reader⟩

/-- The reader a parser holds. -/
def ID3Parser.reader : ID3Parser → Reader
  | .v22 p => p.reader
  | .v23 p => p.reader
  | .v24 p => p.reader

/-- Interface method `HasFrame`. -/
def ID3Parser.HasFrame : ID3Parser → Bool × ID3Parser
  | .v22 p => ((p.HasFrame).1, .v22 (p.HasFrame).2)
  | .v23 p => ((p.HasFrame).1, .v23 (p.HasFrame).2)
  | .v24 p => ((p.HasFrame).1, .v24 (p.HasFrame).2)

/-- Interface method `ReadFrame`. -/
def ID3Parser.ReadFrame : ID3Parser → File → Except Panic (File × ID3Parser)
  | .v22 p, file => (p.ReadFrame file).map fun (file, p) => (file, .v22 p)
  | .v23 p, file => (p.ReadFrame file).map fun (file, p) => (file, .v23 p)
  | .v24 p, file => (p.ReadFrame file).map fun (file, p) => (file, .v24 p)

/-- Loop `for parser.HasFrame() { parser.ReadFrame(file) }` of `Read`, run for at most `fuel`
iterations. -/
def frameLoop : Nat → ID3Parser → File → Except Panic File
  | 0, _, _ => .error .diverge
  | fuel + 1, parser, file =>
    match parser.HasFrame with
    | (false, _) => .ok file
    | (true, parser) =>
      match parser.ReadFrame file with
      | .error e => .error e
      | .ok (file, parser) => frameLoop fuel parser file

/-- Function `Read`: `.ok none` is the `nil` result, `.ok (some file)` a record, `.error` a panic.
Every frame read consumes bytes of the bounded region, so one iteration per byte of the region
(and one more for the last `HasFrame`) is enough for the frame loop. -/
def Read (reader : Reader) : Except Panic (Option File) :=
  let file : File := {}
  let bufReader := reader
  if !isID3Tag bufReader then .ok none
  else
    match parseID3v2Header bufReader with
    | (header, bufReader) =>
      let file := { file with Header := some header }
      let limitReader := LimitReader bufReader header.Size
      let parser : Except Panic ID3Parser :=
        if header.Version = 2 then .ok (NewID3v22Parser limitReader)
        else if header.Version = 3 then .ok (NewID3v23Parser limitReader)
        else if header.Version = 4 then .ok (NewID3v24Parser limitReader)
        else .error (.unsupportedVersion header.Version)
      match parser with
      | .error e => .error e
      | .ok parser =>
        match frameLoop (limitReader.data.length + 1) parser file with
        | .error e => .error e
        | .ok file => .ok (some file)

/-! ## Vocabulary of the frame grammar

The tables below restate, for the statements about frames, what the three `ReadFrame` methods
do case by case. -/

/-- The three frame grammars. -/
inductive Version where
  | v22
  | v23
  | v24
  deriving DecidableEq, Repr

/-- The grammar a parser implements. -/
def ID3Parser.version : ID3Parser → Version
  | .v22 _ => .v22
  | .v23 _ => .v23
  | .v24 _ => .v24

/-- Length of a frame identifier. -/
def Version.idLen : Version → Nat
  | .v22 => 3
  | .v23 => 4
  | .v24 => 4

/-- Number of size bytes of a frame header. -/
def Version.sizeLen : Version → Nat
  | .v22 => 3
  | .v23 => 4
  | .v24 => 4

/-- Number of flag bytes of a frame header. -/
def Version.flagsLen : Version → Nat
  | .v22 => 0
  | .v23 => 2
  | .v24 => 2

/-- Length of a frame header: identifier, size and flags. -/
def Version.headerLen (v : Version) : Nat :=
  v.idLen + v.sizeLen + v.flagsLen

/-- The frame size `ReadFrame` computes from the size bytes of a frame header. -/
def Version.frameSize : Version → List Byte → Int
  | .v22, size =>
    (((size.getD 0 0).val <<< 16 ||| (size.getD 1 0).val <<< 8 ||| (size.getD 2 0).val : Nat) : Int)
  | .v23, size => toInt32 (bigEndian32 size)
  | .v24, size => parseSize size

/-- The fields of a `File` that frames fill. -/
inductive Field where
  | album
  | track
  | artist
  | name
  | year
  | disc
  | genre
  | length
  deriving DecidableEq, Repr

/-- The value of a field of the record. -/
def File.get (file : File) : Field → GoString
  | .album => file.Album
  | .track => file.Track
  | .artist => file.Artist
  | .name => file.Name
  | .year => file.Year
  | .disc => file.Disc
  | .genre => file.Genre
  | .length => file.Length

/-- The record with one field replaced. -/
def File.set (file : File) : Field → GoString → File
  | .album, s => { file with Album := s }
  | .track, s => { file with Track := s }
  | .artist, s => { file with Artist := s }
  | .name, s => { file with Name := s }
  | .year, s => { file with Year := s }
  | .disc, s => { file with Disc := s }
  | .genre, s => { file with Genre := s }
  | .length, s => { file with Length := s }

/-- The field-producing identifiers of each version, with the field each one fills. -/
def Version.fieldTable : Version → List (GoString × Field)
  | .v22 => [(ascii "TAL", .album), (ascii "TRK", .track), (ascii "TP1", .artist),
             (ascii "TT2", .name), (ascii "TYE", .year), (ascii "TPA", .disc),
             (ascii "TCO", .genre)]
  | .v23 => [(ascii "TALB", .album), (ascii "TRCK", .track), (ascii "TPE1", .artist),
             (ascii "TIT2", .name), (ascii "TYER", .year), (ascii "TPOS", .disc),
             (ascii "TCON", .genre), (ascii "TLEN", .length)]
  | .v24 => [(ascii "TALB", .album), (ascii "TRCK", .track), (ascii "TPE1", .artist),
             (ascii "TIT2", .name), (ascii "TDRC", .year), (ascii "TPOS", .disc),
             (ascii "TCON", .genre), (ascii "TLEN", .length)]

/-- The identifiers each version skips. -/
def Version.skipIDs : Version → List GoString
  | .v22 => v22SkipIDs
  | .v23 => v23SkipIDs
  | .v24 => v24SkipIDs

/-- The version byte of the tag header that selects the grammar. -/
def Version.major : Version → Byte
  | .v22 => 2
  | .v23 => 3
  | .v24 => 4

/-- The parser `Read` makes for a version. -/
def Version.parser : Version → Reader → ID3Parser
  | .v22, reader => NewID3v22Parser reader
  | .v23, reader => NewID3v23Parser reader
  | .v24, reader => NewID3v24Parser reader

/-- A frame as it lies in a tag: identifier, size bytes, flag bytes, payload. -/
structure Frame where
  id : GoString
  size : List Byte
  flags : List Byte
  payload : List Byte
  deriving DecidableEq, Repr

/-- The bytes of a frame. -/
def Frame.bytes (f : Frame) : List Byte :=
  f.id ++ f.size ++ f.flags ++ f.payload

/-- A frame that `ReadFrame` of the version reads to its end: its header has the layout of the
version, the size it declares is the length of its payload, and its identifier is either
field-producing, with a payload that `parseString` decodes, or one of the skipped ones. -/
def Frame.WellFormed (v : Version) (f : Frame) : Prop :=
  f.size.length = v.sizeLen ∧ f.flags.length = v.flagsLen ∧
    v.frameSize f.size = (f.payload.length : Int) ∧
    ((∃ fld text, (f.id, fld) ∈ v.fieldTable ∧ parseString f.payload = .ok text) ∨
      f.id ∈ v.skipIDs)

/-- A byte in 'A'..'Z' or '0'..'9'. -/
def isIDByte (c : Byte) : Prop :=
  (0x41 ≤ c ∧ c ≤ 0x5A) ∨ (0x30 ≤ c ∧ c ≤ 0x39)

instance (c : Byte) : Decidable (isIDByte c) := by
  unfold isIDByte; infer_instance

end ID3

namespace ID3

/-! ## Vocabulary of the text decoder -/

/-- Code points with the trailing run of U+0000 removed. -/
def stripNul (p : List Nat) : List Nat :=
  (p.reverse.dropWhile fun r => r = 0).reverse

/-- The text `parseString` has decoded when it reaches its `return`: the value of `s` that
`strings.TrimRight` is applied to. -/
def decodeText (data : List Byte) : Except Panic GoString :=
  match data with
  | [] => .error .indexOutOfRange
  | sel :: rest =>
    if sel = 0 then .ok (runesToString (expand rest))
    else if sel = 1 then
      match toUTF16 rest with
      | .error e => .error e
      | .ok u => .ok (runesToString (utf16Decode u))
    else if sel = 2 then .error .unsupportedEncoding
    else if sel = 3 then .ok rest
    else .ok (runesToString (expand data))

end ID3

namespace ID3

/-! ## Vocabulary of a run of frames -/

/-- The field an identifier fills, by the table of the version. -/
def Version.fieldOf (v : Version) (id : GoString) : Option Field :=
  List.lookup id v.fieldTable

/-- The record after one well-formed frame: a field-producing frame with a payload that decodes
replaces its field, any other frame leaves the record as it is. -/
def Frame.apply (v : Version) (file : File) (f : Frame) : File :=
  match v.fieldOf f.id, parseString f.payload with
  | some fld, .ok text => file.set fld text
  | _, _ => file

end ID3

namespace ID3

/-! ## Vocabulary of the frame loop -/

/-- Number of times the loop `for parser.HasFrame() { parser.ReadFrame(file) }` of `Read` enters
its body, counted over the first `fuel` tests of `HasFrame`: the loop of `frameLoop` with a
counter in place of the record it returns. -/
def frameLoopIterations : Nat → ID3Parser → File → Nat
  | 0, _, _ => 0
  | fuel + 1, parser, file =>
    match parser.HasFrame with
    | (false, _) => 0
    | (true, parser) =>
      match parser.ReadFrame file with
      | .error _ => 1
      | .ok (file, parser) => frameLoopIterations fuel parser file + 1

end ID3

namespace ID3

/-! ## Size codec: lemmas -/

theorem low7_lt (b : Nat) : b &&& 0x7f < 128 :=
  Nat.lt_succ_of_le Nat.and_le_right

theorem toInt32_of_lt {x : Nat} (h : x < 2 ^ 31) : toInt32 x = (x : Int) := by
  have h1 : x % 2 ^ 32 = x := Nat.mod_eq_of_lt (by omega)
  simp only [toInt32, h1]
  rw [if_pos h]

/-- The bit pattern built from four 7-bit groups fits in 28 bits. -/
theorem synchsafe_lt (x0 x1 x2 x3 : Nat) (h0 : x0 < 128) (h1 : x1 < 128) (h2 : x2 < 128)
    (h3 : x3 < 128) : x0 <<< 21 ||| x1 <<< 14 ||| x2 <<< 7 ||| x3 < 2 ^ 28 := by
  have e0 : x0 <<< 21 < 2 ^ 28 := by rw [Nat.shiftLeft_eq]; omega
  have e1 : x1 <<< 14 < 2 ^ 28 := by rw [Nat.shiftLeft_eq]; omega
  have e2 : x2 <<< 7 < 2 ^ 28 := by rw [Nat.shiftLeft_eq]; omega
  have e3 : x3 < 2 ^ 28 := by omega
  exact Nat.or_lt_two_pow (Nat.or_lt_two_pow (Nat.or_lt_two_pow e0 e1) e2) e3

theorem parseSizeLoop_four (b0 b1 b2 b3 : Byte) :
    parseSizeLoop 4 0 [b0, b1, b2, b3] 0 =
      (b0.val &&& 0x7f) <<< 21 ||| (b1.val &&& 0x7f) <<< 14 ||| (b2.val &&& 0x7f) <<< 7
        ||| (b3.val &&& 0x7f) := by
  have h0 := low7_lt b0.val
  have h1 := low7_lt b1.val
  have h2 := low7_lt b2.val
  have h3 := low7_lt b3.val
  have m0 : (b0.val &&& 0x7f) <<< 21 < 4294967296 := by rw [Nat.shiftLeft_eq]; omega
  have m1 : (b1.val &&& 0x7f) <<< 14 < 4294967296 := by rw [Nat.shiftLeft_eq]; omega
  have m2 : (b2.val &&& 0x7f) <<< 7 < 4294967296 := by rw [Nat.shiftLeft_eq]; omega
  have m3 : (b3.val &&& 0x7f) < 4294967296 := by omega
  simp only [parseSizeLoop]
  norm_num
  rw [Nat.mod_eq_of_lt m0, Nat.mod_eq_of_lt m1, Nat.mod_eq_of_lt m2, Nat.mod_eq_of_lt m3]

theorem parseSize_four (b0 b1 b2 b3 : Byte) :
    parseSize [b0, b1, b2, b3] =
      (((b0.val &&& 0x7F) <<< 21 ||| (b1.val &&& 0x7F) <<< 14 ||| (b2.val &&& 0x7F) <<< 7
        ||| (b3.val &&& 0x7F) : Nat) : Int) := by
  have hlt := synchsafe_lt _ _ _ _ (low7_lt b0.val) (low7_lt b1.val) (low7_lt b2.val)
    (low7_lt b3.val)
  unfold parseSize
  rw [show [b0, b1, b2, b3].length = 4 from rfl, parseSizeLoop_four]
  exact toInt32_of_lt (by omega)

theorem parseSize_four_range (b0 b1 b2 b3 : Byte) :
    0 ≤ parseSize [b0, b1, b2, b3] ∧ parseSize [b0, b1, b2, b3] ≤ 0x0FFFFFFF := by
  have hlt := synchsafe_lt _ _ _ _ (low7_lt b0.val) (low7_lt b1.val) (low7_lt b2.val)
    (low7_lt b3.val)
  rw [parseSize_four]
  constructor
  · exact Int.natCast_nonneg _
  · omega

theorem shl_or_eq_add (a b i : Nat) (h : b < 2 ^ i) : a <<< i ||| b = 2 ^ i * a + b := by
  rw [Nat.shiftLeft_eq, Nat.mul_comm, Nat.mul_add_lt_is_or h]

theorem low7_ofNat (x : Nat) : ((Fin.ofNat (x &&& 0x7F) : Byte).val &&& 0x7F) = x % 128 := by
  have h1 : x &&& 0x7F = x % 2 ^ 7 := Nat.and_pow_two_sub_one_eq_mod x 7
  have h2 : (x % 128) &&& 0x7F = (x % 128) % 2 ^ 7 := Nat.and_pow_two_sub_one_eq_mod _ 7
  simp only [Fin.ofNat]
  norm_num at h1 h2 ⊢
  rw [h1, Nat.mod_eq_of_lt (show x % 128 < 256 by omega), h2]

/-! ## C1, C2: the synch-safe size -/

/-- C1: on four bytes `parseSize` returns `(b0 & 0x7F)<<21 | (b1 & 0x7F)<<14 | (b2 & 0x7F)<<7 |
(b3 & 0x7F)`, whatever the high bits of the bytes are (it is a total function: there is no
error), the result lies in `[0, 0x0FFFFFFF]`, `[0x00,0x00,0x02,0x01]` decodes to 257 and
`[0x7F,0x7F,0x7F,0x7F]` to `0x0FFFFFFF`. -/
theorem parseSize_synchsafe (b0 b1 b2 b3 : Byte) :
    parseSize [b0, b1, b2, b3] =
        (((b0.val &&& 0x7F) <<< 21 ||| (b1.val &&& 0x7F) <<< 14 ||| (b2.val &&& 0x7F) <<< 7
          ||| (b3.val &&& 0x7F) : Nat) : Int)
      ∧ 0 ≤ parseSize [b0, b1, b2, b3] ∧ parseSize [b0, b1, b2, b3] ≤ 0x0FFFFFFF
      ∧ parseSize [0x00, 0x00, 0x02, 0x01] = 257
      ∧ parseSize [0x7F, 0x7F, 0x7F, 0x7F] = 0x0FFFFFFF :=
  ⟨parseSize_four b0 b1 b2 b3, (parseSize_four_range b0 b1 b2 b3).1,
    (parseSize_four_range b0 b1 b2 b3).2, by decide, by decide⟩

/-- C2: round trip of the synch-safe size: for `0 ≤ S ≤ 0x0FFFFFFF` the four bytes
`[(S>>21)&0x7F, (S>>14)&0x7F, (S>>7)&0x7F, S&0x7F]` decode to `S`. -/
theorem parseSize_roundtrip (S : Nat) (hS : S ≤ 0x0FFFFFFF) :
    parseSize [Fin.ofNat ((S >>> 21) &&& 0x7F), Fin.ofNat ((S >>> 14) &&& 0x7F),
      Fin.ofNat ((S >>> 7) &&& 0x7F), Fin.ofNat (S &&& 0x7F)] = (S : Int) := by
  rw [parseSize_four, low7_ofNat, low7_ofNat, low7_ofNat, low7_ofNat]
  have e0 : (S >>> 14 % 128) <<< 14 < 2 ^ 21 := by rw [Nat.shiftLeft_eq]; omega
  have e1 : (S >>> 7 % 128) <<< 7 < 2 ^ 14 := by rw [Nat.shiftLeft_eq]; omega
  have e2 : S % 128 < 2 ^ 7 := by omega
  rw [Nat.or_assoc, Nat.or_assoc, shl_or_eq_add _ _ 21, shl_or_eq_add _ _ 14,
    shl_or_eq_add _ _ 7 e2]
  · simp only [Nat.shiftRight_eq_div_pow]
    congr 1
    omega
  · rw [shl_or_eq_add _ _ 7 e2]; omega
  · rw [shl_or_eq_add _ _ 14, shl_or_eq_add _ _ 7 e2]
    · omega
    · rw [shl_or_eq_add _ _ 7 e2]; omega

/-- C2 at `S = 0x0ABCDEF`. -/
theorem parseSize_roundtrip_witness :
    (0x0ABCDEF : Nat) ≤ 0x0FFFFFFF ∧
      parseSize [Fin.ofNat ((0x0ABCDEF >>> 21) &&& 0x7F), Fin.ofNat ((0x0ABCDEF >>> 14) &&& 0x7F),
        Fin.ofNat ((0x0ABCDEF >>> 7) &&& 0x7F), Fin.ofNat (0x0ABCDEF &&& 0x7F)]
        = ((0x0ABCDEF : Nat) : Int) :=
  ⟨by decide, parseSize_roundtrip 0x0ABCDEF (by decide)⟩

end ID3

namespace ID3

/-! ## Reading from a stream: basic facts -/

theorem ascii_ID3 : ascii "ID3" = [0x49, 0x44, 0x33] := by decide

/-- A list of at least ten bytes, taken apart. -/
theorem exists_ten (s : List Byte) (h : 10 ≤ s.length) :
    ∃ b0 b1 b2 b3 b4 b5 b6 b7 b8 b9 rest,
      s = b0 :: b1 :: b2 :: b3 :: b4 :: b5 :: b6 :: b7 :: b8 :: b9 :: rest := by
  match s, h with
  | b0 :: b1 :: b2 :: b3 :: b4 :: b5 :: b6 :: b7 :: b8 :: b9 :: rest, _ =>
    exact ⟨b0, b1, b2, b3, b4, b5, b6, b7, b8, b9, rest, rfl⟩

/-- The header of a stream of at least ten bytes that is read without short reads. -/
theorem parseID3v2Header_cons (b0 b1 b2 b3 b4 b5 b6 b7 b8 b9 : Byte) (rest : List Byte) :
    parseID3v2Header (Reader.ofBytes (b0 :: b1 :: b2 :: b3 :: b4 :: b5 :: b6 :: b7 :: b8 :: b9 :: rest))
      = ({ Version := b3.val, MinorVersion := b4.val, Unsynchronization := flagBit b5 7,
           Extended := flagBit b5 6, Experimental := flagBit b5 5, Footer := flagBit b5 4,
           Size := parseSize [b6, b7, b8, b9] },
         { data := rest, pos := 10, short := [] }) := by
  simp [parseID3v2Header, Reader.Read, Reader.ofBytes, Reader.chunk]

/-- The magic check looks at the first three bytes only. -/
theorem isID3Tag_iff (r : Reader) : isID3Tag r = true ↔ r.data.take 3 = ascii "ID3" := by
  rw [ascii_ID3]
  match h : r.data with
  | [] => simp [isID3Tag, Reader.Peek, h]
  | [a] => simp [isID3Tag, Reader.Peek, h]
  | [a, b] => simp [isID3Tag, Reader.Peek, h]
  | a :: b :: c :: rest => simp [isID3Tag, Reader.Peek, h, and_assoc]

/-! ## C3, C4, C5: the tag header -/

/-- The header of a stream read without short reads: on a stream `s` of at least 10 bytes that
begins with "ID3", `parseID3v2Header` consumes exactly 10 bytes and returns `Version` = byte 3,
`MinorVersion` = byte 4 and `Size` = `parseSize` of bytes 6..9; the bytes
"ID3" 04 00 00 00 00 00 10 give major 4, minor 0, all four flags false and size 16. -/
theorem parseID3v2Header_decodes (s : List Byte) (hlen : 10 ≤ s.length)
    (hmagic : s.take 3 = ascii "ID3") :
    (parseID3v2Header (Reader.ofBytes s)).2.pos = 10
      ∧ (parseID3v2Header (Reader.ofBytes s)).2.data = s.drop 10
      ∧ (parseID3v2Header (Reader.ofBytes s)).1.Version = (s.getD 3 0).val
      ∧ (parseID3v2Header (Reader.ofBytes s)).1.MinorVersion = (s.getD 4 0).val
      ∧ (parseID3v2Header (Reader.ofBytes s)).1.Size = parseSize ((s.drop 6).take 4)
      ∧ (parseID3v2Header (Reader.ofBytes (ascii "ID3" ++ [0x04, 0x00, 0x00, 0x00, 0x00, 0x00, 0x10]))).1
          = { Version := 4, MinorVersion := 0, Unsynchronization := false, Extended := false,
              Experimental := false, Footer := false, Size := 16 } := by
  obtain ⟨b0, b1, b2, b3, b4, b5, b6, b7, b8, b9, rest, rfl⟩ := exists_ten s hlen
  rw [parseID3v2Header_cons]
  refine ⟨rfl, rfl, rfl, rfl, rfl, by decide⟩

/-- The ten header bytes "ID3" 03 00 00 00 00 02 01 followed by one more byte, read without
short reads. -/
theorem parseID3v2Header_decodes_witness :
    (parseID3v2Header (Reader.ofBytes (ascii "ID3" ++ [3, 0, 0, 0, 0, 2, 1, 7]))).2.pos = 10
      ∧ (parseID3v2Header (Reader.ofBytes (ascii "ID3" ++ [3, 0, 0, 0, 0, 2, 1, 7]))).1.Size = 257 := by
  have h := parseID3v2Header_decodes (ascii "ID3" ++ [3, 0, 0, 0, 0, 2, 1, 7]) (by decide)
    (by decide)
  exact ⟨h.1, by decide⟩

set_option maxRecDepth 8192 in
/-- C3 (the code at the failing input): the ten header bytes "ID3" 04 00 00 00 00 00 10 on a
stream whose first `Read` delivers nine of them.  `parseID3v2Header` calls `Read` once and looks
at neither the count nor the error: it consumes 9 bytes, not 10, and decodes the size from a
buffer whose last byte is still zero, 0 in place of 16.  With a first `Read` of three bytes the
version is 0 as well. -/
theorem parseID3v2Header_short_read :
    parseID3v2Header ⟨ascii "ID3" ++ [0x04, 0x00, 0x00, 0x00, 0x00, 0x00, 0x10], 0, [9], false⟩
        = ({ Version := 4, MinorVersion := 0, Unsynchronization := false, Extended := false,
             Experimental := false, Footer := false, Size := 0 },
           ⟨[0x10], 9, [], false⟩)
      ∧ parseID3v2Header ⟨ascii "ID3" ++ [0x04, 0x00, 0x00, 0x00, 0x00, 0x00, 0x10], 0, [3], false⟩
        = ({ Version := 0, MinorVersion := 0, Unsynchronization := false, Extended := false,
             Experimental := false, Footer := false, Size := 0 },
           ⟨[0x04, 0x00, 0x00, 0x00, 0x00, 0x00, 0x10], 3, [], false⟩) := by
  decide

/-- All four header flags are bit 0 of the flag byte: `b&1<<k` is `(b&1)<<k`. -/
theorem flagBit_eq_bit0 (b : Byte) (k : Nat) (hk : k ≤ 7) :
    flagBit b k = decide (b.val % 2 = 1) := by
  have h1 : b.val &&& 1 = b.val % 2 ^ 1 := Nat.and_pow_two_sub_one_eq_mod b.val 1
  have h2 : b.val % 2 = 0 ∨ b.val % 2 = 1 := by omega
  unfold flagBit
  rw [h1, Nat.shiftLeft_eq]
  norm_num
  interval_cases k <;> rcases h2 with h2 | h2 <;> simp [h2]

/-- C4 (the code at the failing inputs): with the flag byte 0x80 (bit 7 alone) the header has
`Unsynchronization = false`, as with 0x40, 0x20 and 0x10 the other three flags are false;
with the flag byte 0x01 all four flags are true together. -/
theorem parseID3v2Header_flags_are_bit0 :
    (parseID3v2Header (Reader.ofBytes (ascii "ID3" ++ [4, 0, 0x80, 0, 0, 0, 0x10]))).1.Unsynchronization = false
      ∧ (parseID3v2Header (Reader.ofBytes (ascii "ID3" ++ [4, 0, 0x40, 0, 0, 0, 0x10]))).1.Extended = false
      ∧ (parseID3v2Header (Reader.ofBytes (ascii "ID3" ++ [4, 0, 0x20, 0, 0, 0, 0x10]))).1.Experimental = false
      ∧ (parseID3v2Header (Reader.ofBytes (ascii "ID3" ++ [4, 0, 0x10, 0, 0, 0, 0x10]))).1.Footer = false
      ∧ (parseID3v2Header (Reader.ofBytes (ascii "ID3" ++ [4, 0, 0x01, 0, 0, 0, 0x10]))).1
          = { Version := 4, MinorVersion := 0, Unsynchronization := true, Extended := true,
              Experimental := true, Footer := true, Size := 16 } := by
  decide

/-- C5: on every stream whose first three bytes are not 'I','D','3' (a stream of fewer than three
bytes included), whatever follows and however the reads are cut, `Read` returns `nil` and does
not panic. -/
theorem Read_not_a_tag (r : Reader) (h : r.data.take 3 ≠ ascii "ID3") : Read r = .ok none := by
  have h' : isID3Tag r = false := by
    cases hb : isID3Tag r
    · rfl
    · exact absurd ((isID3Tag_iff r).1 hb) h
  simp [Read, h']

/-- C5 on the stream "ID" and on a stream that starts with "id3" and goes on as a v2.3 tag. -/
theorem Read_not_a_tag_witness :
    Read (Reader.ofBytes (ascii "ID")) = .ok none
      ∧ Read (Reader.ofBytes (ascii "id3" ++ [3, 0, 0, 0, 0, 0, 0])) = .ok none :=
  ⟨Read_not_a_tag (Reader.ofBytes (ascii "ID")) (by decide),
   Read_not_a_tag (Reader.ofBytes (ascii "id3" ++ [3, 0, 0, 0, 0, 0, 0])) (by decide)⟩

end ID3

namespace ID3

/-! ## Reading from a stream: the loops, under any schedule of short reads -/

theorem Reader.Advanced.trans {r r' r'' : Reader} {n m : Nat} (h1 : r.Advanced r' n)
    (h2 : r'.Advanced r'' m) : r.Advanced r'' (n + m) := by
  obtain ⟨hd1, hp1, he1, k1, hs1⟩ := h1
  obtain ⟨hd2, hp2, he2, k2, hs2⟩ := h2
  refine ⟨?_, by omega, he2.trans he1, k1 + k2, by rw [hs2, hs1, List.drop_drop, Nat.add_comm]⟩
  rw [hd2, hd1, List.drop_drop, Nat.add_comm]

theorem Reader.Advanced.zero (r : Reader) : r.Advanced r 0 :=
  ⟨by simp, rfl, rfl, 0, by simp⟩

/-- A reader without short reads stays one. -/
theorem Reader.Advanced.short_nil {r r' : Reader} {n : Nat} (h : r.Advanced r' n)
    (hs : r.short = []) : r'.short = [] := by
  obtain ⟨_, _, _, k, hk⟩ := h
  rw [hk, hs, List.drop_nil]

theorem Reader.chunk_pos (r : Reader) (n : Nat) (hn : 0 < n) : 0 < r.chunk n := by
  unfold Reader.chunk
  split
  · exact hn
  · omega

theorem Reader.chunk_le (r : Reader) (n : Nat) : r.chunk n ≤ n := by
  unfold Reader.chunk
  split
  · exact Nat.le_refl n
  · omega

/-- A `Read` of `n > 0` bytes from a stream that is not exhausted delivers the next `k` bytes for
some `1 ≤ k ≤ n` and moves the reader past them; it reports an error with them only when it is
a read for 4096 bytes or more that takes all that is left of a stream that ends so. -/
theorem Reader.Read_some (r : Reader) (n : Nat) (hn : 0 < n) (hd : r.data ≠ []) :
    ∃ k r', r.Read n =
        (r.data.take k, r.eofWithData && decide (4096 ≤ n ∧ r.data.length ≤ k), r') ∧
      0 < k ∧ k ≤ n ∧ r'.data = r.data.drop k ∧ r'.pos = r.pos + (r.data.take k).length ∧
      r'.eofWithData = r.eofWithData ∧ r'.short = r.short.drop 1 ∧ (r.short = [] → k = n) := by
  refine ⟨r.chunk n, Reader.mk (r.data.drop (r.chunk n))
    (r.pos + (r.data.take (r.chunk n)).length) r.short.tail r.eofWithData, ?_,
    r.chunk_pos n hn, r.chunk_le n, rfl, rfl, rfl, (List.drop_one _).symm, ?_⟩
  swap
  · intro hs
    simp only [Reader.chunk, hs]
  have h1 : n ≠ 0 := by omega
  have h2 : r.data.isEmpty = false := by
    cases h : r.data
    · exact absurd h hd
    · rfl
  simp [Reader.Read, h1, h2]

/-- A `Read` that cannot report an error together with its bytes: the stream does not end so,
or fewer than 4096 bytes are asked for, or more bytes are left than are asked for. -/
theorem Reader.Read_plain (r : Reader) (n : Nat) (hn : 0 < n) (hd : r.data ≠ [])
    (hq : r.eofWithData = false ∨ n < 4096 ∨ n < r.data.length) :
    ∃ k r', r.Read n = (r.data.take k, false, r') ∧ 0 < k ∧ k ≤ n ∧
      r'.data = r.data.drop k ∧ r'.pos = r.pos + (r.data.take k).length ∧
      r'.eofWithData = r.eofWithData ∧ r'.short = r.short.drop 1 := by
  obtain ⟨k, r', hread, hk0, hkn, hdata, hpos, hflag, hshort, _⟩ := r.Read_some n hn hd
  refine ⟨k, r', ?_, hk0, hkn, hdata, hpos, hflag, hshort⟩
  rw [hread]
  have herr : (r.eofWithData && decide (4096 ≤ n ∧ r.data.length ≤ k)) = false := by
    rcases hq with h | h | h
    · simp [h]
    · have : ¬ (4096 ≤ n ∧ r.data.length ≤ k) := by omega
      simp [this]
    · have : ¬ (4096 ≤ n ∧ r.data.length ≤ k) := by omega
      simp [this]
  rw [herr]

/-- A `Read` from an exhausted stream fails. -/
theorem Reader.Read_eof (r : Reader) (n : Nat) (hn : 0 < n) (hd : r.data = []) :
    r.Read n = ([], true, r) := by
  have h1 : n ≠ 0 := by omega
  simp [Reader.Read, h1, hd]

/-- The condition under which no `Read` reports an error together with its bytes goes on holding
behind a `Read` of `k` bytes. -/
theorem plain_step (flag : Bool) (need len k : Nat) (hkn : k ≤ need)
    (hq : flag = false ∨ need < 4096 ∨ need < len) :
    flag = false ∨ need - k < 4096 ∨ need - k < len - k := by
  rcases hq with h | h | h
  · exact Or.inl h
  · exact Or.inr (Or.inl (by omega))
  · exact Or.inr (Or.inr (by omega))

/-- The condition under which no `Read` reports an error together with its bytes, for a `Read`
into the scratch buffer of `skipBytes`. -/
theorem plain_stop (flag : Bool) (need len : Nat)
    (hq : flag = false ∨ need < 4096 ∨ need < len) :
    flag = false ∨ (if need > 1024 * 4 then 1024 * 4 else need) < 4096 ∨
      (if need > 1024 * 4 then 1024 * 4 else need) < len := by
  rcases hq with h | h | h
  · exact Or.inl h
  · exact Or.inr (Or.inl (by split <;> omega))
  · exact Or.inr (Or.inr (by split <;> omega))

/-- The loop of `readBytes` stores the next `need` bytes and moves past them, when they are
there and no `Read` can report an error together with the last of them. -/
theorem readBytesLoop_ok (fuel : Nat) : ∀ (r : Reader) (need : Nat) (b : List Byte),
    need ≤ fuel → need ≤ r.data.length →
    (r.eofWithData = false ∨ need < 4096 ∨ need < r.data.length) →
    ∃ r', readBytesLoop fuel r need b = .ok (b ++ r.data.take need, r') ∧ r.Advanced r' need := by
  induction fuel with
  | zero =>
    intro r need b hf _ _
    have h0 : need = 0 := by omega
    subst h0
    exact ⟨r, by simp [readBytesLoop], Reader.Advanced.zero r⟩
  | succ fuel ih =>
    intro r need b hf hl hq
    cases need with
    | zero => exact ⟨r, by simp [readBytesLoop], Reader.Advanced.zero r⟩
    | succ need =>
      have hd : r.data ≠ [] := by
        intro h; rw [h] at hl; simp at hl
      obtain ⟨k, r1, hread, hk0, hkn, hdata, hpos, hflag, hshort⟩ :=
        r.Read_plain (need + 1) (by omega) hd hq
      have hlen : (r.data.take k).length = k := by
        rw [List.length_take]; omega
      obtain ⟨r2, hloop, hadv⟩ := ih r1 (need + 1 - k) (b ++ r.data.take k) (by omega)
        (by rw [hdata, List.length_drop]; omega)
        (by rw [hflag, hdata, List.length_drop]; exact plain_step _ _ _ k hkn hq)
      refine ⟨r2, ?_, ?_⟩
      · simp only [readBytesLoop, hread, hlen, hloop, hdata]
        rw [List.append_assoc, ← List.take_add, show k + (need + 1 - k) = need + 1 by omega]
      · have h1 : r.Advanced r1 k := ⟨hdata, by rw [hpos, hlen], hflag, 1, hshort⟩
        have h2 := h1.trans hadv
        rwa [show k + (need + 1 - k) = need + 1 by omega] at h2

/-- Function `readBytes` returns the next `c` bytes and moves past them, when they are there and
no `Read` can report an error together with the last of them. -/
theorem readBytes_ok (r : Reader) (c : Nat) (hl : c ≤ r.data.length)
    (hq : r.eofWithData = false ∨ c < 4096 ∨ c < r.data.length) :
    ∃ r', readBytes r (c : Int) = .ok (r.data.take c, r') ∧ r.Advanced r' c := by
  obtain ⟨r', h, hadv⟩ := readBytesLoop_ok c r c [] (Nat.le_refl c) hl hq
  refine ⟨r', ?_, hadv⟩
  have hneg : ¬ ((c : Int) < 0) := by omega
  simp only [readBytes, hneg, if_false, Int.toNat_ofNat, h, List.nil_append]

/-- The loop of `skipBytes` moves past the next `need` bytes, when they are there and no `Read`
can report an error together with the last of them, whatever the size of `need` and however the
reads are cut. -/
theorem skipBytesLoop_ok (fuel : Nat) : ∀ (r : Reader) (need : Nat),
    need ≤ fuel → need ≤ r.data.length →
    (r.eofWithData = false ∨ need < 4096 ∨ need < r.data.length) →
    ∃ r', skipBytesLoop fuel r need = .ok r' ∧ r.Advanced r' need := by
  induction fuel with
  | zero =>
    intro r need hf _ _
    have h0 : need = 0 := by omega
    subst h0
    exact ⟨r, by simp [skipBytesLoop], Reader.Advanced.zero r⟩
  | succ fuel ih =>
    intro r need hf hl hq
    cases need with
    | zero => exact ⟨r, by simp [skipBytesLoop], Reader.Advanced.zero r⟩
    | succ need =>
      have hd : r.data ≠ [] := by
        intro h; rw [h] at hl; simp at hl
      obtain ⟨k, r1, hread, hk0, hkn, hdata, hpos, hflag, hshort⟩ :=
        r.Read_plain (if need + 1 > 1024 * 4 then 1024 * 4 else need + 1) (by split <;> omega) hd
          (plain_stop _ _ _ hq)
      have hkn' : k ≤ need + 1 := by
        split at hkn <;> omega
      have hlen : (r.data.take k).length = k := by
        rw [List.length_take]; omega
      obtain ⟨r2, hloop, hadv⟩ := ih r1 (need + 1 - k) (by omega)
        (by rw [hdata, List.length_drop]; omega)
        (by rw [hflag, hdata, List.length_drop]; exact plain_step _ _ _ k hkn' hq)
      refine ⟨r2, ?_, ?_⟩
      · simp only [skipBytesLoop, hread, hlen, hloop]
      · have h1 : r.Advanced r1 k := ⟨hdata, by rw [hpos, hlen], hflag, 1, hshort⟩
        have h2 := h1.trans hadv
        rwa [show k + (need + 1 - k) = need + 1 by omega] at h2

/-- Function `skipBytes` moves past the next `c` bytes, when they are there and no `Read` can
report an error together with the last of them. -/
theorem skipBytes_ok (r : Reader) (c : Nat) (hl : c ≤ r.data.length)
    (hq : r.eofWithData = false ∨ c < 4096 ∨ c < r.data.length) :
    ∃ r', skipBytes r (c : Int) = .ok r' ∧ r.Advanced r' c := by
  obtain ⟨r', h, hadv⟩ := skipBytesLoop_ok c r c (Nat.le_refl c) hl hq
  exact ⟨r', by simp only [skipBytes, Int.toNat_ofNat, h], hadv⟩

/-- The loop of `io.ReadFull` stores the next `need` bytes, when they are there, also when the
last of them come with an error. -/
theorem readFullLoop_ok (fuel : Nat) : ∀ (r : Reader) (need : Nat) (b : List Byte),
    need ≤ fuel → need ≤ r.data.length →
    ∃ r', readFullLoop fuel r need b = .ok (b ++ r.data.take need, false, r') ∧
      r.Advanced r' need := by
  induction fuel with
  | zero =>
    intro r need b hf _
    have h0 : need = 0 := by omega
    subst h0
    exact ⟨r, by simp [readFullLoop], Reader.Advanced.zero r⟩
  | succ fuel ih =>
    intro r need b hf hl
    cases need with
    | zero => exact ⟨r, by simp [readFullLoop], Reader.Advanced.zero r⟩
    | succ need =>
      have hd : r.data ≠ [] := by
        intro h; rw [h] at hl; simp at hl
      obtain ⟨k, r1, hread, hk0, hkn, hdata, hpos, hflag, hshort, _⟩ :=
        r.Read_some (need + 1) (by omega) hd
      have hlen : (r.data.take k).length = k := by
        rw [List.length_take]; omega
      have h1 : r.Advanced r1 k := ⟨hdata, by rw [hpos, hlen], hflag, 1, hshort⟩
      cases herr : (r.eofWithData && decide (4096 ≤ need + 1 ∧ r.data.length ≤ k)) with
      | true =>
        have hk : k = need + 1 := by
          simp only [Bool.and_eq_true, decide_eq_true_eq] at herr
          omega
        rw [herr] at hread
        subst hk
        refine ⟨r1, ?_, h1⟩
        simp only [readFullLoop, hread, hlen, Nat.lt_irrefl, decide_False]
      | false =>
        rw [herr] at hread
        obtain ⟨r2, hloop, hadv⟩ := ih r1 (need + 1 - k) (b ++ r.data.take k) (by omega)
          (by rw [hdata, List.length_drop]; omega)
        refine ⟨r2, ?_, ?_⟩
        · simp only [readFullLoop, hread, hlen, hloop, hdata]
          rw [List.append_assoc, ← List.take_add, show k + (need + 1 - k) = need + 1 by omega]
        · have h2 := h1.trans hadv
          rwa [show k + (need + 1 - k) = need + 1 by omega] at h2

/-- Call `binary.Read` of `n` bytes decodes the next `n` bytes, when they are there. -/
theorem binaryRead_ok (r : Reader) (n : Nat) (hl : n ≤ r.data.length) :
    ∃ r', binaryRead r n = .ok (some (r.data.take n), r') ∧ r.Advanced r' n := by
  obtain ⟨r', h, hadv⟩ := readFullLoop_ok n r n [] (Nat.le_refl n) hl
  exact ⟨r', by simp only [binaryRead, h, List.nil_append], hadv⟩

end ID3

namespace ID3

/-! ## C10: `HasFrame` -/

theorem idByte_test (c : Byte) :
    (!((decide (c < 0x41) || decide (c > 0x5A)) && (decide (c < 0x30) || decide (c > 0x39))))
      = true ↔ isIDByte c := by
  have h := c.isLt
  simp only [isIDByte, Fin.lt_def, Fin.le_def, Bool.not_eq_true', Bool.and_eq_false_imp,
    Bool.or_eq_true, decide_eq_true_eq, Bool.or_eq_false_iff, decide_eq_false_iff_not, gt_iff_lt]
  simp only [show ((0x41 : Byte) : Nat) = 65 from rfl, show ((0x5A : Byte) : Nat) = 90 from rfl,
    show ((0x30 : Byte) : Nat) = 48 from rfl, show ((0x39 : Byte) : Nat) = 57 from rfl]
  omega

theorem not_idByte_of_zero_or_lower (c : Byte) (h : c = 0 ∨ (0x61 ≤ c ∧ c ≤ 0x7A)) :
    ¬ isIDByte c := by
  have hlt := c.isLt
  rcases h with h | h
  · subst h; decide
  · simp only [isIDByte, Fin.le_def] at h ⊢
    simp only [show ((0x41 : Byte) : Nat) = 65 from rfl, show ((0x5A : Byte) : Nat) = 90 from rfl,
      show ((0x30 : Byte) : Nat) = 48 from rfl, show ((0x39 : Byte) : Nat) = 57 from rfl,
      show ((0x61 : Byte) : Nat) = 97 from rfl, show ((0x7A : Byte) : Nat) = 122 from rfl] at h ⊢
    omega

/-- The test `HasFrame` makes on the bytes it peeked. -/
theorem all_idByte (data : List Byte) :
    (data.all fun c => !((c < 0x41 || c > 0x5A) && (c < 0x30 || c > 0x39))) = true
      ↔ ∀ c ∈ data, isIDByte c := by
  rw [List.all_eq_true]
  constructor
  · intro h c hc
    exact (idByte_test c).1 (by simpa using h c hc)
  · intro h c hc
    simpa using (idByte_test c).2 (h c hc)

theorem ID3Parser.HasFrame_snd (p : ID3Parser) : (p.HasFrame).2 = p := by
  cases p with
  | v22 p =>
    cases p
    simp only [ID3Parser.HasFrame, v22Parser.HasFrame, Reader.Peek]
    split <;> rfl
  | v23 p =>
    cases p
    simp only [ID3Parser.HasFrame, v23Parser.HasFrame, Reader.Peek]
    split <;> rfl
  | v24 p =>
    cases p
    simp only [ID3Parser.HasFrame, v24Parser.HasFrame, Reader.Peek]
    split <;> rfl

theorem ID3Parser.HasFrame_fst (p : ID3Parser) :
    (p.HasFrame).1 = true ↔
      p.version.idLen ≤ p.reader.data.length ∧
        ∀ c ∈ p.reader.data.take p.version.idLen, isIDByte c := by
  cases p with
  | v22 p =>
    simp only [ID3Parser.HasFrame, v22Parser.HasFrame, Reader.Peek, ID3Parser.version,
      Version.idLen, ID3Parser.reader]
    by_cases h : p.reader.data.length < 3
    · simp [h]
    · simp only [h, decide_False, Bool.false_eq_true, if_false, all_idByte]
      constructor
      · intro h'; exact ⟨by omega, h'⟩
      · intro h'; exact h'.2
  | v23 p =>
    simp only [ID3Parser.HasFrame, v23Parser.HasFrame, Reader.Peek, ID3Parser.version,
      Version.idLen, ID3Parser.reader]
    by_cases h : p.reader.data.length < 4
    · simp [h]
    · simp only [h, decide_False, Bool.false_eq_true, if_false, all_idByte]
      constructor
      · intro h'; exact ⟨by omega, h'⟩
      · intro h'; exact h'.2
  | v24 p =>
    simp only [ID3Parser.HasFrame, v24Parser.HasFrame, Reader.Peek, ID3Parser.version,
      Version.idLen, ID3Parser.reader]
    by_cases h : p.reader.data.length < 4
    · simp [h]
    · simp only [h, decide_False, Bool.false_eq_true, if_false, all_idByte]
      constructor
      · intro h'; exact ⟨by omega, h'⟩
      · intro h'; exact h'.2

/-- The frame loop stops, with the record as it is, when `HasFrame` says no. -/
theorem frameLoop_stop (p : ID3Parser) (h : (p.HasFrame).1 = false) (fuel : Nat) (file : File) :
    frameLoop (fuel + 1) p file = .ok file := by
  have h2 := p.HasFrame_snd
  rw [frameLoop]
  split
  · rfl
  · rename_i heq
    rw [heq] at h
    exact absurd h (by simp)

/-- C10: with `k` the identifier length of the version (3 for v2.2, 4 for v2.3 and v2.4),
`HasFrame` returns true iff at least `k` bytes remain in the region and each of the next `k`
bytes is in 'A'..'Z' or '0'..'9'; it never moves the reader; and a zero byte or a lowercase
letter among the next `k` bytes ends the frame loop. -/
theorem HasFrame_spec (p : ID3Parser) :
    ((p.HasFrame).1 = true ↔
        p.version.idLen ≤ p.reader.data.length ∧
          ∀ c ∈ p.reader.data.take p.version.idLen, isIDByte c)
      ∧ (p.HasFrame).2 = p
      ∧ ((∃ c ∈ p.reader.data.take p.version.idLen, c = 0 ∨ (0x61 ≤ c ∧ c ≤ 0x7A)) →
          (p.HasFrame).1 = false ∧ ∀ fuel file, frameLoop (fuel + 1) p file = .ok file) := by
  refine ⟨p.HasFrame_fst, p.HasFrame_snd, ?_⟩
  rintro ⟨c, hc, hbad⟩
  have hno : (p.HasFrame).1 = false := by
    cases hb : (p.HasFrame).1
    · rfl
    · exact absurd ((p.HasFrame_fst.1 hb).2 c hc) (not_idByte_of_zero_or_lower c hbad)
  exact ⟨hno, frameLoop_stop p hno⟩

end ID3

namespace ID3

/-! ## One frame: the header, then the dispatch on the identifier -/

/-- The condition under which no `Read` reports an error together with the last bytes of a run
`a`, when the stream goes on behind the run. -/
theorem plain_of_tail (r : Reader) (a tail : List Byte) (h : r.data = a ++ tail)
    (hq : r.eofWithData = false ∨ a.length < 4096 ∨ tail ≠ []) :
    r.eofWithData = false ∨ a.length < 4096 ∨ a.length < r.data.length := by
  rcases hq with hq | hq | hq
  · exact Or.inl hq
  · exact Or.inr (Or.inl hq)
  · have := List.length_pos.2 hq
    exact Or.inr (Or.inr (by rw [h, List.length_append]; omega))

theorem readBytes_prefix (r : Reader) (a tail : List Byte) (h : r.data = a ++ tail)
    (hq : r.eofWithData = false ∨ a.length < 4096 ∨ tail ≠ []) :
    ∃ r', readBytes r (a.length : Int) = .ok (a, r') ∧ r.Advanced r' a.length ∧ r'.data = tail := by
  obtain ⟨r', h1, h2⟩ := readBytes_ok r a.length (by rw [h, List.length_append]; omega)
    (plain_of_tail r a tail h hq)
  refine ⟨r', ?_, h2, ?_⟩
  · rw [h1, h, List.take_left]
  · rw [h2.1, h, List.drop_left]

theorem binaryRead_prefix (r : Reader) (a tail : List Byte) (h : r.data = a ++ tail) :
    ∃ r', binaryRead r a.length = .ok (some a, r') ∧ r.Advanced r' a.length ∧ r'.data = tail := by
  obtain ⟨r', h1, h2⟩ := binaryRead_ok r a.length (by rw [h, List.length_append]; omega)
  refine ⟨r', ?_, h2, ?_⟩
  · rw [h1, h, List.take_left]
  · rw [h2.1, h, List.drop_left]

theorem skipBytes_prefix (r : Reader) (a tail : List Byte) (h : r.data = a ++ tail)
    (hq : r.eofWithData = false ∨ a.length < 4096 ∨ tail ≠ []) :
    ∃ r', skipBytes r (a.length : Int) = .ok r' ∧ r.Advanced r' a.length ∧ r'.data = tail := by
  obtain ⟨r', h1, h2⟩ := skipBytes_ok r a.length (by rw [h, List.length_append]; omega)
    (plain_of_tail r a tail h hq)
  exact ⟨r', h1, h2, by rw [h2.1, h, List.drop_left]⟩

theorem readString_prefix (r : Reader) (a tail : List Byte) (text : GoString)
    (h : r.data = a ++ tail) (hdec : parseString a = .ok text)
    (hq : r.eofWithData = false ∨ a.length < 4096 ∨ tail ≠ []) :
    ∃ r', readString r (a.length : Int) = .ok (text, r') ∧ r.Advanced r' a.length ∧
      r'.data = tail := by
  obtain ⟨r', h1, h2, h3⟩ := readBytes_prefix r a tail h hq
  exact ⟨r', by simp only [readString, h1, hdec], h2, h3⟩

/-- What `v22Parser.ReadFrame` does once the six header bytes are read. -/
theorem v22Parser.ReadFrame_v22_header (p : v22Parser) (file : File) (id size tail : List Byte)
    (hid : id.length = 3) (hsize : size.length = 3) (h : p.reader.data = id ++ size ++ tail) :
    ∃ r, p.reader.Advanced r 6 ∧ r.data = tail ∧
      p.ReadFrame file =
        if id = ascii "TAL" then
          (readString r (Version.frameSize .v22 size)).map fun (s, reader) =>
            ({ file with Album := s }, ⟨reader⟩)
        else if id = ascii "TRK" then
          (readString r (Version.frameSize .v22 size)).map fun (s, reader) =>
            ({ file with Track := s }, ⟨reader⟩)
        else if id = ascii "TP1" then
          (readString r (Version.frameSize .v22 size)).map fun (s, reader) =>
            ({ file with Artist := s }, ⟨reader⟩)
        else if id = ascii "TT2" then
          (readString r (Version.frameSize .v22 size)).map fun (s, reader) =>
            ({ file with Name := s }, ⟨reader⟩)
        else if id = ascii "TYE" then
          (readString r (Version.frameSize .v22 size)).map fun (s, reader) =>
            ({ file with Year := s }, ⟨reader⟩)
        else if id = ascii "TPA" then
          (readString r (Version.frameSize .v22 size)).map fun (s, reader) =>
            ({ file with Disc := s }, ⟨reader⟩)
        else if id = ascii "TCO" then
          (readString r (Version.frameSize .v22 size)).map fun (s, reader) =>
            ({ file with Genre := s }, ⟨reader⟩)
        else if id ∈ v22SkipIDs then
          (skipBytes r (Version.frameSize .v22 size)).map fun reader => (file, ⟨reader⟩)
        else
          .error (.unrecognizedFrame id (Version.frameSize .v22 size)) := by
  obtain ⟨r1, h1, a1, d1⟩ := readBytes_prefix p.reader id (size ++ tail)
    (by rw [h, List.append_assoc]) (Or.inr (Or.inl (by omega)))
  obtain ⟨r2, h2, a2, d2⟩ := readBytes_prefix r1 size tail d1 (Or.inr (Or.inl (by omega)))
  rw [hid] at h1 a1
  rw [hsize] at h2 a2
  refine ⟨r2, a1.trans a2, d2, ?_⟩
  simp only [v22Parser.ReadFrame, Nat.cast_ofNat] at h1 h2 ⊢
  simp only [h1, h2, Version.frameSize]

/-- What `v23Parser.ReadFrame` does once the ten header bytes are read. -/
theorem v23Parser.ReadFrame_v23_header (p : v23Parser) (file : File) (id size flags tail : List Byte)
    (hid : id.length = 4) (hsize : size.length = 4) (hflags : flags.length = 2)
    (h : p.reader.data = id ++ size ++ flags ++ tail) :
    ∃ r, p.reader.Advanced r 10 ∧ r.data = tail ∧
      p.ReadFrame file =
        if id = ascii "TALB" then
          (readString r (Version.frameSize .v23 size)).map fun (s, reader) =>
            ({ file with Album := s }, ⟨reader⟩)
        else if id = ascii "TRCK" then
          (readString r (Version.frameSize .v23 size)).map fun (s, reader) =>
            ({ file with Track := s }, ⟨reader⟩)
        else if id = ascii "TPE1" then
          (readString r (Version.frameSize .v23 size)).map fun (s, reader) =>
            ({ file with Artist := s }, ⟨reader⟩)
        else if id = ascii "TCON" then
          (readString r (Version.frameSize .v23 size)).map fun (s, reader) =>
            ({ file with Genre := s }, ⟨reader⟩)
        else if id = ascii "TIT2" then
          (readString r (Version.frameSize .v23 size)).map fun (s, reader) =>
            ({ file with Name := s }, ⟨reader⟩)
        else if id = ascii "TYER" then
          (readString r (Version.frameSize .v23 size)).map fun (s, reader) =>
            ({ file with Year := s }, ⟨reader⟩)
        else if id = ascii "TPOS" then
          (readString r (Version.frameSize .v23 size)).map fun (s, reader) =>
            ({ file with Disc := s }, ⟨reader⟩)
        else if id = ascii "TLEN" then
          (readString r (Version.frameSize .v23 size)).map fun (s, reader) =>
            ({ file with Length := s }, ⟨reader⟩)
        else if id ∈ v23SkipIDs then
          (skipBytes r (Version.frameSize .v23 size)).map fun reader => (file, ⟨reader⟩)
        else
          .error (.unrecognizedFrame id (Version.frameSize .v23 size)) := by
  obtain ⟨r1, h1, a1, d1⟩ := readBytes_prefix p.reader id (size ++ (flags ++ tail))
    (by rw [h]; simp only [List.append_assoc]) (Or.inr (Or.inl (by omega)))
  obtain ⟨r2, h2, a2, d2⟩ := binaryRead_prefix r1 size (flags ++ tail) d1
  obtain ⟨r3, h3, a3, d3⟩ := binaryRead_prefix r2 flags tail d2
  rw [hid] at h1 a1
  rw [hsize] at h2 a2
  rw [hflags] at h3 a3
  refine ⟨r3, (a1.trans a2).trans a3, d3, ?_⟩
  simp only [v23Parser.ReadFrame, Nat.cast_ofNat] at h1 ⊢
  simp only [h1, h2, h3, Version.frameSize]

/-- What `v24Parser.ReadFrame` does once the ten header bytes are read. -/
theorem v24Parser.ReadFrame_v24_header (p : v24Parser) (file : File) (id size flags tail : List Byte)
    (hid : id.length = 4) (hsize : size.length = 4) (hflags : flags.length = 2)
    (h : p.reader.data = id ++ size ++ flags ++ tail) :
    ∃ r, p.reader.Advanced r 10 ∧ r.data = tail ∧
      p.ReadFrame file =
        if id = ascii "TALB" then
          (readString r (Version.frameSize .v24 size)).map fun (s, reader) =>
            ({ file with Album := s }, ⟨reader⟩)
        else if id = ascii "TRCK" then
          (readString r (Version.frameSize .v24 size)).map fun (s, reader) =>
            ({ file with Track := s }, ⟨reader⟩)
        else if id = ascii "TPE1" then
          (readString r (Version.frameSize .v24 size)).map fun (s, reader) =>
            ({ file with Artist := s }, ⟨reader⟩)
        else if id = ascii "TCON" then
          (readString r (Version.frameSize .v24 size)).map fun (s, reader) =>
            ({ file with Genre := s }, ⟨reader⟩)
        else if id = ascii "TIT2" then
          (readString r (Version.frameSize .v24 size)).map fun (s, reader) =>
            ({ file with Name := s }, ⟨reader⟩)
        else if id = ascii "TDRC" then
          (readString r (Version.frameSize .v24 size)).map fun (s, reader) =>
            ({ file with Year := s }, ⟨reader⟩)
        else if id = ascii "TPOS" then
          (readString r (Version.frameSize .v24 size)).map fun (s, reader) =>
            ({ file with Disc := s }, ⟨reader⟩)
        else if id = ascii "TLEN" then
          (readString r (Version.frameSize .v24 size)).map fun (s, reader) =>
            ({ file with Length := s }, ⟨reader⟩)
        else if id ∈ v24SkipIDs then
          (skipBytes r (Version.frameSize .v24 size)).map fun reader => (file, ⟨reader⟩)
        else
          .error (.unrecognizedFrame id (Version.frameSize .v24 size)) := by
  obtain ⟨r1, h1, a1, d1⟩ := readBytes_prefix p.reader id (size ++ (flags ++ tail))
    (by rw [h]; simp only [List.append_assoc]) (Or.inr (Or.inl (by omega)))
  obtain ⟨r2, h2, a2, d2⟩ := readBytes_prefix r1 size (flags ++ tail) d1
    (Or.inr (Or.inl (by omega)))
  obtain ⟨r3, h3, a3, d3⟩ := readBytes_prefix r2 flags tail d2 (Or.inr (Or.inl (by omega)))
  rw [hid] at h1 a1
  rw [hsize] at h2 a2
  rw [hflags] at h3 a3
  refine ⟨r3, (a1.trans a2).trans a3, d3, ?_⟩
  simp only [v24Parser.ReadFrame, Nat.cast_ofNat] at h1 h2 h3 ⊢
  simp only [h1, h2, h3, Version.frameSize]

end ID3

namespace ID3

/-! ## C9: skipped frames -/

theorem v22Skip_facts : ∀ id ∈ v22SkipIDs, id.length = 3 ∧ id ≠ ascii "TAL" ∧ id ≠ ascii "TRK" ∧
    id ≠ ascii "TP1" ∧ id ≠ ascii "TT2" ∧ id ≠ ascii "TYE" ∧ id ≠ ascii "TPA" ∧
    id ≠ ascii "TCO" := by
  decide

theorem v23Skip_facts : ∀ id ∈ v23SkipIDs, id.length = 4 ∧ id ≠ ascii "TALB" ∧
    id ≠ ascii "TRCK" ∧ id ≠ ascii "TPE1" ∧ id ≠ ascii "TCON" ∧ id ≠ ascii "TIT2" ∧
    id ≠ ascii "TYER" ∧ id ≠ ascii "TPOS" ∧ id ≠ ascii "TLEN" := by
  decide

theorem v24Skip_facts : ∀ id ∈ v24SkipIDs, id.length = 4 ∧ id ≠ ascii "TALB" ∧
    id ≠ ascii "TRCK" ∧ id ≠ ascii "TPE1" ∧ id ≠ ascii "TCON" ∧ id ≠ ascii "TIT2" ∧
    id ≠ ascii "TDRC" ∧ id ≠ ascii "TPOS" ∧ id ≠ ascii "TLEN" := by
  decide

theorem ID3Parser.ReadFrame_skip (p : ID3Parser) (file : File)
    (id size flags payload rest : List Byte) (N : Nat)
    (hid : id ∈ p.version.skipIDs) (hsize : size.length = p.version.sizeLen)
    (hflags : flags.length = p.version.flagsLen) (hN : p.version.frameSize size = (N : Int))
    (hpay : payload.length = N)
    (hdata : p.reader.data = id ++ size ++ flags ++ payload ++ rest)
    (hq : p.reader.eofWithData = false ∨ N < 4096 ∨ rest ≠ []) :
    ∃ p', p.ReadFrame file = .ok (file, p') ∧ p'.version = p.version ∧ p'.reader.data = rest ∧
      p'.reader.pos = p.reader.pos + p.version.headerLen + N ∧
      p'.reader.eofWithData = p.reader.eofWithData := by
  cases p with
  | v22 p =>
    simp only [ID3Parser.version, Version.skipIDs, Version.sizeLen, Version.flagsLen,
      Version.headerLen, Version.idLen, ID3Parser.reader] at *
    obtain ⟨hl, n1, n2, n3, n4, n5, n6, n7⟩ := v22Skip_facts id hid
    have hf : flags = [] := List.length_eq_zero.1 hflags
    subst hf
    obtain ⟨r, hadv, hd, heq⟩ := p.ReadFrame_v22_header file id size (payload ++ rest) hl hsize
      (by rw [hdata]; simp only [List.append_assoc, List.append_nil])
    obtain ⟨r', hs, hadv', hd'⟩ := skipBytes_prefix r payload rest hd
      (by rw [hadv.2.2.1, hpay]; exact hq)
    rw [hpay] at hs hadv'
    refine ⟨.v22 ⟨r'⟩, ?_, rfl, hd', ?_, (hadv.trans hadv').2.2.1⟩
    · simp only [ID3Parser.ReadFrame, heq, if_neg n1, if_neg n2, if_neg n3, if_neg n4, if_neg n5,
        if_neg n6, if_neg n7, if_pos hid, hN, hs, Except.map]
    · have := (hadv.trans hadv').2.1
      simp only [ID3Parser.reader]; omega
  | v23 p =>
    simp only [ID3Parser.version, Version.skipIDs, Version.sizeLen, Version.flagsLen,
      Version.headerLen, Version.idLen, ID3Parser.reader] at *
    obtain ⟨hl, n1, n2, n3, n4, n5, n6, n7, n8⟩ := v23Skip_facts id hid
    obtain ⟨r, hadv, hd, heq⟩ := p.ReadFrame_v23_header file id size flags (payload ++ rest) hl hsize
      hflags (by rw [hdata]; simp only [List.append_assoc])
    obtain ⟨r', hs, hadv', hd'⟩ := skipBytes_prefix r payload rest hd
      (by rw [hadv.2.2.1, hpay]; exact hq)
    rw [hpay] at hs hadv'
    refine ⟨.v23 ⟨r'⟩, ?_, rfl, hd', ?_, (hadv.trans hadv').2.2.1⟩
    · simp only [ID3Parser.ReadFrame, heq, if_neg n1, if_neg n2, if_neg n3, if_neg n4, if_neg n5,
        if_neg n6, if_neg n7, if_neg n8, if_pos hid, hN, hs, Except.map]
    · have := (hadv.trans hadv').2.1
      simp only [ID3Parser.reader]; omega
  | v24 p =>
    simp only [ID3Parser.version, Version.skipIDs, Version.sizeLen, Version.flagsLen,
      Version.headerLen, Version.idLen, ID3Parser.reader] at *
    obtain ⟨hl, n1, n2, n3, n4, n5, n6, n7, n8⟩ := v24Skip_facts id hid
    obtain ⟨r, hadv, hd, heq⟩ := p.ReadFrame_v24_header file id size flags (payload ++ rest) hl hsize
      hflags (by rw [hdata]; simp only [List.append_assoc])
    obtain ⟨r', hs, hadv', hd'⟩ := skipBytes_prefix r payload rest hd
      (by rw [hadv.2.2.1, hpay]; exact hq)
    rw [hpay] at hs hadv'
    refine ⟨.v24 ⟨r'⟩, ?_, rfl, hd', ?_, (hadv.trans hadv').2.2.1⟩
    · simp only [ID3Parser.ReadFrame, heq, if_neg n1, if_neg n2, if_neg n3, if_neg n4, if_neg n5,
        if_neg n6, if_neg n7, if_neg n8, if_pos hid, hN, hs, Except.map]
    · have := (hadv.trans hadv').2.1
      simp only [ID3Parser.reader]; omega

end ID3

namespace ID3

/-! ## C7: text frames -/

theorem File.get_set (file : File) (fld : Field) (s : GoString) :
    (file.set fld s).get fld = s ∧ (∀ g, g ≠ fld → (file.set fld s).get g = file.get g) ∧
      (file.set fld s).Header = file.Header := by
  refine ⟨?_, ?_, ?_⟩
  · cases fld <;> rfl
  · intro g hg
    cases fld <;> cases g <;> first | rfl | exact absurd rfl hg
  · cases fld <;> rfl

theorem ID3Parser.ReadFrame_text (p : ID3Parser) (file : File) (id : GoString) (fld : Field)
    (size flags payload rest : List Byte) (N : Nat) (text : GoString)
    (hid : (id, fld) ∈ p.version.fieldTable) (hsize : size.length = p.version.sizeLen)
    (hflags : flags.length = p.version.flagsLen) (hN : p.version.frameSize size = (N : Int))
    (hpay : payload.length = N) (hdec : parseString payload = .ok text)
    (hdata : p.reader.data = id ++ size ++ flags ++ payload ++ rest)
    (hq : p.reader.eofWithData = false ∨ N < 4096 ∨ rest ≠ []) :
    ∃ p', p.ReadFrame file = .ok (file.set fld text, p') ∧ p'.version = p.version ∧
      p'.reader.data = rest ∧ p'.reader.pos = p.reader.pos + p.version.headerLen + N ∧
      p'.reader.eofWithData = p.reader.eofWithData := by
  cases p with
  | v22 p =>
    simp only [ID3Parser.version, Version.sizeLen, Version.flagsLen,
      Version.headerLen, Version.idLen, ID3Parser.reader] at *
    have hf : flags = [] := List.length_eq_zero.1 hflags
    subst hf
    have hl : id.length = 3 := by
      simp only [Version.fieldTable, List.mem_cons, Prod.mk.injEq, List.mem_nil_iff,
        or_false] at hid
      rcases hid with h | h | h | h | h | h | h <;> (rw [h.1]; rfl)
    obtain ⟨r, hadv, hd, heq⟩ := p.ReadFrame_v22_header file id size (payload ++ rest) hl hsize
      (by rw [hdata]; simp only [List.append_assoc, List.append_nil])
    obtain ⟨r', hs, hadv', hd'⟩ := readString_prefix r payload rest text hd hdec
      (by rw [hadv.2.2.1, hpay]; exact hq)
    rw [hpay] at hs hadv'
    refine ⟨.v22 ⟨r'⟩, ?_, rfl, hd', ?_, (hadv.trans hadv').2.2.1⟩
    · simp only [Version.fieldTable, List.mem_cons, Prod.mk.injEq, List.mem_nil_iff,
        or_false] at hid
      rcases hid with h | h | h | h | h | h | h <;> obtain ⟨rfl, rfl⟩ := h <;>
        simp +decide only [ID3Parser.ReadFrame, heq, hN, hs, Except.map, File.set, if_true,
          if_false]
    · have := (hadv.trans hadv').2.1
      simp only [ID3Parser.reader]; omega
  | v23 p =>
    simp only [ID3Parser.version, Version.sizeLen, Version.flagsLen,
      Version.headerLen, Version.idLen, ID3Parser.reader] at *
    have hl : id.length = 4 := by
      simp only [Version.fieldTable, List.mem_cons, Prod.mk.injEq, List.mem_nil_iff,
        or_false] at hid
      rcases hid with h | h | h | h | h | h | h | h <;> (rw [h.1]; rfl)
    obtain ⟨r, hadv, hd, heq⟩ := p.ReadFrame_v23_header file id size flags (payload ++ rest) hl hsize
      hflags (by rw [hdata]; simp only [List.append_assoc])
    obtain ⟨r', hs, hadv', hd'⟩ := readString_prefix r payload rest text hd hdec
      (by rw [hadv.2.2.1, hpay]; exact hq)
    rw [hpay] at hs hadv'
    refine ⟨.v23 ⟨r'⟩, ?_, rfl, hd', ?_, (hadv.trans hadv').2.2.1⟩
    · simp only [Version.fieldTable, List.mem_cons, Prod.mk.injEq, List.mem_nil_iff,
        or_false] at hid
      rcases hid with h | h | h | h | h | h | h | h <;> obtain ⟨rfl, rfl⟩ := h <;>
        simp +decide only [ID3Parser.ReadFrame, heq, hN, hs, Except.map, File.set, if_true,
          if_false]
    · have := (hadv.trans hadv').2.1
      simp only [ID3Parser.reader]; omega
  | v24 p =>
    simp only [ID3Parser.version, Version.sizeLen, Version.flagsLen,
      Version.headerLen, Version.idLen, ID3Parser.reader] at *
    have hl : id.length = 4 := by
      simp only [Version.fieldTable, List.mem_cons, Prod.mk.injEq, List.mem_nil_iff,
        or_false] at hid
      rcases hid with h | h | h | h | h | h | h | h <;> (rw [h.1]; rfl)
    obtain ⟨r, hadv, hd, heq⟩ := p.ReadFrame_v24_header file id size flags (payload ++ rest) hl hsize
      hflags (by rw [hdata]; simp only [List.append_assoc])
    obtain ⟨r', hs, hadv', hd'⟩ := readString_prefix r payload rest text hd hdec
      (by rw [hadv.2.2.1, hpay]; exact hq)
    rw [hpay] at hs hadv'
    refine ⟨.v24 ⟨r'⟩, ?_, rfl, hd', ?_, (hadv.trans hadv').2.2.1⟩
    · simp only [Version.fieldTable, List.mem_cons, Prod.mk.injEq, List.mem_nil_iff,
        or_false] at hid
      rcases hid with h | h | h | h | h | h | h | h <;> obtain ⟨rfl, rfl⟩ := h <;>
        simp +decide only [ID3Parser.ReadFrame, heq, hN, hs, Except.map, File.set, if_true,
          if_false]
    · have := (hadv.trans hadv').2.1
      simp only [ID3Parser.reader]; omega

end ID3

namespace ID3

theorem Except.map_eq_ok {ε α β : Type} (f : α → β) (x : Except ε α) (y : β)
    (h : Except.map f x = .ok y) : ∃ a, x = .ok a ∧ f a = y := by
  cases x with
  | error e => simp [Except.map] at h
  | ok a => exact ⟨a, rfl, by simpa [Except.map] using h⟩

/-- No v2.2 frame sets `Length`. -/
theorem v22Parser.ReadFrame_Length (q : v22Parser) (f f' : File) (q' : v22Parser)
    (h : q.ReadFrame f = .ok (f', q')) : f'.Length = f.Length := by
  unfold v22Parser.ReadFrame at h
  split at h
  · exact absurd h (by simp)
  · split at h
    · exact absurd h (by simp)
    · simp only at h
      split_ifs at h <;>
        (obtain ⟨a, _, ha⟩ := Except.map_eq_ok _ _ _ h
         simp only [Prod.mk.injEq] at ha
         rw [← ha.1])

end ID3

namespace ID3

/-- Text frames, when no `Read` reports `io.EOF` together with the last payload bytes (the
stream reports its end by a `Read` of its own, or the payload has fewer than 4096 bytes, or
bytes follow the frame): for each version and each field-producing identifier of its table,
`ReadFrame` on a frame with that identifier, declared size `N ≥ 1` and `N` decodable payload
bytes stores `parseString(payload)` into the matching field and into no other (the header
reference included), and moves the cursor by the header length plus `N` (6+N for v2.2, 10+N for
v2.3 and v2.4), however the reads are cut.  No v2.2 frame ever sets `Length`. -/
theorem ReadFrame_text_frame (p : ID3Parser) (file : File) (id : GoString) (fld : Field)
    (size flags payload rest : List Byte) (N : Nat) (text : GoString)
    (hid : (id, fld) ∈ p.version.fieldTable) (hsize : size.length = p.version.sizeLen)
    (hflags : flags.length = p.version.flagsLen) (hN : p.version.frameSize size = (N : Int))
    (_hN1 : 1 ≤ N) (hpay : payload.length = N) (hdec : parseString payload = .ok text)
    (hdata : p.reader.data = id ++ size ++ flags ++ payload ++ rest)
    (hq : p.reader.eofWithData = false ∨ N < 4096 ∨ rest ≠ []) :
    (∃ file' p', p.ReadFrame file = .ok (file', p') ∧ file' = file.set fld text ∧
        file'.get fld = text ∧ (∀ g, g ≠ fld → file'.get g = file.get g) ∧
        file'.Header = file.Header ∧ p'.version = p.version ∧ p'.reader.data = rest ∧
        p'.reader.pos = p.reader.pos + p.version.headerLen + N)
      ∧ (Version.v22.headerLen = 6 ∧ Version.v23.headerLen = 10 ∧ Version.v24.headerLen = 10)
      ∧ (∀ (q : v22Parser) (f f' : File) (q' : v22Parser),
          q.ReadFrame f = .ok (f', q') → f'.Length = f.Length) := by
  obtain ⟨p', h1, h2, h3, h4, _⟩ :=
    p.ReadFrame_text file id fld size flags payload rest N text hid hsize hflags hN hpay hdec hdata
      hq
  obtain ⟨g1, g2, g3⟩ := file.get_set fld text
  exact ⟨⟨_, p', h1, rfl, g1, g2, g3, h2, h3, h4⟩, ⟨rfl, rfl, rfl⟩, v22Parser.ReadFrame_Length⟩

/-- A v2.3 "TIT2" frame of size 3 with the payload 00 'A' 'B', read in pieces of 2, 1 and
5 bytes: `Name` becomes "AB" and the cursor moves by 10+3. -/
theorem ReadFrame_text_frame_witness :
    ∃ file' p',
      (ID3Parser.v23 ⟨⟨ascii "TIT2" ++ [0, 0, 0, 3] ++ [0, 0] ++ [0, 0x41, 0x42] ++ [0xFF], 0,
          [2, 1, 5], false⟩⟩).ReadFrame {} = .ok (file', p')
        ∧ file'.Name = ascii "AB" ∧ p'.reader.data = [0xFF] ∧ p'.reader.pos = 13 := by
  obtain ⟨⟨file', p', h1, h2, _, _, _, _, h3, h4⟩, _⟩ :=
    ReadFrame_text_frame
      (ID3Parser.v23 ⟨⟨ascii "TIT2" ++ [0, 0, 0, 3] ++ [0, 0] ++ [0, 0x41, 0x42] ++ [0xFF], 0,
        [2, 1, 5], false⟩⟩) {} (ascii "TIT2") .name [0, 0, 0, 3] [0, 0] [0, 0x41, 0x42] [0xFF] 3
      (ascii "AB") (by decide) (by decide) (by decide) (by decide) (by decide) (by decide)
      (by decide) (by decide) (Or.inl rfl)
  exact ⟨file', p', h1, by rw [h2]; rfl, h3, h4⟩

/-- Skipped frames, when no `Read` reports `io.EOF` together with the last payload bytes (the
stream reports its end by a `Read` of its own, or the payload has fewer than 4096 bytes, or
bytes follow the frame): for every version and every identifier of its skip table, `ReadFrame`
on a frame with declared size `N` and at least `N` payload bytes available returns the record
unchanged and moves the cursor past the frame header and exactly `N` payload bytes, for every
`N` (the 4096 bytes of the scratch buffer are no limit) and every schedule of short reads. -/
theorem ReadFrame_skips (p : ID3Parser) (file : File) (id size flags payload rest : List Byte)
    (N : Nat) (hid : id ∈ p.version.skipIDs) (hsize : size.length = p.version.sizeLen)
    (hflags : flags.length = p.version.flagsLen) (hN : p.version.frameSize size = (N : Int))
    (hpay : payload.length = N)
    (hdata : p.reader.data = id ++ size ++ flags ++ payload ++ rest)
    (hq : p.reader.eofWithData = false ∨ N < 4096 ∨ rest ≠ []) :
    ∃ p', p.ReadFrame file = .ok (file, p') ∧ p'.version = p.version ∧ p'.reader.data = rest ∧
      p'.reader.pos = p.reader.pos + p.version.headerLen + N := by
  obtain ⟨p', h1, h2, h3, h4, _⟩ :=
    p.ReadFrame_skip file id size flags payload rest N hid hsize hflags hN hpay hdata hq
  exact ⟨p', h1, h2, h3, h4⟩

/-- A v2.3 "APIC" frame of 5000 payload bytes, read in pieces of 3000 bytes, 1 byte, then as
asked: the record is unchanged and the cursor moves by 10+5000. -/
theorem ReadFrame_skips_witness :
    ∃ p',
      (ID3Parser.v23 ⟨⟨ascii "APIC" ++ [0, 0, 0x13, 0x88] ++ [0, 0] ++ List.replicate 5000 7
          ++ [1, 2, 3], 0, [3000, 1], false⟩⟩).ReadFrame { Name := ascii "AB" }
          = .ok ({ Name := ascii "AB" }, p')
        ∧ p'.reader.data = [1, 2, 3] ∧ p'.reader.pos = 5010 := by
  obtain ⟨p', h1, _, h3, h4⟩ :=
    ReadFrame_skips
      (ID3Parser.v23 ⟨⟨ascii "APIC" ++ [0, 0, 0x13, 0x88] ++ [0, 0] ++ List.replicate 5000 7
        ++ [1, 2, 3], 0, [3000, 1], false⟩⟩) { Name := ascii "AB" } (ascii "APIC")
      [0, 0, 0x13, 0x88] [0, 0] (List.replicate 5000 7) [1, 2, 3] 5000 (by decide) (by decide)
      (by decide) (by decide) (List.length_replicate _ _) rfl (Or.inl rfl)
  exact ⟨p', h1, h3, h4⟩

set_option maxRecDepth 8192 in
/-- C10 on a v2.2 parser in front of "TT2" (a frame follows) and a v2.4 parser in front of zero
padding (the loop ends). -/
theorem HasFrame_spec_witness :
    ((ID3Parser.v22 ⟨Reader.ofBytes (ascii "TT2" ++ [0, 0, 1, 0x41])⟩).HasFrame).1 = true
      ∧ ((ID3Parser.v24 ⟨Reader.ofBytes [0x54, 0, 0, 0, 0]⟩).HasFrame).1 = false
      ∧ frameLoop 1 (ID3Parser.v24 ⟨Reader.ofBytes [0x54, 0, 0, 0, 0]⟩) {} = .ok {} := by
  have h1 := HasFrame_spec (ID3Parser.v22 ⟨Reader.ofBytes (ascii "TT2" ++ [0, 0, 1, 0x41])⟩)
  have h2 := HasFrame_spec (ID3Parser.v24 ⟨Reader.ofBytes [0x54, 0, 0, 0, 0]⟩)
  have h3 := h2.2.2 ⟨0, by decide, Or.inl rfl⟩
  exact ⟨h1.1.2 (by decide), h3.1, h3.2 0 {}⟩

end ID3

namespace ID3

/-! ## Which panics the frame loop can raise -/

theorem Except.map_eq_error {ε α β : Type} (f : α → β) (x : Except ε α) (e : ε)
    (h : Except.map f x = .error e) : x = .error e := by
  cases x with
  | error e' => simpa [Except.map] using h
  | ok a => simp [Except.map] at h

theorem readBytesLoop_error (fuel : Nat) : ∀ (r : Reader) (need : Nat) (b : List Byte) (e : Panic),
    readBytesLoop fuel r need b = .error e → e = .eof ∨ e = .diverge := by
  induction fuel with
  | zero =>
    intro r need b e h
    cases need with
    | zero => simp [readBytesLoop] at h
    | succ n => simp [readBytesLoop] at h; exact Or.inr h.symm
  | succ fuel ih =>
    intro r need b e h
    cases need with
    | zero => simp [readBytesLoop] at h
    | succ n =>
      rw [readBytesLoop] at h
      split at h
      · simp at h; exact Or.inl h.symm
      · exact ih _ _ _ _ h

theorem readBytes_error (r : Reader) (c : Int) (e : Panic) (h : readBytes r c = .error e) :
    e = .eof ∨ e = .diverge ∨ e = .makeslice := by
  unfold readBytes at h
  split at h
  · simp at h; exact Or.inr (Or.inr h.symm)
  · rcases readBytesLoop_error _ _ _ _ _ h with h | h
    · exact Or.inl h
    · exact Or.inr (Or.inl h)

theorem skipBytesLoop_error (fuel : Nat) : ∀ (r : Reader) (need : Nat) (e : Panic),
    skipBytesLoop fuel r need = .error e → e = .eof ∨ e = .diverge := by
  induction fuel with
  | zero =>
    intro r need e h
    cases need with
    | zero => simp [skipBytesLoop] at h
    | succ n => simp [skipBytesLoop] at h; exact Or.inr h.symm
  | succ fuel ih =>
    intro r need e h
    cases need with
    | zero => simp [skipBytesLoop] at h
    | succ n =>
      rw [skipBytesLoop] at h
      split at h
      · simp at h; exact Or.inl h.symm
      · exact ih _ _ _ h

theorem readFullLoop_error (fuel : Nat) : ∀ (r : Reader) (need : Nat) (b : List Byte) (e : Panic),
    readFullLoop fuel r need b = .error e → e = .diverge := by
  induction fuel with
  | zero =>
    intro r need b e h
    cases need with
    | zero => simp [readFullLoop] at h
    | succ n => simp [readFullLoop] at h; exact h.symm
  | succ fuel ih =>
    intro r need b e h
    cases need with
    | zero => simp [readFullLoop] at h
    | succ n =>
      rw [readFullLoop] at h
      split at h
      · simp at h
      · exact ih _ _ _ _ h

theorem binaryRead_error (r : Reader) (n : Nat) (e : Panic) (h : binaryRead r n = .error e) :
    e = .diverge := by
  unfold binaryRead at h
  split at h
  · rename_i e' heq
    simp at h; subst h
    exact readFullLoop_error _ _ _ _ _ heq
  · simp at h
  · simp at h

theorem toUTF16Loop_error (s0 s1 : Nat) : ∀ (n : Nat) (data : List Byte) (e : Panic),
    data.length ≤ n → toUTF16Loop s0 s1 data = .error e → e = .indexOutOfRange := by
  intro n
  induction n with
  | zero =>
    intro data e hl h
    have : data = [] := List.length_eq_zero.1 (by omega)
    subst this
    simp [toUTF16Loop] at h
  | succ n ih =>
    intro data e hl h
    match data, hl, h with
    | [], _, h => simp [toUTF16Loop] at h
    | [_], _, h => simp [toUTF16Loop] at h; exact h.symm
    | d0 :: d1 :: rest, hl, h =>
      rw [toUTF16Loop] at h
      split at h
      · rename_i e' heq
        simp at h; subst h
        exact ih rest _ (by simp at hl; omega) heq
      · simp at h

theorem toUTF16_error (data : List Byte) (e : Panic) (h : toUTF16 data = .error e) :
    e.NotVersion := by
  intro v hv
  subst hv
  simp only [toUTF16] at h
  split_ifs at h <;>
    first
    | exact absurd (toUTF16Loop_error _ _ _ _ _ (Nat.le_refl _) h) (by simp)
    | simp at h

theorem parseString_error (data : List Byte) (e : Panic) (h : parseString data = .error e) :
    e.NotVersion := by
  unfold parseString at h
  split at h
  · simp at h; subst h; intro v; simp
  · split_ifs at h
    · split at h
      · rename_i e' heq
        simp at h; subst h
        exact toUTF16_error _ _ heq
      · simp at h
    · simp at h; subst h; intro v; simp

theorem readString_error (r : Reader) (c : Int) (e : Panic) (h : readString r c = .error e) :
    e.NotVersion := by
  unfold readString at h
  split at h
  · rename_i e' heq
    simp at h; subst h
    rcases readBytes_error _ _ _ heq with h | h | h <;> subst h <;> intro v <;> simp
  · split at h
    · rename_i e' heq
      simp at h; subst h
      exact parseString_error _ _ heq
    · simp at h

theorem skipBytes_error (r : Reader) (c : Int) (e : Panic) (h : skipBytes r c = .error e) :
    e.NotVersion := by
  rcases skipBytesLoop_error _ _ _ _ h with h | h <;> subst h <;> intro v <;> simp

end ID3

namespace ID3

theorem notVersion_of_readBytes {r : Reader} {c : Int} {e : Panic}
    (h : readBytes r c = .error e) : e.NotVersion := by
  rcases readBytes_error _ _ _ h with h | h | h <;> subst h <;> intro v <;> simp

theorem notVersion_of_binaryRead {r : Reader} {n : Nat} {e : Panic}
    (h : binaryRead r n = .error e) : e.NotVersion := by
  have := binaryRead_error _ _ _ h
  subst this
  intro v; simp

theorem v22Parser.ReadFrame_v22_error (p : v22Parser) (file : File) (e : Panic)
    (h : p.ReadFrame file = .error e) : e.NotVersion := by
  unfold v22Parser.ReadFrame at h
  split at h
  · rename_i e' heq
    simp at h; subst h
    exact notVersion_of_readBytes heq
  · split at h
    · rename_i e' heq
      simp at h; subst h
      exact notVersion_of_readBytes heq
    · simp only at h
      split_ifs at h <;>
        first
        | exact readString_error _ _ _ (Except.map_eq_error _ _ _ h)
        | exact skipBytes_error _ _ _ (Except.map_eq_error _ _ _ h)
        | (simp at h; subst h; intro v; simp)

theorem v23Parser.ReadFrame_v23_error (p : v23Parser) (file : File) (e : Panic)
    (h : p.ReadFrame file = .error e) : e.NotVersion := by
  unfold v23Parser.ReadFrame at h
  split at h
  · rename_i e' heq
    simp at h; subst h
    exact notVersion_of_readBytes heq
  · split at h
    · rename_i e' heq
      simp at h; subst h
      exact notVersion_of_binaryRead heq
    · simp only at h
      split at h
      · rename_i e' heq
        simp at h; subst h
        exact notVersion_of_binaryRead heq
      · split_ifs at h <;>
          first
          | exact readString_error _ _ _ (Except.map_eq_error _ _ _ h)
          | exact skipBytes_error _ _ _ (Except.map_eq_error _ _ _ h)
          | (simp at h; subst h; intro v; simp)

theorem v24Parser.ReadFrame_v24_error (p : v24Parser) (file : File) (e : Panic)
    (h : p.ReadFrame file = .error e) : e.NotVersion := by
  unfold v24Parser.ReadFrame at h
  split at h
  · rename_i e' heq
    simp at h; subst h
    exact notVersion_of_readBytes heq
  · split at h
    · rename_i e' heq
      simp at h; subst h
      exact notVersion_of_readBytes heq
    · simp only at h
      split at h
      · rename_i e' heq
        simp at h; subst h
        exact notVersion_of_readBytes heq
      · split_ifs at h <;>
          first
          | exact readString_error _ _ _ (Except.map_eq_error _ _ _ h)
          | exact skipBytes_error _ _ _ (Except.map_eq_error _ _ _ h)
          | (simp at h; subst h; intro v; simp)

theorem ID3Parser.ReadFrame_notVersion (p : ID3Parser) (file : File) (e : Panic)
    (h : p.ReadFrame file = .error e) : e.NotVersion := by
  cases p with
  | v22 p => exact p.ReadFrame_v22_error file e (Except.map_eq_error _ _ _ h)
  | v23 p => exact p.ReadFrame_v23_error file e (Except.map_eq_error _ _ _ h)
  | v24 p => exact p.ReadFrame_v24_error file e (Except.map_eq_error _ _ _ h)

/-- The frame loop never raises the unsupported-version panic. -/
theorem frameLoop_error (fuel : Nat) : ∀ (p : ID3Parser) (file : File) (e : Panic),
    frameLoop fuel p file = .error e → e.NotVersion := by
  induction fuel with
  | zero =>
    intro p file e h
    simp [frameLoop] at h
    subst h; intro v; simp
  | succ fuel ih =>
    intro p file e h
    rw [frameLoop] at h
    split at h
    · simp at h
    · split at h
      · rename_i e' heq
        simp at h; subst h
        exact ID3Parser.ReadFrame_notVersion _ _ _ heq
      · exact ih _ _ _ h

/-- What `Read` does on a stream of at least ten bytes that starts with "ID3" and is read
without short reads. -/
theorem Read_cons (b3 b4 b5 b6 b7 b8 b9 : Byte) (rest : List Byte) :
    Read (Reader.ofBytes (0x49 :: 0x44 :: 0x33 :: b3 :: b4 :: b5 :: b6 :: b7 :: b8 :: b9 :: rest)) =
      let header : ID3v2Header :=
        { Version := b3.val, MinorVersion := b4.val, Unsynchronization := flagBit b5 7,
          Extended := flagBit b5 6, Experimental := flagBit b5 5, Footer := flagBit b5 4,
          Size := parseSize [b6, b7, b8, b9] }
      let limitReader : Reader :=
        { data := rest.take (parseSize [b6, b7, b8, b9]).toNat, pos := 0, short := [] }
      let parser : Except Panic ID3Parser :=
        if b3.val = 2 then .ok (.v22 ⟨limitReader⟩)
        else if b3.val = 3 then .ok (.v23 ⟨limitReader⟩)
        else if b3.val = 4 then .ok (.v24 ⟨limitReader⟩)
        else .error (.unsupportedVersion b3.val)
      match parser with
      | .error e => .error e
      | .ok parser =>
        match frameLoop (limitReader.data.length + 1) parser { Header := some header } with
        | .error e => .error e
        | .ok file => .ok (some file) := by
  have hid : isID3Tag (Reader.ofBytes
      (0x49 :: 0x44 :: 0x33 :: b3 :: b4 :: b5 :: b6 :: b7 :: b8 :: b9 :: rest)) = true := by
    rw [isID3Tag_iff]; rfl
  simp only [Read, hid, parseID3v2Header_cons, LimitReader, NewID3v22Parser, NewID3v23Parser,
    NewID3v24Parser]
  rfl

end ID3

namespace ID3

/-! ## C6: the major version -/

theorem Read_version_ok (b3 b4 b5 b6 b7 b8 b9 : Byte) (rest : List Byte)
    (hv : b3.val = 2 ∨ b3.val = 3 ∨ b3.val = 4) (v : Nat) :
    Read (Reader.ofBytes (0x49 :: 0x44 :: 0x33 :: b3 :: b4 :: b5 :: b6 :: b7 :: b8 :: b9 :: rest))
      ≠ .error (.unsupportedVersion v) := by
  rw [Read_cons]
  intro h
  simp only at h
  rcases hv with hv | hv | hv <;> simp only [hv] at h <;> norm_num at h <;>
    (split at h
     · rename_i e heq
       simp at h; subst h
       exact frameLoop_error _ _ _ _ heq v rfl
     · simp at h)

theorem Read_version_bad (b3 b4 b5 b6 b7 b8 b9 : Byte) (rest : List Byte)
    (hv : ¬ (b3.val = 2 ∨ b3.val = 3 ∨ b3.val = 4)) :
    Read (Reader.ofBytes (0x49 :: 0x44 :: 0x33 :: b3 :: b4 :: b5 :: b6 :: b7 :: b8 :: b9 :: rest))
      = .error (.unsupportedVersion b3.val) := by
  rw [Read_cons]
  have h2 : b3.val ≠ 2 := fun h => hv (Or.inl h)
  have h3 : b3.val ≠ 3 := fun h => hv (Or.inr (Or.inl h))
  have h4 : b3.val ≠ 4 := fun h => hv (Or.inr (Or.inr h))
  simp only [h2, h3, h4, if_false]

/-- The major version, on a stream read without short reads: on a stream of at least 10 bytes
that begins with "ID3", `Read` panics with the unsupported-version error iff byte 3 is not 2, 3 or 4; and when it is not,
the outcome is that panic (no record) for every stream with the same ten header bytes, whatever
follows them: no frame is looked at. -/
theorem Read_unsupported_version (s : List Byte) (hlen : 10 ≤ s.length)
    (hmagic : s.take 3 = ascii "ID3") :
    ((∃ v, Read (Reader.ofBytes s) = .error (.unsupportedVersion v)) ↔
        ¬ ((s.getD 3 0).val = 2 ∨ (s.getD 3 0).val = 3 ∨ (s.getD 3 0).val = 4))
      ∧ (¬ ((s.getD 3 0).val = 2 ∨ (s.getD 3 0).val = 3 ∨ (s.getD 3 0).val = 4) →
          ∀ s' : List Byte, s'.take 10 = s.take 10 →
            Read (Reader.ofBytes s') = .error (.unsupportedVersion (s.getD 3 0).val)) := by
  obtain ⟨b0, b1, b2, b3, b4, b5, b6, b7, b8, b9, rest, rfl⟩ := exists_ten s hlen
  rw [ascii_ID3] at hmagic
  simp only [List.take_succ_cons, List.take_zero, List.cons.injEq, and_true] at hmagic
  obtain ⟨rfl, rfl, rfl⟩ := hmagic
  simp only [List.getD_cons_succ, List.getD_cons_zero]
  constructor
  · constructor
    · rintro ⟨v, hv⟩ hok
      exact Read_version_ok b3 b4 b5 b6 b7 b8 b9 rest hok v hv
    · intro hbad
      exact ⟨_, Read_version_bad b3 b4 b5 b6 b7 b8 b9 rest hbad⟩
  · intro hbad s' hs'
    have hlen' : 10 ≤ s'.length := by
      have := congrArg List.length hs'
      simp [List.length_take] at this
      omega
    obtain ⟨c0, c1, c2, c3, c4, c5, c6, c7, c8, c9, rest', rfl⟩ := exists_ten s' hlen'
    simp only [List.take_succ_cons, List.take_zero, List.cons.injEq, and_true] at hs'
    obtain ⟨rfl, rfl, rfl, rfl, _⟩ := hs'
    exact Read_version_bad _ c4 c5 c6 c7 c8 c9 rest' hbad

/-- The header "ID3" 05 00 00 00 00 00 00, read without short reads: version 5 is refused. -/
theorem Read_unsupported_version_witness :
    Read (Reader.ofBytes (ascii "ID3" ++ [5, 0, 0, 0, 0, 0, 0]))
        = .error (.unsupportedVersion 5)
      ∧ Read (Reader.ofBytes (ascii "ID3" ++ [5, 0, 0, 0, 0, 0, 0] ++ ascii "TIT2"))
        = .error (.unsupportedVersion 5) := by
  have h := Read_unsupported_version (ascii "ID3" ++ [5, 0, 0, 0, 0, 0, 0]) (by decide) (by decide)
  exact ⟨h.2 (by decide) _ rfl, h.2 (by decide) _ (by decide)⟩

set_option maxRecDepth 8192 in
/-- C6 (the code at the failing input): a v2.3 tag, major-version byte 3, on a stream whose
first `Read` delivers the three bytes "ID3" only.  The header is decoded from a buffer that is
zero behind them, and `Read` panics with the unsupported-version error for version 0, although
byte 3 of the stream is 3; read in one piece the same stream gives a record. -/
theorem Read_short_read_version :
    Read ⟨ascii "ID3" ++ [3, 0, 0, 0, 0, 0, 0], 0, [3], false⟩ = .error (.unsupportedVersion 0)
      ∧ Read ⟨ascii "ID3" ++ [3, 0, 0, 0, 0, 0, 0], 0, [], false⟩
        = .ok (some
          { Header := some
              { Version := 3, MinorVersion := 0, Unsynchronization := false, Extended := false,
                Experimental := false, Footer := false, Size := 0 } }) := by
  decide

end ID3

namespace ID3

/-! ## C8: unrecognized frames -/

set_option maxRecDepth 100000 in
theorem v22_ids_facts :
    (∀ x ∈ Version.fieldTable .v22, x.1.length = 3 ∧ ∀ c ∈ x.1, isIDByte c) ∧
      (∀ id ∈ v22SkipIDs, id.length = 3 ∧ ∀ c ∈ id, isIDByte c) := by
  decide

set_option maxRecDepth 100000 in
theorem v23_ids_facts :
    (∀ x ∈ Version.fieldTable .v23, x.1.length = 4 ∧ ∀ c ∈ x.1, isIDByte c) ∧
      (∀ id ∈ v23SkipIDs, id.length = 4 ∧ ∀ c ∈ id, isIDByte c) := by
  decide

set_option maxRecDepth 100000 in
theorem v24_ids_facts :
    (∀ x ∈ Version.fieldTable .v24, x.1.length = 4 ∧ ∀ c ∈ x.1, isIDByte c) ∧
      (∀ id ∈ v24SkipIDs, id.length = 4 ∧ ∀ c ∈ id, isIDByte c) := by
  decide

/-- The identifiers of the tables have the length of the version and are upper-case
alphanumeric. -/
theorem Version.table_id (v : Version) (id : GoString)
    (h : (∃ fld, (id, fld) ∈ v.fieldTable) ∨ id ∈ v.skipIDs) :
    id.length = v.idLen ∧ ∀ c ∈ id, isIDByte c := by
  cases v with
  | v22 =>
    rcases h with ⟨fld, h⟩ | h
    · exact v22_ids_facts.1 _ h
    · exact v22_ids_facts.2 _ h
  | v23 =>
    rcases h with ⟨fld, h⟩ | h
    · exact v23_ids_facts.1 _ h
    · exact v23_ids_facts.2 _ h
  | v24 =>
    rcases h with ⟨fld, h⟩ | h
    · exact v24_ids_facts.1 _ h
    · exact v24_ids_facts.2 _ h

/-- One turn of the frame loop that reads a frame. -/
theorem frameLoop_step (p p1 : ID3Parser) (file file1 : File) (fuel : Nat)
    (hh : (p.HasFrame).1 = true) (hr : p.ReadFrame file = .ok (file1, p1)) :
    frameLoop (fuel + 1) p file = frameLoop fuel p1 file1 := by
  have h2 := p.HasFrame_snd
  rw [frameLoop]
  split
  · rename_i heq
    rw [heq] at hh
    exact absurd hh (by simp)
  · rename_i q heq
    rw [heq] at h2
    simp only at h2
    subst h2
    simp only [hr]

/-- One turn of the frame loop in which `ReadFrame` panics. -/
theorem frameLoop_abort (p : ID3Parser) (file : File) (e : Panic) (fuel : Nat)
    (hh : (p.HasFrame).1 = true) (hr : p.ReadFrame file = .error e) :
    frameLoop (fuel + 1) p file = .error e := by
  have h2 := p.HasFrame_snd
  rw [frameLoop]
  split
  · rename_i heq
    rw [heq] at hh
    exact absurd hh (by simp)
  · rename_i q heq
    rw [heq] at h2
    simp only at h2
    subst h2
    simp only [hr]

/-- In front of an upper-case alphanumeric identifier `HasFrame` says yes. -/
theorem ID3Parser.HasFrame_id (p : ID3Parser) (id tail : List Byte)
    (hlen : id.length = p.version.idLen) (hid : ∀ c ∈ id, isIDByte c)
    (hdata : p.reader.data = id ++ tail) : (p.HasFrame).1 = true := by
  rw [p.HasFrame_fst, hdata, ← hlen, List.take_left]
  exact ⟨by rw [List.length_append]; omega, hid⟩

end ID3

namespace ID3

/-- A well-formed frame in front of the parser is read to its end, on a stream that reports its
end by a `Read` of its own. -/
theorem ID3Parser.ReadFrame_wellFormed (p : ID3Parser) (file : File) (f : Frame)
    (tail : List Byte) (hwf : f.WellFormed p.version)
    (hdata : p.reader.data = f.bytes ++ tail) (hplain : p.reader.eofWithData = false) :
    (p.HasFrame).1 = true ∧
      ∃ file1 p1, p.ReadFrame file = .ok (file1, p1) ∧ p1.version = p.version ∧
        p1.reader.data = tail ∧ file1.Header = file.Header ∧
        p1.reader.pos = p.reader.pos + f.bytes.length ∧ p1.reader.eofWithData = false := by
  obtain ⟨hsize, hflags, hN, hkind⟩ := hwf
  have hd : p.reader.data = f.id ++ f.size ++ f.flags ++ f.payload ++ tail := by
    rw [hdata, Frame.bytes]
  have hidf : f.id.length = p.version.idLen ∧ ∀ c ∈ f.id, isIDByte c := by
    apply Version.table_id
    rcases hkind with ⟨fld, _, h, _⟩ | h
    · exact Or.inl ⟨fld, h⟩
    · exact Or.inr h
  have hlenb : f.bytes.length = p.version.headerLen + f.payload.length := by
    simp only [Frame.bytes, List.length_append, hidf.1, hsize, hflags, Version.headerLen]
  constructor
  · exact p.HasFrame_id f.id (f.size ++ f.flags ++ f.payload ++ tail) hidf.1 hidf.2
      (by rw [hd]; simp only [List.append_assoc])
  · rcases hkind with ⟨fld, text, h, hdec⟩ | h
    · obtain ⟨p1, h1, h2, h3, h4, h5⟩ := p.ReadFrame_text file f.id fld f.size f.flags f.payload
        tail f.payload.length text h hsize hflags hN rfl hdec hd (Or.inl hplain)
      exact ⟨_, p1, h1, h2, h3, (file.get_set fld text).2.2, by rw [h4, hlenb]; omega,
        h5.trans hplain⟩
    · obtain ⟨p1, h1, h2, h3, h4, h5⟩ := p.ReadFrame_skip file f.id f.size f.flags f.payload tail
        f.payload.length h hsize hflags hN rfl hd (Or.inl hplain)
      exact ⟨_, p1, h1, h2, h3, rfl, by rw [h4, hlenb]; omega, h5.trans hplain⟩

/-- The frame loop reads a run of well-formed frames one by one and goes on behind them, on a
stream that reports its end by a `Read` of its own. -/
theorem frameLoop_frames (v : Version) : ∀ (frames : List Frame) (p : ID3Parser) (file : File)
    (tail : List Byte), p.version = v → (∀ f ∈ frames, f.WellFormed v) →
    p.reader.data = frames.flatMap Frame.bytes ++ tail → p.reader.eofWithData = false →
    ∃ p' file', p'.version = v ∧ p'.reader.data = tail ∧ file'.Header = file.Header ∧
      ∀ fuel, frameLoop (frames.length + fuel) p file = frameLoop fuel p' file' := by
  intro frames
  induction frames with
  | nil =>
    intro p file tail hv _ hdata _
    exact ⟨p, file, hv, by simpa using hdata, rfl, fun fuel => by simp⟩
  | cons f fs ih =>
    intro p file tail hv hwf hdata hplain
    have hf : f.WellFormed p.version := by rw [hv]; exact hwf f (List.mem_cons_self _ _)
    obtain ⟨hh, file1, p1, hr, hv1, hd1, hH1, _, hplain1⟩ :=
      p.ReadFrame_wellFormed file f (fs.flatMap Frame.bytes ++ tail) hf
        (by rw [hdata, List.flatMap_cons, List.append_assoc]) hplain
    obtain ⟨p', file', hv', hd', hH', hloop⟩ := ih p1 file1 tail (hv1.trans hv)
      (fun g hg => hwf g (List.mem_cons_of_mem _ hg)) hd1 hplain1
    refine ⟨p', file', hv', hd', hH'.trans hH1, fun fuel => ?_⟩
    rw [List.length_cons, show fs.length + 1 + fuel = (fs.length + fuel) + 1 by omega,
      frameLoop_step p p1 file file1 _ hh hr, hloop]

/-- Method `ReadFrame` in front of a frame header whose identifier is in neither table. -/
theorem ID3Parser.ReadFrame_unrecognized (p : ID3Parser) (file : File)
    (id size flags tail : List Byte) (hidlen : id.length = p.version.idLen)
    (hnf : ∀ fld, (id, fld) ∉ p.version.fieldTable) (hns : id ∉ p.version.skipIDs)
    (hsize : size.length = p.version.sizeLen) (hflags : flags.length = p.version.flagsLen)
    (hdata : p.reader.data = id ++ size ++ flags ++ tail) :
    p.ReadFrame file = .error (.unrecognizedFrame id (p.version.frameSize size)) := by
  cases p with
  | v22 p =>
    simp only [ID3Parser.version, Version.skipIDs, Version.sizeLen, Version.flagsLen,
      Version.idLen, ID3Parser.reader] at *
    have hf : flags = [] := List.length_eq_zero.1 hflags
    subst hf
    obtain ⟨r, _, _, heq⟩ := p.ReadFrame_v22_header file id size tail hidlen hsize
      (by rw [hdata]; simp only [List.append_assoc, List.append_nil])
    have n1 := hnf .album
    have n2 := hnf .track
    have n3 := hnf .artist
    have n4 := hnf .name
    have n5 := hnf .year
    have n6 := hnf .disc
    have n7 := hnf .genre
    simp +decide only [Version.fieldTable, List.mem_cons, Prod.mk.injEq, List.mem_nil_iff,
      or_false, and_true, and_false, false_or, or_false] at n1 n2 n3 n4 n5 n6 n7
    simp only [ID3Parser.ReadFrame, heq, if_neg n1, if_neg n2, if_neg n3, if_neg n4, if_neg n5,
      if_neg n6, if_neg n7, if_neg hns, Except.map]
  | v23 p =>
    simp only [ID3Parser.version, Version.skipIDs, Version.sizeLen, Version.flagsLen,
      Version.idLen, ID3Parser.reader] at *
    obtain ⟨r, _, _, heq⟩ := p.ReadFrame_v23_header file id size flags tail hidlen hsize hflags
      hdata
    have n1 := hnf .album
    have n2 := hnf .track
    have n3 := hnf .artist
    have n4 := hnf .name
    have n5 := hnf .year
    have n6 := hnf .disc
    have n7 := hnf .genre
    have n8 := hnf .length
    simp +decide only [Version.fieldTable, List.mem_cons, Prod.mk.injEq, List.mem_nil_iff,
      or_false, and_true, and_false, false_or, or_false] at n1 n2 n3 n4 n5 n6 n7 n8
    simp only [ID3Parser.ReadFrame, heq, if_neg n1, if_neg n2, if_neg n3, if_neg n4, if_neg n5,
      if_neg n6, if_neg n7, if_neg n8, if_neg hns, Except.map]
  | v24 p =>
    simp only [ID3Parser.version, Version.skipIDs, Version.sizeLen, Version.flagsLen,
      Version.idLen, ID3Parser.reader] at *
    obtain ⟨r, _, _, heq⟩ := p.ReadFrame_v24_header file id size flags tail hidlen hsize hflags
      hdata
    have n1 := hnf .album
    have n2 := hnf .track
    have n3 := hnf .artist
    have n4 := hnf .name
    have n5 := hnf .year
    have n6 := hnf .disc
    have n7 := hnf .genre
    have n8 := hnf .length
    simp +decide only [Version.fieldTable, List.mem_cons, Prod.mk.injEq, List.mem_nil_iff,
      or_false, and_true, and_false, false_or, or_false] at n1 n2 n3 n4 n5 n6 n7 n8
    simp only [ID3Parser.ReadFrame, heq, if_neg n1, if_neg n2, if_neg n3, if_neg n4, if_neg n5,
      if_neg n6, if_neg n7, if_neg n8, if_neg hns, Except.map]

end ID3

namespace ID3

/-- What `Read` does on a tag of one of the three versions, read without short reads: the frame
loop runs on the region of the declared size. -/
theorem Read_tag (v : Version) (minor fl s0 s1 s2 s3 : Byte) (body : List Byte) :
    Read (Reader.ofBytes
        (0x49 :: 0x44 :: 0x33 :: v.major :: minor :: fl :: s0 :: s1 :: s2 :: s3 :: body)) =
      match frameLoop ((body.take (parseSize [s0, s1, s2, s3]).toNat).length + 1)
          (v.parser { data := body.take (parseSize [s0, s1, s2, s3]).toNat, pos := 0, short := [] })
          { Header := some
              { Version := v.major.val, MinorVersion := minor.val,
                Unsynchronization := flagBit fl 7, Extended := flagBit fl 6,
                Experimental := flagBit fl 5, Footer := flagBit fl 4,
                Size := parseSize [s0, s1, s2, s3] } } with
      | .error e => .error e
      | .ok file => .ok (some file) := by
  rw [Read_cons]
  cases v <;> rfl

theorem Version.parser_version (v : Version) (r : Reader) : (v.parser r).version = v := by
  cases v <;> rfl

theorem Version.parser_reader (v : Version) (r : Reader) : (v.parser r).reader = r := by
  cases v <;> rfl

/-- Every well-formed frame has at least one byte. -/
theorem frames_length_le (v : Version) : ∀ frames : List Frame,
    (∀ f ∈ frames, f.WellFormed v) → frames.length ≤ (frames.flatMap Frame.bytes).length := by
  intro frames
  induction frames with
  | nil => intro _; simp
  | cons f fs ih =>
    intro hwf
    have h1 := ih (fun g hg => hwf g (List.mem_cons_of_mem _ hg))
    obtain ⟨_, _, _, hkind⟩ := hwf f (List.mem_cons_self _ _)
    have hid : f.id.length = v.idLen := by
      apply (Version.table_id v f.id _).1
      rcases hkind with ⟨fld, _, h, _⟩ | h
      · exact Or.inl ⟨fld, h⟩
      · exact Or.inr h
    have h3 : 3 ≤ v.idLen := by cases v <;> decide
    simp only [List.flatMap_cons, List.length_append, List.length_cons, Frame.bytes]
    omega

/-- The bounded region of a tag whose declared size reaches past a prefix of the body. -/
theorem take_region (F H rest : List Byte) (S : Nat) (h : F.length + H.length ≤ S) :
    (F ++ (H ++ rest)).take S = F ++ (H ++ rest.take (S - F.length - H.length)) := by
  rw [List.take_append_eq_append_take, List.take_of_length_le (by omega),
    List.take_append_eq_append_take, List.take_of_length_le (by omega)]

/-- Function `Read` on a tag with a frame header whose identifier is in neither table, behind a
run of well-formed frames. -/
theorem Read_unrecognized (v : Version) (minor fl : Byte) (sz : List Byte) (frames : List Frame)
    (id size flags rest : List Byte) (hsz : sz.length = 4)
    (hwf : ∀ f ∈ frames, f.WellFormed v) (hidlen : id.length = v.idLen)
    (hid : ∀ c ∈ id, isIDByte c) (hnf : ∀ fld, (id, fld) ∉ v.fieldTable)
    (hns : id ∉ v.skipIDs) (hsize : size.length = v.sizeLen)
    (hflags : flags.length = v.flagsLen)
    (hin : (((frames.flatMap Frame.bytes).length + v.headerLen : Nat) : Int) ≤ parseSize sz) :
    Read (Reader.ofBytes (ascii "ID3" ++ [v.major, minor, fl] ++ sz ++
        (frames.flatMap Frame.bytes ++ (id ++ size ++ flags ++ rest))))
      = .error (.unrecognizedFrame id (v.frameSize size)) := by
  match sz, hsz with
  | [s0, s1, s2, s3], _ =>
    have hlist : ascii "ID3" ++ [v.major, minor, fl] ++ [s0, s1, s2, s3] ++
        (frames.flatMap Frame.bytes ++ (id ++ size ++ flags ++ rest)) =
        0x49 :: 0x44 :: 0x33 :: v.major :: minor :: fl :: s0 :: s1 :: s2 :: s3 ::
          (frames.flatMap Frame.bytes ++ (id ++ size ++ flags ++ rest)) := by
      rw [ascii_ID3]; rfl
    rw [hlist, Read_tag]
    have hH : (id ++ size ++ flags).length = v.headerLen := by
      simp only [List.length_append, hidlen, hsize, hflags, Version.headerLen]
    have hS : (frames.flatMap Frame.bytes).length + (id ++ size ++ flags).length
        ≤ (parseSize [s0, s1, s2, s3]).toNat := by
      rw [hH]; omega
    have hreg := take_region (frames.flatMap Frame.bytes) (id ++ size ++ flags) rest _ hS
    have hreg' : (frames.flatMap Frame.bytes ++ (id ++ size ++ flags ++ rest)).take
        (parseSize [s0, s1, s2, s3]).toNat = frames.flatMap Frame.bytes ++ (id ++ size ++ flags ++
          rest.take ((parseSize [s0, s1, s2, s3]).toNat - (frames.flatMap Frame.bytes).length -
            (id ++ size ++ flags).length)) := hreg
    rw [hreg']
    generalize rest.take ((parseSize [s0, s1, s2, s3]).toNat -
      (frames.flatMap Frame.bytes).length - (id ++ size ++ flags).length) = tail
    obtain ⟨p', file', hv', hd', _, hloop⟩ := frameLoop_frames v frames
      (v.parser (Reader.mk (frames.flatMap Frame.bytes ++ (id ++ size ++ flags ++ tail)) 0 []
        false))
      { Header := some
          { Version := v.major.val, MinorVersion := minor.val,
            Unsynchronization := flagBit fl 7, Extended := flagBit fl 6,
            Experimental := flagBit fl 5, Footer := flagBit fl 4,
            Size := parseSize [s0, s1, s2, s3] } }
      (id ++ size ++ flags ++ tail) (v.parser_version _) hwf (by rw [v.parser_reader])
      (by rw [v.parser_reader])
    have hfl := frames_length_le v frames hwf
    have hfuel : (frames.flatMap Frame.bytes ++ (id ++ size ++ flags ++ tail)).length + 1 =
        frames.length + (((frames.flatMap Frame.bytes ++ (id ++ size ++ flags ++ tail)).length
          - frames.length) + 1) := by
      have : (frames.flatMap Frame.bytes).length ≤
          (frames.flatMap Frame.bytes ++ (id ++ size ++ flags ++ tail)).length := by
        rw [List.length_append]; omega
      omega
    rw [hfuel, hloop]
    have hh : (p'.HasFrame).1 = true :=
      p'.HasFrame_id id (size ++ flags ++ tail) (by rw [hv']; exact hidlen) hid
        (by rw [hd']; simp only [List.append_assoc])
    have hr := p'.ReadFrame_unrecognized file' id size flags tail (by rw [hv']; exact hidlen)
      (by rw [hv']; exact hnf) (by rw [hv']; exact hns) (by rw [hv']; exact hsize)
      (by rw [hv']; exact hflags) hd'
    rw [frameLoop_abort p' file' _ _ hh hr, hv']

end ID3

namespace ID3

/-- Unrecognized frames: for every version, `ReadFrame` on a frame whose identifier is in
neither the field-producing table nor the skip table panics with the unrecognized-frame error,
and `Read` on a tag (read without short reads) that holds such a frame behind any run of
well-formed frames ends in that panic: no record is returned, not even with the fields of the
frames before it. -/
theorem unrecognized_frame_aborts (v : Version) (minor fl : Byte) (sz : List Byte)
    (frames : List Frame) (id size flags rest : List Byte) (hsz : sz.length = 4)
    (hwf : ∀ f ∈ frames, f.WellFormed v) (hidlen : id.length = v.idLen)
    (hid : ∀ c ∈ id, isIDByte c) (hnf : ∀ fld, (id, fld) ∉ v.fieldTable)
    (hns : id ∉ v.skipIDs) (hsize : size.length = v.sizeLen)
    (hflags : flags.length = v.flagsLen)
    (hin : (((frames.flatMap Frame.bytes).length + v.headerLen : Nat) : Int) ≤ parseSize sz) :
    (∀ (p : ID3Parser) (file : File) (tail : List Byte), p.version = v →
        p.reader.data = id ++ size ++ flags ++ tail →
        p.ReadFrame file = .error (.unrecognizedFrame id (v.frameSize size)))
      ∧ Read (Reader.ofBytes (ascii "ID3" ++ [v.major, minor, fl] ++ sz ++
          (frames.flatMap Frame.bytes ++ (id ++ size ++ flags ++ rest))))
        = .error (.unrecognizedFrame id (v.frameSize size)) := by
  constructor
  · intro p file tail hv hdata
    subst hv
    exact p.ReadFrame_unrecognized file id size flags tail hidlen hnf hns hsize hflags hdata
  · exact Read_unrecognized v minor fl sz frames id size flags rest hsz hwf hidlen hid hnf hns
      hsize hflags hin

set_option maxRecDepth 8192 in
/-- A v2.2 tag of declared size 16, read without short reads, that holds a "TT2" frame with the
text "A" and then a frame "XYZ": `Read` panics, the name "A" is not returned. -/
theorem unrecognized_frame_aborts_witness :
    Read (Reader.ofBytes (ascii "ID3" ++ [2, 0, 0] ++ [0, 0, 0, 0x10] ++
        (ascii "TT2" ++ [0, 0, 2] ++ [0, 0x41] ++ (ascii "XYZ" ++ [0, 0, 0]))))
      = .error (.unrecognizedFrame (ascii "XYZ") 0) := by
  have h := (unrecognized_frame_aborts .v22 0 0 [0, 0, 0, 0x10]
    [⟨ascii "TT2", [0, 0, 2], [], [0, 0x41]⟩] (ascii "XYZ") [0, 0, 0] [] [] rfl
    (by
      intro f hf
      rw [List.mem_singleton] at hf
      subst hf
      exact ⟨by decide, by decide, by decide, Or.inl ⟨.name, ascii "A", by decide, by decide⟩⟩)
    (by decide) (by decide) (by intro fld; cases fld <;> decide) (by decide) (by decide)
    (by decide) (by decide)).2
  exact h

set_option maxRecDepth 8192 in
/-- C8 (the code at the failing input): a v2.2 tag of declared size 16 that holds a "TT2" frame
and then a frame "XYZ", on a stream whose first `Read` delivers nine bytes.  The header is read
by one unchecked `Read`: the size is decoded as 0, the region is empty, no frame is read, and
`Read` returns a record where the tag read in one piece makes it panic. -/
theorem Read_short_read_unrecognized :
    Read ⟨ascii "ID3" ++ [2, 0, 0] ++ [0, 0, 0, 0x10] ++
        (ascii "TT2" ++ [0, 0, 2] ++ [0, 0x41] ++ (ascii "XYZ" ++ [0, 0, 0])), 0, [9], false⟩
      = .ok (some
          { Header := some
              { Version := 2, MinorVersion := 0, Unsynchronization := false, Extended := false,
                Experimental := false, Footer := false, Size := 0 } })
      ∧ Read ⟨ascii "ID3" ++ [2, 0, 0] ++ [0, 0, 0, 0x10] ++
        (ascii "TT2" ++ [0, 0, 2] ++ [0, 0x41] ++ (ascii "XYZ" ++ [0, 0, 0])), 0, [], false⟩
      = .error (.unrecognizedFrame (ascii "XYZ") 0) := by
  decide

end ID3

namespace ID3

/-! ## Text decoder: trailing NULs -/

theorem trimRightNul_eq (s : GoString) : trimRightNul s = s.rdropWhile fun b => b = 0 := rfl

theorem stripNul_eq (p : List Nat) : stripNul p = p.rdropWhile fun r => r = 0 := rfl

theorem ofNat_val (a : Nat) : (Fin.ofNat a : Byte).val = a % 256 := rfl

theorem cont_byte_ne_zero (y : Nat) : (Fin.ofNat (0x80 ||| (y &&& 0x3F)) : Byte) ≠ 0 := by
  intro h
  have h1 := congrArg Fin.val h
  rw [ofNat_val] at h1
  have h2 : y &&& 0x3F ≤ 0x3F := Nat.and_le_right
  have h3 : 2 ^ 7 * 1 + (y &&& 0x3F) = 2 ^ 7 * 1 ||| (y &&& 0x3F) :=
    Nat.mul_add_lt_is_or (by omega) 1
  norm_num at h1 h3
  omega

/-- The UTF-8 encoding of a code point is not empty, and ends in a zero byte only for U+0000. -/
theorem encodeRune_last (r : Nat) :
    ∃ init b, encodeRune r = init ++ [b] ∧ (b = 0 ↔ r = 0) := by
  unfold encodeRune
  split_ifs with h1 h2 h3 h4
  · refine ⟨[], Fin.ofNat r, rfl, ?_⟩
    constructor
    · intro h
      have := congrArg Fin.val h
      rw [ofNat_val] at this
      simp at this
      omega
    · intro h; subst h; rfl
  · exact ⟨[_], _, rfl, ⟨fun h => absurd h (cont_byte_ne_zero r), fun h => by omega⟩⟩
  · exact ⟨[0xEF, 0xBF], 0xBD, rfl, ⟨fun h => absurd h (by decide), fun h => by omega⟩⟩
  · exact ⟨[_, _], _, rfl, ⟨fun h => absurd h (cont_byte_ne_zero r), fun h => by omega⟩⟩
  · exact ⟨[_, _, _], _, rfl, ⟨fun h => absurd h (cont_byte_ne_zero r), fun h => by omega⟩⟩

theorem encodeRune_zero : encodeRune 0 = [0] := by decide

/-- Removing trailing NULs from the UTF-8 text is removing them from the code points. -/
theorem trimRightNul_runesToString (p : List Nat) :
    trimRightNul (runesToString p) = runesToString (stripNul p) := by
  induction p using List.reverseRecOn with
  | nil => rfl
  | append_singleton init r ih =>
    have hcat : runesToString (init ++ [r]) = runesToString init ++ encodeRune r := by
      simp [runesToString]
    by_cases hr : r = 0
    · subst hr
      rw [hcat, encodeRune_zero, trimRightNul_eq, stripNul_eq,
        List.rdropWhile_concat_pos _ _ _ (by simp), List.rdropWhile_concat_pos _ _ _ (by simp),
        ← trimRightNul_eq, ← stripNul_eq, ih]
    · obtain ⟨i, b, hb, hz⟩ := encodeRune_last r
      have hb0 : b ≠ 0 := fun h => hr (hz.1 h)
      rw [stripNul_eq, List.rdropWhile_concat_neg _ _ _ (by simpa using hr), hcat, hb,
        trimRightNul_eq, ← List.append_assoc,
        List.rdropWhile_concat_neg _ _ _ (by simpa using hb0)]

/-- What `strings.TrimRight(s, "\u0000")` returns: `s` without a run of zero bytes at its end,
and the run is the longest one. -/
theorem trimRightNul_spec (s : GoString) :
    (∃ k, s = trimRightNul s ++ List.replicate k 0) ∧ (trimRightNul s).getLast? ≠ some 0 := by
  induction s using List.reverseRecOn with
  | nil => exact ⟨⟨0, rfl⟩, by simp [trimRightNul]⟩
  | append_singleton init b ih =>
    by_cases hb : b = 0
    · subst hb
      have h : trimRightNul (init ++ [0]) = trimRightNul init := by
        rw [trimRightNul_eq, List.rdropWhile_concat_pos _ _ _ (by simp), ← trimRightNul_eq]
      rw [h]
      obtain ⟨⟨k, hk⟩, hl⟩ := ih
      refine ⟨⟨k + 1, ?_⟩, hl⟩
      conv_lhs => rw [hk]
      rw [List.append_assoc, List.replicate_succ']
    · have h : trimRightNul (init ++ [b]) = init ++ [b] := by
        rw [trimRightNul_eq, List.rdropWhile_concat_neg _ _ _ (by simpa using hb)]
      rw [h]
      exact ⟨⟨0, by simp⟩, by simpa using hb⟩

theorem trimRightNul_all_zero (s : GoString) (h : ∀ b ∈ s, b = 0) : trimRightNul s = [] := by
  induction s using List.reverseRecOn with
  | nil => rfl
  | append_singleton init b ih =>
    have hb : b = 0 := h b (by simp)
    subst hb
    rw [trimRightNul_eq, List.rdropWhile_concat_pos _ _ _ (by simp), ← trimRightNul_eq]
    exact ih fun c hc => h c (by simp [hc])

/-- Function `parseString` is `strings.TrimRight` applied to the decoded text. -/
theorem parseString_eq_trim (data : List Byte) :
    parseString data = (decodeText data).map trimRightNul := by
  cases data with
  | nil => rfl
  | cons sel rest =>
    simp only [parseString, decodeText]
    split_ifs
    · rfl
    · cases toUTF16 rest <;> rfl
    · rfl
    · rfl
    · rfl

end ID3

namespace ID3

/-! ## C14, C18: Latin-1 text -/

set_option maxRecDepth 100000 in
/-- The code point of a byte is encoded in one byte below 0x80 and in the two bytes
`0xC0 + b/64`, `0x80 + b%64` from 0x80 on: the UTF-8 form of U+0080..U+00FF. -/
theorem encodeRune_byte : ∀ b : Byte,
    encodeRune b.val =
      if b.val < 0x80 then [b]
      else [Fin.ofNat (0xC0 + b.val / 64), Fin.ofNat (0x80 + b.val % 64)] := by
  decide

/-- C14: on a byte run whose first byte is 0, `parseString` returns the text whose code points
are the remaining bytes, one code point per byte with the value of the byte (a byte from 0x80 on
gives the two-byte UTF-8 form of U+0080..U+00FF, and the bytes C3 A9 give the two code points
U+00C3 U+00A9, not U+00E9), with the trailing NUL code points removed; `[0x00,'A','B',0x00]`
yields "AB". -/
theorem parseString_latin1 (rest : List Byte) :
    parseString (0x00 :: rest) = .ok (runesToString (stripNul (rest.map fun b => b.val)))
      ∧ (∀ b : Byte, encodeRune b.val =
          if b.val < 0x80 then [b]
          else [Fin.ofNat (0xC0 + b.val / 64), Fin.ofNat (0x80 + b.val % 64)])
      ∧ parseString [0x00, 0x41, 0x42, 0x00] = .ok (ascii "AB")
      ∧ parseString [0x00, 0xC3, 0xA9] = .ok (encodeRune 0xC3 ++ encodeRune 0xA9)
      ∧ parseString [0x00, 0xC3, 0xA9] ≠ .ok (encodeRune 0xE9) := by
  refine ⟨?_, encodeRune_byte, by decide, by decide, by decide⟩
  simp only [parseString, if_true, trimRightNul_runesToString, expand]

end ID3

namespace ID3

/-! ## C15, C16, C17: UTF-16 text -/

/-- Function `toUTF16` on a run of at least two bytes: the byte-order mark decides, and an odd
number of bytes gets a zero byte appended. -/
theorem toUTF16_cons (b0 b1 : Byte) (payload : List Byte) :
    toUTF16 (b0 :: b1 :: payload) =
      if b0 = 0xFF ∧ b1 = 0xFE then
        toUTF16Loop 0 8 (if payload.length % 2 > 0 then payload ++ [0] else payload)
      else if b0 = 0xFE ∧ b1 = 0xFF then .error .utf16BE
      else .error (.utf16BOM b0 b1) := by
  have h1 : ¬ (b0 :: b1 :: payload).length < 2 := by
    simp only [List.length_cons]; omega
  by_cases hodd : payload.length % 2 > 0
  · have h2 : (b0 :: b1 :: payload).length % 2 > 0 := by
      simp only [List.length_cons]; omega
    simp only [toUTF16, if_neg h1, if_pos h2, if_pos hodd, List.cons_append,
      List.getD_cons_zero, List.getD_cons_succ, List.drop_succ_cons, List.drop_zero]
  · have h2 : ¬ (b0 :: b1 :: payload).length % 2 > 0 := by
      simp only [List.length_cons]; omega
    simp only [toUTF16, if_neg h1, if_neg h2, if_neg hodd,
      List.getD_cons_zero, List.getD_cons_succ, List.drop_succ_cons, List.drop_zero]

/-- The loop of `toUTF16` on little-endian pairs gives the code units `hi<<8 | lo`. -/
theorem toUTF16Loop_le (units : List (Byte × Byte)) :
    toUTF16Loop 0 8 (units.flatMap fun u => [u.1, u.2])
      = .ok (units.map fun u => u.2.val <<< 8 ||| u.1.val) := by
  induction units with
  | nil => rfl
  | cons u us ih =>
    have hlo : (u.1.val <<< 0) % 2 ^ 16 = u.1.val := by
      have := u.1.isLt
      rw [Nat.shiftLeft_zero]; omega
    have hhi : (u.2.val <<< 8) % 2 ^ 16 = u.2.val <<< 8 := by
      have := u.2.isLt
      rw [Nat.shiftLeft_eq]; omega
    show toUTF16Loop 0 8 (u.1 :: u.2 :: (us.flatMap fun u => [u.1, u.2])) = _
    rw [toUTF16Loop, ih]
    simp only [hlo, hhi, List.map_cons, Nat.lor_comm]

theorem flatMap_pairs_length (units : List (Byte × Byte)) :
    (units.flatMap fun u => [u.1, u.2]).length = 2 * units.length := by
  induction units with
  | nil => rfl
  | cons u us ih =>
    show (u.1 :: u.2 :: (us.flatMap fun u => [u.1, u.2])).length = _
    simp only [List.length_cons, ih]; omega

/-- Function `toUTF16` behind a little-endian byte-order mark and an even number of bytes. -/
theorem toUTF16_le (units : List (Byte × Byte)) :
    toUTF16 (0xFF :: 0xFE :: units.flatMap fun u => [u.1, u.2])
      = .ok (units.map fun u => u.2.val <<< 8 ||| u.1.val) := by
  have hev : ¬ (units.flatMap fun u => [u.1, u.2]).length % 2 > 0 := by
    rw [flatMap_pairs_length]; omega
  rw [toUTF16_cons, if_pos ⟨rfl, rfl⟩, if_neg hev]
  exact toUTF16Loop_le units

/-! ## The UTF-16 decoding and the UTF-8 text, in arithmetic -/

/-- Library function `utf16.Decode`, unit by unit: a code unit outside the surrogate range is its
own code point. -/
theorem utf16Decode_unit (u : Nat) (rest : List Nat) (h : u < 0xD800 ∨ 0xE000 ≤ u) :
    utf16Decode (u :: rest) = u :: utf16Decode rest := by
  cases rest with
  | nil =>
    have hn : ¬ (0xd800 ≤ u ∧ u < 0xe000) := by omega
    simp only [utf16Decode, if_neg hn]
  | cons r2 t =>
    have h1 : ¬ (0xd800 ≤ u ∧ u < 0xdc00 ∧ 0xdc00 ≤ r2 ∧ r2 < 0xe000) := by omega
    have hn : ¬ (0xd800 ≤ u ∧ u < 0xe000) := by omega
    simp only [utf16Decode, if_neg h1, if_neg hn]

/-- Library function `utf16.Decode`: a high surrogate followed by a low surrogate is the code
point `0x10000 + (hi - 0xD800) * 0x400 + (lo - 0xDC00)`. -/
theorem utf16Decode_pair (hi lo : Nat) (rest : List Nat) (h1 : 0xD800 ≤ hi) (h2 : hi < 0xDC00)
    (h3 : 0xDC00 ≤ lo) (h4 : lo < 0xE000) :
    utf16Decode (hi :: lo :: rest)
      = (0x10000 + (hi - 0xD800) * 0x400 + (lo - 0xDC00)) :: utf16Decode rest := by
  have hc : 0xd800 ≤ hi ∧ hi < 0xdc00 ∧ 0xdc00 ≤ lo ∧ lo < 0xe000 := ⟨h1, h2, h3, h4⟩
  have hor : (hi - 0xd800) <<< 10 ||| (lo - 0xdc00) = 2 ^ 10 * (hi - 0xd800) + (lo - 0xdc00) :=
    shl_or_eq_add (hi - 0xd800) (lo - 0xdc00) 10 (by omega)
  have hsum : 2 ^ 10 * (hi - 0xd800) + (lo - 0xdc00) + 0x10000
      = 0x10000 + (hi - 0xD800) * 0x400 + (lo - 0xDC00) := by omega
  rw [utf16Decode, if_pos hc, hor, hsum]

/-- Library function `utf16.Decode`: a surrogate that is not the first half of a pair is
replaced by U+FFFD. -/
theorem utf16Decode_lone (u : Nat) (rest : List Nat) (h1 : 0xD800 ≤ u) (h2 : u < 0xE000)
    (hlone : 0xDC00 ≤ u ∨ ∀ lo t, rest = lo :: t → lo < 0xDC00 ∨ 0xE000 ≤ lo) :
    utf16Decode (u :: rest) = 0xFFFD :: utf16Decode rest := by
  have hs : 0xd800 ≤ u ∧ u < 0xe000 := ⟨h1, h2⟩
  cases rest with
  | nil => simp only [utf16Decode, if_pos hs]
  | cons r2 t =>
    have hn : ¬ (0xd800 ≤ u ∧ u < 0xdc00 ∧ 0xdc00 ≤ r2 ∧ r2 < 0xe000) := by
      rcases hlone with h | h
      · omega
      · have := h r2 t rfl
        omega
    simp only [utf16Decode, if_neg hn, if_pos hs]

theorem or_lead (k a x : Nat) (hx : x < 2 ^ k) : (2 ^ k * a) ||| x = 2 ^ k * a + x :=
  (Nat.mul_add_lt_is_or hx a).symm

/-- The conversion of a code point to text is its UTF-8 encoding: one byte below U+0080, two
below U+0800, three below U+10000, four up to U+10FFFF, and the encoding of U+FFFD for a
surrogate or a value above U+10FFFF. -/
theorem encodeRune_utf8 (r : Nat) :
    encodeRune r =
      if r < 0x80 then [Fin.ofNat r]
      else if r < 0x800 then [Fin.ofNat (0xC0 + r / 64), Fin.ofNat (0x80 + r % 64)]
      else if (0xD800 ≤ r ∧ r < 0xE000) ∨ 0x10FFFF < r then [0xEF, 0xBF, 0xBD]
      else if r < 0x10000 then
        [Fin.ofNat (0xE0 + r / 4096), Fin.ofNat (0x80 + r / 64 % 64), Fin.ofNat (0x80 + r % 64)]
      else
        [Fin.ofNat (0xF0 + r / 262144), Fin.ofNat (0x80 + r / 4096 % 64),
         Fin.ofNat (0x80 + r / 64 % 64), Fin.ofNat (0x80 + r % 64)] := by
  have m6 : ∀ x : Nat, x &&& 0x3F = x % 64 := fun x => Nat.and_pow_two_sub_one_eq_mod x 6
  have s6 : r >>> 6 = r / 64 := Nat.shiftRight_eq_div_pow r 6
  have s12 : r >>> 12 = r / 4096 := Nat.shiftRight_eq_div_pow r 12
  have s18 : r >>> 18 = r / 262144 := Nat.shiftRight_eq_div_pow r 18
  have c80 : ∀ x : Nat, x < 64 → 0x80 ||| x = 0x80 + x := fun x hx =>
    or_lead 7 1 x (by omega)
  have cC0 : ∀ x : Nat, x < 64 → 0xC0 ||| x = 0xC0 + x := fun x hx => or_lead 6 3 x hx
  have cE0 : ∀ x : Nat, x < 32 → 0xE0 ||| x = 0xE0 + x := fun x hx => or_lead 5 7 x hx
  have cF0 : ∀ x : Nat, x < 16 → 0xF0 ||| x = 0xF0 + x := fun x hx => or_lead 4 15 x hx
  unfold encodeRune
  simp only [m6, s6, s12, s18]
  split_ifs with h1 h2 h3 h4
  · rfl
  · rw [c80 _ (Nat.mod_lt _ (by decide)), cC0 _ (by omega)]
  · rfl
  · rw [c80 _ (Nat.mod_lt _ (by decide)), c80 _ (Nat.mod_lt _ (by decide)),
      cE0 _ (by omega)]
  · rw [c80 _ (Nat.mod_lt _ (by decide)), c80 _ (Nat.mod_lt _ (by decide)),
      c80 _ (Nat.mod_lt _ (by decide)), cF0 _ (by omega)]

/-- C15: on a byte run `[0x01, 0xFF, 0xFE, u0lo, u0hi, u1lo, u1hi, ...]` (selector 1,
little-endian byte-order mark, an even number of bytes behind it) `parseString` succeeds and
returns the text of the UTF-16 decoding of the code units `hi<<8 | lo`, taken in order, with the
trailing NUL code points removed; `[0x01,0xFF,0xFE,0x41,0x00]` yields "A".  The UTF-16 decoding
is the one of the Unicode standard: a unit outside the surrogate range is its own code point, a
high surrogate followed by a low one is `0x10000 + (hi - 0xD800) * 0x400 + (lo - 0xDC00)`, any
other surrogate is U+FFFD; and the text of a code point is its UTF-8 encoding. -/
theorem parseString_utf16le (units : List (Byte × Byte)) :
    parseString (0x01 :: 0xFF :: 0xFE :: units.flatMap fun u => [u.1, u.2])
        = .ok (runesToString (stripNul (utf16Decode
            (units.map fun u => u.2.val <<< 8 ||| u.1.val))))
      ∧ parseString [0x01, 0xFF, 0xFE, 0x41, 0x00] = .ok (ascii "A")
      ∧ (∀ u : Byte × Byte, u.2.val <<< 8 ||| u.1.val = 256 * u.2.val + u.1.val)
      ∧ utf16Decode [] = []
      ∧ (∀ (u : Nat) (rest : List Nat), u < 0xD800 ∨ 0xE000 ≤ u →
          utf16Decode (u :: rest) = u :: utf16Decode rest)
      ∧ (∀ (hi lo : Nat) (rest : List Nat), 0xD800 ≤ hi → hi < 0xDC00 → 0xDC00 ≤ lo →
          lo < 0xE000 →
          utf16Decode (hi :: lo :: rest)
            = (0x10000 + (hi - 0xD800) * 0x400 + (lo - 0xDC00)) :: utf16Decode rest)
      ∧ (∀ (u : Nat) (rest : List Nat), 0xD800 ≤ u → u < 0xE000 →
          (0xDC00 ≤ u ∨ ∀ lo t, rest = lo :: t → lo < 0xDC00 ∨ 0xE000 ≤ lo) →
          utf16Decode (u :: rest) = 0xFFFD :: utf16Decode rest)
      ∧ (∀ r : Nat, encodeRune r =
          if r < 0x80 then [Fin.ofNat r]
          else if r < 0x800 then [Fin.ofNat (0xC0 + r / 64), Fin.ofNat (0x80 + r % 64)]
          else if (0xD800 ≤ r ∧ r < 0xE000) ∨ 0x10FFFF < r then [0xEF, 0xBF, 0xBD]
          else if r < 0x10000 then
            [Fin.ofNat (0xE0 + r / 4096), Fin.ofNat (0x80 + r / 64 % 64),
             Fin.ofNat (0x80 + r % 64)]
          else
            [Fin.ofNat (0xF0 + r / 262144), Fin.ofNat (0x80 + r / 4096 % 64),
             Fin.ofNat (0x80 + r / 64 % 64), Fin.ofNat (0x80 + r % 64)])
      ∧ parseString [0x01, 0xFF, 0xFE, 0xE9, 0x00] = .ok [0xC3, 0xA9]
      ∧ parseString [0x01, 0xFF, 0xFE, 0xAC, 0x20] = .ok [0xE2, 0x82, 0xAC]
      ∧ parseString [0x01, 0xFF, 0xFE, 0x3D, 0xD8, 0x00, 0xDE] = .ok [0xF0, 0x9F, 0x98, 0x80]
      ∧ parseString [0x01, 0xFF, 0xFE, 0x00, 0xD8, 0x41, 0x00] = .ok [0xEF, 0xBF, 0xBD, 0x41]
      ∧ parseString [0x01, 0xFF, 0xFE, 0x00, 0xDE, 0x3D, 0xD8]
          = .ok [0xEF, 0xBF, 0xBD, 0xEF, 0xBF, 0xBD] := by
  refine ⟨?_, by decide, ?_, rfl, utf16Decode_unit, utf16Decode_pair, utf16Decode_lone,
    encodeRune_utf8, by decide, by decide, by decide, by decide, by decide⟩
  · have h0 : (0x01 : Byte) ≠ 0 := by decide
    simp only [parseString, if_neg h0, if_true, toUTF16_le, trimRightNul_runesToString]
  · intro u
    exact shl_or_eq_add u.2.val u.1.val 8 u.1.isLt

/-- C16 (what the code does): behind the big-endian byte-order mark FE FF `parseString` panics
with "UTF-16 BE found!", whatever follows the mark. -/
theorem parseString_utf16be_refused (payload : List Byte) :
    parseString (0x01 :: 0xFE :: 0xFF :: payload) = .error .utf16BE := by
  have h0 : (0x01 : Byte) ≠ 0 := by decide
  have hbom : ¬ ((0xFE : Byte) = 0xFF ∧ (0xFF : Byte) = 0xFE) := by decide
  simp only [parseString, if_neg h0, if_true, toUTF16_cons, if_neg hbom, and_self]

/-- C16 fails on the code: the run 01 FE FF 00 41 does not yield "A", it panics. -/
theorem parseString_utf16be_counterexample :
    parseString [0x01, 0xFE, 0xFF, 0x00, 0x41] = .error .utf16BE
      ∧ parseString [0x01, 0xFE, 0xFF, 0x00, 0x41] ≠ .ok (ascii "A") := by
  decide

/-- C17: `parseString` fails on every byte run whose selector is 2, and on every run whose
selector is 1 and whose remaining bytes number fewer than 2 or do not begin with FF FE or
FE FF. -/
theorem parseString_fails (rest : List Byte) :
    parseString (0x02 :: rest) = .error .unsupportedEncoding
      ∧ (rest.length < 2 → parseString (0x01 :: rest) = .error .utf16TooShort)
      ∧ (∀ b0 b1 : Byte, ¬ (b0 = 0xFF ∧ b1 = 0xFE) → ¬ (b0 = 0xFE ∧ b1 = 0xFF) →
          parseString (0x01 :: b0 :: b1 :: rest) = .error (.utf16BOM b0 b1)) := by
  have h10 : (0x01 : Byte) ≠ 0 := by decide
  have h20 : (0x02 : Byte) ≠ 0 := by decide
  have h21 : (0x02 : Byte) ≠ 1 := by decide
  refine ⟨?_, ?_, ?_⟩
  · simp only [parseString, if_neg h20, if_neg h21, if_true]
  · intro hlen
    simp only [parseString, if_neg h10, if_true, toUTF16, if_pos hlen]
  · intro b0 b1 hle hbe
    simp only [parseString, if_neg h10, if_true, toUTF16_cons, if_neg hle, if_neg hbe]

/-- C17 on the runs 02 'A', 01 FF and 01 'A' 00 'B' 00. -/
theorem parseString_fails_witness :
    parseString [0x02, 0x41] = .error .unsupportedEncoding
      ∧ parseString [0x01, 0xFF] = .error .utf16TooShort
      ∧ parseString [0x01, 0x41, 0x00, 0x42, 0x00] = .error (.utf16BOM 0x41 0x00) :=
  ⟨(parseString_fails [0x41]).1, (parseString_fails [0xFF]).2.1 (by decide),
   (parseString_fails [0x42, 0x00]).2.2 0x41 0x00 (by decide) (by decide)⟩

/-! ## C19: trailing NULs -/

/-- C19: whenever `parseString` succeeds, under any selector, the text it returns is the decoded
text without its longest trailing run of U+0000 (the byte 0 in UTF-8): the decoded text is the
result followed by NULs only, so everything before the run is kept; the result does not end in
NUL; and a decoded text of NULs only, or an empty one, gives the empty string.  On text built
from code points the run removed is the run of trailing NUL code points. -/
theorem parseString_trims (data : List Byte) (text : GoString)
    (h : parseString data = .ok text) :
    (∃ s k, decodeText data = .ok s ∧ s = text ++ List.replicate k 0
        ∧ text.getLast? ≠ some 0 ∧ ((∀ b ∈ s, b = 0) → text = []))
      ∧ (∀ p : List Nat, trimRightNul (runesToString p) = runesToString (stripNul p)) := by
  refine ⟨?_, trimRightNul_runesToString⟩
  rw [parseString_eq_trim] at h
  obtain ⟨s, hs, ht⟩ := Except.map_eq_ok _ _ _ h
  subst ht
  obtain ⟨⟨k, hk⟩, hl⟩ := trimRightNul_spec s
  exact ⟨s, k, hs, hk, hl, trimRightNul_all_zero s⟩

/-- C19 on the Latin-1 run 00 'A' 00 'B' 00 00: the NUL inside is kept, the two at the end go. -/
theorem parseString_trims_witness :
    ∃ s k, decodeText [0x00, 0x41, 0x00, 0x42, 0x00, 0x00] = .ok s
      ∧ s = [0x41, 0x00, 0x42] ++ List.replicate k 0 ∧ k = 2 := by
  obtain ⟨⟨s, k, h1, h2, _, _⟩, _⟩ :=
    parseString_trims [0x00, 0x41, 0x00, 0x42, 0x00, 0x00] [0x41, 0x00, 0x42] (by decide)
  refine ⟨s, k, h1, h2, ?_⟩
  have hs : s = [0x41, 0x00, 0x42, 0x00, 0x00] := by
    have : decodeText [0x00, 0x41, 0x00, 0x42, 0x00, 0x00]
        = .ok [0x41, 0x00, 0x42, 0x00, 0x00] := by decide
    rw [this] at h1
    exact (Except.ok.inj h1).symm
  rw [hs] at h2
  have := congrArg List.length h2
  simp at this
  omega

end ID3

namespace ID3

/-! ## Reading past the end of the region -/

/-- The loop of `readBytes` panics with the end-of-stream error when fewer than `need` bytes are
left, however the reads are cut. -/
theorem readBytesLoop_eof (fuel : Nat) : ∀ (r : Reader) (need : Nat) (b : List Byte),
    need ≤ fuel → r.data.length < need → readBytesLoop fuel r need b = .error .eof := by
  induction fuel with
  | zero => intro r need b hf hl; omega
  | succ fuel ih =>
    intro r need b hf hl
    cases need with
    | zero => omega
    | succ need =>
      by_cases hd : r.data = []
      · simp only [readBytesLoop, r.Read_eof (need + 1) (by omega) hd]
      · obtain ⟨k, r1, hread, hk0, _, hdata, _⟩ := r.Read_some (need + 1) (by omega) hd
        have hpos : 0 < r.data.length := List.length_pos.2 hd
        have hlen : (r.data.take k).length = min k r.data.length := List.length_take _ _
        cases herr : (r.eofWithData && decide (4096 ≤ need + 1 ∧ r.data.length ≤ k)) with
        | true =>
          rw [herr] at hread
          simp only [readBytesLoop, hread]
        | false =>
          rw [herr] at hread
          simp only [readBytesLoop, hread]
          apply ih
          · omega
          · rw [hdata, List.length_drop]; omega

theorem readBytes_eof (r : Reader) (c : Nat) (hl : r.data.length < c) :
    readBytes r (c : Int) = .error .eof := by
  have hneg : ¬ ((c : Int) < 0) := by omega
  simp only [readBytes, hneg, if_false, Int.toNat_ofNat]
  exact readBytesLoop_eof c r c [] (Nat.le_refl c) hl

theorem readString_eof (r : Reader) (c : Nat) (hl : r.data.length < c) :
    readString r (c : Int) = .error .eof := by
  simp only [readString, readBytes_eof r c hl]

/-- The loop of `skipBytes` panics with the end-of-stream error when fewer than `need` bytes are
left. -/
theorem skipBytesLoop_eof (fuel : Nat) : ∀ (r : Reader) (need : Nat),
    need ≤ fuel → r.data.length < need → skipBytesLoop fuel r need = .error .eof := by
  induction fuel with
  | zero => intro r need hf hl; omega
  | succ fuel ih =>
    intro r need hf hl
    cases need with
    | zero => omega
    | succ need =>
      have hstop : 0 < (if need + 1 > 1024 * 4 then 1024 * 4 else need + 1) := by
        split <;> omega
      by_cases hd : r.data = []
      · simp only [skipBytesLoop, r.Read_eof _ hstop hd]
      · obtain ⟨k, r1, hread, hk0, _, hdata, _⟩ := r.Read_some _ hstop hd
        have hpos : 0 < r.data.length := List.length_pos.2 hd
        have hlen : (r.data.take k).length = min k r.data.length := List.length_take _ _
        cases herr : (r.eofWithData &&
            decide (4096 ≤ (if need + 1 > 1024 * 4 then 1024 * 4 else need + 1) ∧
              r.data.length ≤ k)) with
        | true =>
          rw [herr] at hread
          simp only [skipBytesLoop, hread]
        | false =>
          rw [herr] at hread
          simp only [skipBytesLoop, hread]
          apply ih
          · omega
          · rw [hdata, List.length_drop]; omega

theorem skipBytes_eof (r : Reader) (c : Nat) (hl : r.data.length < c) :
    skipBytes r (c : Int) = .error .eof := by
  simp only [skipBytes, Int.toNat_ofNat]
  exact skipBytesLoop_eof c r c (Nat.le_refl c) hl

/-- Method `ReadFrame` in front of a frame with a field-producing or skipped identifier: a panic
of `readString` and `skipBytes` behind the header is the panic of `ReadFrame`. -/
theorem ID3Parser.ReadFrame_payload_panics (p : ID3Parser) (file : File)
    (id size flags tail : List Byte) (e : Panic)
    (hid : (∃ fld, (id, fld) ∈ p.version.fieldTable) ∨ id ∈ p.version.skipIDs)
    (hsize : size.length = p.version.sizeLen) (hflags : flags.length = p.version.flagsLen)
    (hdata : p.reader.data = id ++ size ++ flags ++ tail)
    (hpanic : ∀ r : Reader, p.reader.Advanced r p.version.headerLen → r.data = tail →
      readString r (p.version.frameSize size) = .error e ∧
        skipBytes r (p.version.frameSize size) = .error e) :
    p.ReadFrame file = .error e := by
  have hidlen := (Version.table_id p.version id hid).1
  cases p with
  | v22 p =>
    have hf : flags = [] := List.length_eq_zero.1 hflags
    subst hf
    obtain ⟨r, hadv, hd, heq⟩ := p.ReadFrame_v22_header file id size tail hidlen hsize
      (by
        have h : p.reader.data = id ++ size ++ [] ++ tail := hdata
        rw [h]; simp only [List.append_assoc, List.append_nil])
    obtain ⟨hrs, hsk⟩ := hpanic r hadv hd
    rcases hid with ⟨fld, hid⟩ | hid
    · simp only [ID3Parser.version, Version.fieldTable, List.mem_cons, Prod.mk.injEq,
        List.mem_nil_iff, or_false] at hid hrs
      rcases hid with h | h | h | h | h | h | h <;> obtain ⟨rfl, rfl⟩ := h <;>
        simp +decide only [ID3Parser.ReadFrame, heq, hrs, Except.map, if_true, if_false]
    · obtain ⟨_, n1, n2, n3, n4, n5, n6, n7⟩ := v22Skip_facts id hid
      simp only [ID3Parser.version] at hsk
      have hid' : id ∈ v22SkipIDs := hid
      simp only [ID3Parser.ReadFrame, heq, if_neg n1, if_neg n2, if_neg n3, if_neg n4, if_neg n5,
        if_neg n6, if_neg n7, if_pos hid', hsk, Except.map]
  | v23 p =>
    obtain ⟨r, hadv, hd, heq⟩ := p.ReadFrame_v23_header file id size flags tail hidlen hsize hflags
      hdata
    obtain ⟨hrs, hsk⟩ := hpanic r hadv hd
    rcases hid with ⟨fld, hid⟩ | hid
    · simp only [ID3Parser.version, Version.fieldTable, List.mem_cons, Prod.mk.injEq,
        List.mem_nil_iff, or_false] at hid hrs
      rcases hid with h | h | h | h | h | h | h | h <;> obtain ⟨rfl, rfl⟩ := h <;>
        simp +decide only [ID3Parser.ReadFrame, heq, hrs, Except.map, if_true, if_false]
    · obtain ⟨_, n1, n2, n3, n4, n5, n6, n7, n8⟩ := v23Skip_facts id hid
      simp only [ID3Parser.version] at hsk
      have hid' : id ∈ v23SkipIDs := hid
      simp only [ID3Parser.ReadFrame, heq, if_neg n1, if_neg n2, if_neg n3, if_neg n4, if_neg n5,
        if_neg n6, if_neg n7, if_neg n8, if_pos hid', hsk, Except.map]
  | v24 p =>
    obtain ⟨r, hadv, hd, heq⟩ := p.ReadFrame_v24_header file id size flags tail hidlen hsize hflags
      hdata
    obtain ⟨hrs, hsk⟩ := hpanic r hadv hd
    rcases hid with ⟨fld, hid⟩ | hid
    · simp only [ID3Parser.version, Version.fieldTable, List.mem_cons, Prod.mk.injEq,
        List.mem_nil_iff, or_false] at hid hrs
      rcases hid with h | h | h | h | h | h | h | h <;> obtain ⟨rfl, rfl⟩ := h <;>
        simp +decide only [ID3Parser.ReadFrame, heq, hrs, Except.map, if_true, if_false]
    · obtain ⟨_, n1, n2, n3, n4, n5, n6, n7, n8⟩ := v24Skip_facts id hid
      simp only [ID3Parser.version] at hsk
      have hid' : id ∈ v24SkipIDs := hid
      simp only [ID3Parser.ReadFrame, heq, if_neg n1, if_neg n2, if_neg n3, if_neg n4, if_neg n5,
        if_neg n6, if_neg n7, if_neg n8, if_pos hid', hsk, Except.map]

/-- Method `ReadFrame` in front of a frame with a field-producing or skipped identifier whose
declared size is larger than what is left of the region behind its header. -/
theorem ID3Parser.ReadFrame_overrun (p : ID3Parser) (file : File)
    (id size flags tail : List Byte) (N : Nat)
    (hid : (∃ fld, (id, fld) ∈ p.version.fieldTable) ∨ id ∈ p.version.skipIDs)
    (hsize : size.length = p.version.sizeLen) (hflags : flags.length = p.version.flagsLen)
    (hN : p.version.frameSize size = (N : Int)) (hshort : tail.length < N)
    (hdata : p.reader.data = id ++ size ++ flags ++ tail) :
    p.ReadFrame file = .error .eof := by
  apply p.ReadFrame_payload_panics file id size flags tail .eof hid hsize hflags hdata
  intro r _ hd
  have hl : r.data.length < N := by rw [hd]; exact hshort
  rw [hN]
  exact ⟨readString_eof r N hl, skipBytes_eof r N hl⟩

end ID3

namespace ID3

/-! ## A last `Read` that comes with `io.EOF` -/

/-- Function `readBytes` for all that is left of a stream, 4096 bytes or more, read without short
reads: when the stream hands out its last bytes together with `io.EOF`, `readBytes` has every
byte it was asked for and panics with the error all the same. -/
theorem readBytes_eof_data (r : Reader) (N : Nat) (hflag : r.eofWithData = true)
    (hs : r.short = []) (hlen : r.data.length = N) (h4 : 4096 ≤ N) :
    readBytes r (N : Int) = .error .eof := by
  have hneg : ¬ ((N : Int) < 0) := by omega
  have hd : r.data ≠ [] := by
    intro h; rw [h] at hlen; simp at hlen; omega
  obtain ⟨n, rfl⟩ : ∃ n, N = n + 1 := ⟨N - 1, by omega⟩
  obtain ⟨k, r1, hread, _, _, _, _, _, _, hk⟩ := r.Read_some (n + 1) (by omega) hd
  have herr : (r.eofWithData && decide (4096 ≤ n + 1 ∧ r.data.length ≤ k)) = true := by
    rw [hflag, hk hs, hlen]
    simp [h4]
  rw [herr] at hread
  simp only [readBytes, hneg, if_false, Int.toNat_ofNat, readBytesLoop, hread]

theorem readString_eof_data (r : Reader) (N : Nat) (hflag : r.eofWithData = true)
    (hs : r.short = []) (hlen : r.data.length = N) (h4 : 4096 ≤ N) :
    readString r (N : Int) = .error .eof := by
  simp only [readString, readBytes_eof_data r N hflag hs hlen h4]

/-- Function `skipBytes` for the last 4096 bytes of a stream, read without short reads: when the
stream hands them out together with `io.EOF`, `skipBytes` has passed every byte it was asked to
pass and panics with the error all the same. -/
theorem skipBytes_eof_data (r : Reader) (hflag : r.eofWithData = true) (hs : r.short = [])
    (hlen : r.data.length = 4096) : skipBytes r ((4096 : Nat) : Int) = .error .eof := by
  have hd : r.data ≠ [] := by
    intro h; rw [h] at hlen; simp at hlen
  obtain ⟨k, r1, hread, _, _, _, _, _, _, hk⟩ := r.Read_some 4096 (by omega) hd
  have herr : (r.eofWithData && decide (4096 ≤ 4096 ∧ r.data.length ≤ k)) = true := by
    rw [hflag, hk hs, hlen]
    simp
  rw [herr] at hread
  have hstop : (if 4095 + 1 > 1024 * 4 then 1024 * 4 else 4095 + 1) = 4096 := by decide
  show skipBytesLoop (4095 + 1) r (4095 + 1) = _
  simp only [skipBytesLoop, hstop, hread]

end ID3

namespace ID3

/-! ## C7, C9: a frame whose last bytes come with `io.EOF` -/

/-- Method `ReadFrame` in front of a complete frame of 4096 payload bytes that ends the stream,
read without short reads on a stream that hands out its last bytes together with `io.EOF`:
`readBytes` and `skipBytes` have every byte of the payload when they look at the error, and
panic. -/
theorem ID3Parser.ReadFrame_eof_data (p : ID3Parser) (file : File)
    (id size flags payload : List Byte)
    (hid : (∃ fld, (id, fld) ∈ p.version.fieldTable) ∨ id ∈ p.version.skipIDs)
    (hsize : size.length = p.version.sizeLen) (hflags : flags.length = p.version.flagsLen)
    (hN : p.version.frameSize size = ((4096 : Nat) : Int)) (hpay : payload.length = 4096)
    (hdata : p.reader.data = id ++ size ++ flags ++ payload)
    (hflag : p.reader.eofWithData = true) (hs : p.reader.short = []) :
    p.ReadFrame file = .error .eof := by
  refine p.ReadFrame_payload_panics file id size flags payload .eof hid hsize hflags hdata ?_
  intro r hadv hd
  have hflag' : r.eofWithData = true := hadv.2.2.1.trans hflag
  have hs' : r.short = [] := hadv.short_nil hs
  have hl : r.data.length = 4096 := by rw [hd, hpay]
  rw [hN]
  exact ⟨readString_eof_data r 4096 hflag' hs' hl (Nat.le_refl _),
    skipBytes_eof_data r hflag' hs' hl⟩

/-- C7 (the code at the failing input): a complete v2.3 "TIT2" frame of declared size 4096, with
4096 decodable payload bytes (the selector 0 and 4095 letters 'A') that end the stream, on a
stream that hands out its last bytes together with `io.EOF`: `readBytes` has all 4096 bytes when
it looks at the error, and panics; no field is stored.  The same frame sets `Name` and moves the
cursor by 10+4096 when the stream reports its end by a `Read` of its own, and when one more byte
follows the frame. -/
theorem ReadFrame_text_eof_with_data :
    (ID3Parser.v23 ⟨⟨ascii "TIT2" ++ [0, 0, 0x10, 0] ++ [0, 0] ++ (0 :: List.replicate 4095 0x41),
        0, [], true⟩⟩).ReadFrame {} = .error .eof
      ∧ (∃ text p', parseString (0 :: List.replicate 4095 0x41) = .ok text ∧
          (ID3Parser.v23 ⟨⟨ascii "TIT2" ++ [0, 0, 0x10, 0] ++ [0, 0] ++
            (0 :: List.replicate 4095 0x41), 0, [], false⟩⟩).ReadFrame {}
              = .ok ({ Name := text }, p') ∧ p'.reader.pos = 4106)
      ∧ (∃ text p', parseString (0 :: List.replicate 4095 0x41) = .ok text ∧
          (ID3Parser.v23 ⟨⟨ascii "TIT2" ++ [0, 0, 0x10, 0] ++ [0, 0] ++
            (0 :: List.replicate 4095 0x41) ++ [0], 0, [], true⟩⟩).ReadFrame {}
              = .ok ({ Name := text }, p') ∧ p'.reader.pos = 4106) := by
  have hlen : (0 :: List.replicate 4095 (0x41 : Byte)).length = 4096 := by
    rw [List.length_cons, List.length_replicate]
  have hN : Version.frameSize .v23 [0, 0, 0x10, 0] = ((4096 : Nat) : Int) := by decide
  have hdec : parseString (0 :: List.replicate 4095 0x41)
      = .ok (trimRightNul (runesToString (expand (List.replicate 4095 0x41)))) := rfl
  refine ⟨?_, ?_, ?_⟩
  · exact ID3Parser.ReadFrame_eof_data
      (ID3Parser.v23 ⟨⟨ascii "TIT2" ++ [0, 0, 0x10, 0] ++ [0, 0] ++
        (0 :: List.replicate 4095 0x41), 0, [], true⟩⟩) {} (ascii "TIT2") [0, 0, 0x10, 0] [0, 0]
      (0 :: List.replicate 4095 0x41) (Or.inl ⟨.name, by decide⟩) (by decide) (by decide) hN hlen
      rfl rfl rfl
  · obtain ⟨p', h1, _, _, h4, _⟩ := ID3Parser.ReadFrame_text
      (ID3Parser.v23 ⟨⟨ascii "TIT2" ++ [0, 0, 0x10, 0] ++ [0, 0] ++
        (0 :: List.replicate 4095 0x41), 0, [], false⟩⟩) {} (ascii "TIT2") .name [0, 0, 0x10, 0]
      [0, 0] (0 :: List.replicate 4095 0x41) [] 4096 _ (by decide) (by decide) (by decide) hN
      hlen hdec (by rw [List.append_nil]; rfl) (Or.inl rfl)
    exact ⟨_, p', hdec, h1, h4⟩
  · obtain ⟨p', h1, _, _, h4, _⟩ := ID3Parser.ReadFrame_text
      (ID3Parser.v23 ⟨⟨ascii "TIT2" ++ [0, 0, 0x10, 0] ++ [0, 0] ++
        (0 :: List.replicate 4095 0x41) ++ [0], 0, [], true⟩⟩) {} (ascii "TIT2") .name
      [0, 0, 0x10, 0] [0, 0] (0 :: List.replicate 4095 0x41) [0] 4096 _ (by decide) (by decide)
      (by decide) hN hlen hdec rfl (Or.inr (Or.inr (by simp)))
    exact ⟨_, p', hdec, h1, h4⟩

/-- C9 (the code at the failing input): a complete v2.3 "APIC" frame of declared size 4096, with
its 4096 payload bytes there, that ends the stream, on a stream that hands out its last bytes
together with `io.EOF`: `skipBytes` has passed all 4096 bytes when it looks at the error, and
panics; `ReadFrame` does not return.  The same frame is passed by exactly when the stream
reports its end by a `Read` of its own, and when one more byte follows the frame. -/
theorem ReadFrame_skip_eof_with_data :
    (ID3Parser.v23 ⟨⟨ascii "APIC" ++ [0, 0, 0x10, 0] ++ [0, 0] ++ List.replicate 4096 0,
        0, [], true⟩⟩).ReadFrame {} = .error .eof
      ∧ (∃ p', (ID3Parser.v23 ⟨⟨ascii "APIC" ++ [0, 0, 0x10, 0] ++ [0, 0] ++
            List.replicate 4096 0, 0, [], false⟩⟩).ReadFrame {} = .ok ({}, p') ∧
          p'.reader.data = [] ∧ p'.reader.pos = 4106)
      ∧ (∃ p', (ID3Parser.v23 ⟨⟨ascii "APIC" ++ [0, 0, 0x10, 0] ++ [0, 0] ++
            List.replicate 4096 0 ++ [0], 0, [], true⟩⟩).ReadFrame {} = .ok ({}, p') ∧
          p'.reader.data = [0] ∧ p'.reader.pos = 4106) := by
  have hlen : (List.replicate 4096 (0 : Byte)).length = 4096 := List.length_replicate _ _
  have hN : Version.frameSize .v23 [0, 0, 0x10, 0] = ((4096 : Nat) : Int) := by decide
  refine ⟨?_, ?_, ?_⟩
  · exact ID3Parser.ReadFrame_eof_data
      (ID3Parser.v23 ⟨⟨ascii "APIC" ++ [0, 0, 0x10, 0] ++ [0, 0] ++ List.replicate 4096 0,
        0, [], true⟩⟩) {} (ascii "APIC") [0, 0, 0x10, 0] [0, 0] (List.replicate 4096 0)
      (Or.inr (by decide)) (by decide) (by decide) hN hlen rfl rfl rfl
  · obtain ⟨p', h1, _, h3, h4, _⟩ := ID3Parser.ReadFrame_skip
      (ID3Parser.v23 ⟨⟨ascii "APIC" ++ [0, 0, 0x10, 0] ++ [0, 0] ++ List.replicate 4096 0,
        0, [], false⟩⟩) {} (ascii "APIC") [0, 0, 0x10, 0] [0, 0] (List.replicate 4096 0) [] 4096
      (by decide) (by decide) (by decide) hN hlen (by rw [List.append_nil]; rfl) (Or.inl rfl)
    exact ⟨p', h1, h3, h4⟩
  · obtain ⟨p', h1, _, h3, h4, _⟩ := ID3Parser.ReadFrame_skip
      (ID3Parser.v23 ⟨⟨ascii "APIC" ++ [0, 0, 0x10, 0] ++ [0, 0] ++ List.replicate 4096 0 ++ [0],
        0, [], true⟩⟩) {} (ascii "APIC") [0, 0, 0x10, 0] [0, 0] (List.replicate 4096 0) [0] 4096
      (by decide) (by decide) (by decide) hN hlen rfl (Or.inr (Or.inr (by simp)))
    exact ⟨p', h1, h3, h4⟩

end ID3

namespace ID3

/-! ## A run of frames: the record it leaves -/

set_option maxRecDepth 100000 in
theorem fieldOf_facts : ∀ v : Version,
    (∀ x ∈ v.fieldTable, v.fieldOf x.1 = some x.2) ∧ (∀ id ∈ v.skipIDs, v.fieldOf id = none) := by
  intro v
  cases v <;> decide

theorem lookup_mem {α β : Type} [BEq α] [LawfulBEq α] (a : α) (b : β) :
    ∀ l : List (α × β), List.lookup a l = some b → (a, b) ∈ l := by
  intro l
  induction l with
  | nil => intro h; simp at h
  | cons x xs ih =>
    intro h
    obtain ⟨k, w⟩ := x
    by_cases hk : a = k
    · subst hk
      simp only [List.lookup, beq_self_eq_true, Option.some.injEq] at h
      subst h
      exact List.mem_cons_self _ _
    · have hb : (a == k) = false := beq_false_of_ne hk
      simp only [List.lookup, hb] at h
      exact List.mem_cons_of_mem _ (ih h)

/-- An identifier fills the field the table pairs it with, and no other. -/
theorem Version.fieldOf_iff (v : Version) (id : GoString) (fld : Field) :
    v.fieldOf id = some fld ↔ (id, fld) ∈ v.fieldTable :=
  ⟨lookup_mem id fld v.fieldTable, fun h => (fieldOf_facts v).1 (id, fld) h⟩

theorem Frame.apply_Header (v : Version) (file : File) (f : Frame) :
    (f.apply v file).Header = file.Header := by
  unfold Frame.apply
  split
  · exact (file.get_set _ _).2.2
  · rfl

theorem foldl_apply_Header (v : Version) : ∀ (frames : List Frame) (file : File),
    (frames.foldl (Frame.apply v) file).Header = file.Header := by
  intro frames
  induction frames with
  | nil => intro file; rfl
  | cons f fs ih =>
    intro file
    rw [List.foldl_cons, ih, Frame.apply_Header]

theorem Frame.apply_other (v : Version) (file : File) (f : Frame) (fld : Field)
    (h : v.fieldOf f.id ≠ some fld) : (f.apply v file).get fld = file.get fld := by
  unfold Frame.apply
  split
  · rename_i fld' text hfld _
    apply (file.get_set fld' text).2.1
    intro heq
    subst heq
    exact h hfld
  · rfl

/-- Frames that do not fill a field leave it as it is. -/
theorem foldl_apply_other (v : Version) (fld : Field) : ∀ (frames : List Frame) (file : File),
    (∀ g ∈ frames, v.fieldOf g.id ≠ some fld) →
    (frames.foldl (Frame.apply v) file).get fld = file.get fld := by
  intro frames
  induction frames with
  | nil => intro file _; rfl
  | cons f fs ih =>
    intro file h
    rw [List.foldl_cons, ih _ (fun g hg => h g (List.mem_cons_of_mem _ hg)),
      Frame.apply_other v file f fld (h f (List.mem_cons_self _ _))]

/-- Last write wins on a run of frames: a field holds the text of the last frame that fills
it. -/
theorem foldl_apply_last (v : Version) (fld : Field) (pre post : List Frame) (f : Frame)
    (file : File) (text : GoString) (hf : v.fieldOf f.id = some fld)
    (hpost : ∀ g ∈ post, v.fieldOf g.id ≠ some fld) (hdec : parseString f.payload = .ok text) :
    ((pre ++ f :: post).foldl (Frame.apply v) file).get fld = text := by
  rw [List.foldl_append, List.foldl_cons, foldl_apply_other v fld post _ hpost]
  simp only [Frame.apply, hf, hdec]
  exact (File.get_set _ fld text).1

/-- A field after a frame depends on the field before it only. -/
theorem Frame.apply_congr (v : Version) (X Y : File) (f : Frame) (fld : Field)
    (h : X.get fld = Y.get fld) : (f.apply v X).get fld = (f.apply v Y).get fld := by
  unfold Frame.apply
  split
  · rename_i fld' text _ _
    by_cases hf : fld = fld'
    · subst hf
      rw [(X.get_set fld text).1, (Y.get_set fld text).1]
    · rw [(X.get_set fld' text).2.1 fld hf, (Y.get_set fld' text).2.1 fld hf, h]
  · exact h

theorem foldl_apply_congr (v : Version) (fld : Field) : ∀ (frames : List Frame) (X Y : File),
    X.get fld = Y.get fld →
    (frames.foldl (Frame.apply v) X).get fld = (frames.foldl (Frame.apply v) Y).get fld := by
  intro frames
  induction frames with
  | nil => intro X Y h; exact h
  | cons f fs ih =>
    intro X Y h
    rw [List.foldl_cons, List.foldl_cons]
    exact ih _ _ (Frame.apply_congr v X Y f fld h)

/-- A frame whose field a later frame fills again does not count. -/
theorem foldl_apply_drop (v : Version) (pre mid post : List Frame) (f g : Frame) (file : File)
    (text : GoString) (gf : Field) (hid : f.id = g.id) (hg : v.fieldOf g.id = some gf)
    (hdec : parseString g.payload = .ok text) (fld : Field) :
    ((pre ++ f :: (mid ++ g :: post)).foldl (Frame.apply v) file).get fld
      = ((pre ++ (mid ++ g :: post)).foldl (Frame.apply v) file).get fld := by
  rw [List.foldl_append, List.foldl_append, List.foldl_cons]
  by_cases hfld : fld = gf
  · subst hfld
    rw [List.foldl_append, List.foldl_append, List.foldl_cons, List.foldl_cons]
    apply foldl_apply_congr
    simp only [Frame.apply, hg, hdec]
    rw [(File.get_set _ fld text).1, (File.get_set _ fld text).1]
  · apply foldl_apply_congr
    apply Frame.apply_other
    rw [hid, hg]
    intro h
    exact hfld (Option.some.inj h).symm

end ID3

namespace ID3

/-! ## A run of frames: what the frame loop does -/

/-- A well-formed frame in front of the parser is read to its end and leaves the record that
`Frame.apply` describes. -/
theorem ID3Parser.ReadFrame_apply (p : ID3Parser) (file : File) (f : Frame)
    (tail : List Byte) (hwf : f.WellFormed p.version)
    (hdata : p.reader.data = f.bytes ++ tail) (hplain : p.reader.eofWithData = false) :
    (p.HasFrame).1 = true ∧
      ∃ p1, p.ReadFrame file = .ok (f.apply p.version file, p1) ∧ p1.version = p.version ∧
        p1.reader.data = tail ∧ p1.reader.eofWithData = false := by
  obtain ⟨hsize, hflags, hN, hkind⟩ := hwf
  have hd : p.reader.data = f.id ++ f.size ++ f.flags ++ f.payload ++ tail := by
    rw [hdata, Frame.bytes]
  have hidf : f.id.length = p.version.idLen ∧ ∀ c ∈ f.id, isIDByte c := by
    apply Version.table_id
    rcases hkind with ⟨fld, _, h, _⟩ | h
    · exact Or.inl ⟨fld, h⟩
    · exact Or.inr h
  constructor
  · exact p.HasFrame_id f.id (f.size ++ f.flags ++ f.payload ++ tail) hidf.1 hidf.2
      (by rw [hd]; simp only [List.append_assoc])
  · rcases hkind with ⟨fld, text, h, hdec⟩ | h
    · obtain ⟨p1, h1, h2, h3, _, h5⟩ := p.ReadFrame_text file f.id fld f.size f.flags f.payload
        tail f.payload.length text h hsize hflags hN rfl hdec hd (Or.inl hplain)
      refine ⟨p1, ?_, h2, h3, h5.trans hplain⟩
      rw [h1]
      simp only [Frame.apply, (p.version.fieldOf_iff f.id fld).2 h, hdec]
    · obtain ⟨p1, h1, h2, h3, _, h5⟩ := p.ReadFrame_skip file f.id f.size f.flags f.payload tail
        f.payload.length h hsize hflags hN rfl hd (Or.inl hplain)
      refine ⟨p1, ?_, h2, h3, h5.trans hplain⟩
      rw [h1]
      simp only [Frame.apply, (fieldOf_facts p.version).2 f.id h]

/-- The frame loop reads a run of well-formed frames one by one, leaves the record the run
describes, and goes on behind it, on a stream that reports its end by a `Read` of its own. -/
theorem frameLoop_run (v : Version) : ∀ (frames : List Frame) (p : ID3Parser) (file : File)
    (tail : List Byte), p.version = v → (∀ f ∈ frames, f.WellFormed v) →
    p.reader.data = frames.flatMap Frame.bytes ++ tail → p.reader.eofWithData = false →
    ∃ p', p'.version = v ∧ p'.reader.data = tail ∧
      ∀ fuel, frameLoop (frames.length + fuel) p file
        = frameLoop fuel p' (frames.foldl (Frame.apply v) file) := by
  intro frames
  induction frames with
  | nil =>
    intro p file tail hv _ hdata _
    exact ⟨p, hv, by simpa using hdata, fun fuel => by simp⟩
  | cons f fs ih =>
    intro p file tail hv hwf hdata hplain
    have hf : f.WellFormed p.version := by rw [hv]; exact hwf f (List.mem_cons_self _ _)
    obtain ⟨hh, p1, hr, hv1, hd1, hplain1⟩ :=
      p.ReadFrame_apply file f (fs.flatMap Frame.bytes ++ tail) hf
        (by rw [hdata, List.flatMap_cons, List.append_assoc]) hplain
    obtain ⟨p', hv', hd', hloop⟩ := ih p1 (f.apply p.version file) tail (hv1.trans hv)
      (fun g hg => hwf g (List.mem_cons_of_mem _ hg)) hd1 hplain1
    refine ⟨p', hv', hd', fun fuel => ?_⟩
    rw [List.length_cons, show fs.length + 1 + fuel = (fs.length + fuel) + 1 by omega,
      frameLoop_step p p1 file _ _ hh hr, hloop, List.foldl_cons, hv]

/-- Function `Read` on a tag (read without short reads) whose region begins with a run of
well-formed frames: the frame loop goes on behind the run, with the record the run leaves. -/
theorem Read_run (v : Version) (minor fl s0 s1 s2 s3 : Byte) (frames : List Frame)
    (body tail : List Byte) (hwf : ∀ f ∈ frames, f.WellFormed v)
    (hregion : body.take (parseSize [s0, s1, s2, s3]).toNat
      = frames.flatMap Frame.bytes ++ tail) :
    ∃ p' fuel, p'.version = v ∧ p'.reader.data = tail ∧
      Read (Reader.ofBytes
          (0x49 :: 0x44 :: 0x33 :: v.major :: minor :: fl :: s0 :: s1 :: s2 :: s3 :: body)) =
        match frameLoop (fuel + 1) p' (frames.foldl (Frame.apply v)
            { Header := some
                { Version := v.major.val, MinorVersion := minor.val,
                  Unsynchronization := flagBit fl 7, Extended := flagBit fl 6,
                  Experimental := flagBit fl 5, Footer := flagBit fl 4,
                  Size := parseSize [s0, s1, s2, s3] } }) with
        | .error e => .error e
        | .ok file => .ok (some file) := by
  rw [Read_tag, hregion]
  obtain ⟨p', hv', hd', hloop⟩ := frameLoop_run v frames
    (v.parser (Reader.mk (frames.flatMap Frame.bytes ++ tail) 0 [] false))
    { Header := some
        { Version := v.major.val, MinorVersion := minor.val,
          Unsynchronization := flagBit fl 7, Extended := flagBit fl 6,
          Experimental := flagBit fl 5, Footer := flagBit fl 4,
          Size := parseSize [s0, s1, s2, s3] } }
    tail (v.parser_version _) hwf (by rw [v.parser_reader]) (by rw [v.parser_reader])
  have hfl := frames_length_le v frames hwf
  refine ⟨p', (frames.flatMap Frame.bytes ++ tail).length - frames.length, hv', hd', ?_⟩
  have hfuel : (frames.flatMap Frame.bytes ++ tail).length + 1 =
      frames.length + (((frames.flatMap Frame.bytes ++ tail).length - frames.length) + 1) := by
    rw [List.length_append]; omega
  rw [hfuel, hloop]

end ID3

namespace ID3

/-! ## C11: the region of the declared size -/

/-- Function `Read` looks at the ten header bytes and at the bytes of the region only. -/
theorem Read_take (s1 s2 : List Byte) (S : Nat)
    (hS : (parseSize ((s1.drop 6).take 4)).toNat = S) (h1 : 10 + S ≤ s1.length)
    (h2 : 10 + S ≤ s2.length) (heq : s1.take (10 + S) = s2.take (10 + S)) :
    Read (Reader.ofBytes s1) = Read (Reader.ofBytes s2) := by
  obtain ⟨a0, a1, a2, a3, a4, a5, a6, a7, a8, a9, r1, rfl⟩ := exists_ten s1 (by omega)
  obtain ⟨b0, b1, b2, b3, b4, b5, b6, b7, b8, b9, r2, rfl⟩ := exists_ten s2 (by omega)
  rw [show 10 + S = S + 10 by omega] at heq
  simp only [List.take_succ_cons, List.cons.injEq] at heq
  obtain ⟨rfl, rfl, rfl, rfl, rfl, rfl, rfl, rfl, rfl, rfl, hr⟩ := heq
  simp only [List.drop_succ_cons, List.drop_zero, List.take_succ_cons, List.take_zero] at hS
  by_cases hm : a0 = 0x49 ∧ a1 = 0x44 ∧ a2 = 0x33
  · obtain ⟨rfl, rfl, rfl⟩ := hm
    rw [Read_cons, Read_cons, hS, hr]
  · have hn : ∀ r : List Byte,
        (Reader.ofBytes (a0 :: a1 :: a2 :: a3 :: a4 :: a5 :: a6 :: a7 :: a8 :: a9 :: r)).data.take 3
          ≠ ascii "ID3" := by
      intro r h
      rw [ascii_ID3] at h
      simp only [Reader.ofBytes, List.take_succ_cons, List.take_zero, List.cons.injEq,
        and_true] at h
      exact hm h
    rw [Read_not_a_tag _ (hn r1), Read_not_a_tag _ (hn r2)]

/-- Function `Read` on a tag with a frame whose declared payload reaches past the region: the
end-of-stream panic, whatever bytes the stream holds behind the region. -/
theorem Read_overrun (v : Version) (minor fl : Byte) (sz : List Byte) (frames : List Frame)
    (id size flags rest : List Byte) (N : Nat) (hsz : sz.length = 4)
    (hwf : ∀ f ∈ frames, f.WellFormed v)
    (hid : (∃ fld, (id, fld) ∈ v.fieldTable) ∨ id ∈ v.skipIDs)
    (hsize : size.length = v.sizeLen) (hflags : flags.length = v.flagsLen)
    (hN : v.frameSize size = (N : Int))
    (hin : (((frames.flatMap Frame.bytes).length + v.headerLen : Nat) : Int) ≤ parseSize sz)
    (hout : parseSize sz < (((frames.flatMap Frame.bytes).length + v.headerLen + N : Nat) : Int)) :
    Read (Reader.ofBytes (ascii "ID3" ++ [v.major, minor, fl] ++ sz ++
        (frames.flatMap Frame.bytes ++ (id ++ size ++ flags ++ rest))))
      = .error .eof := by
  match sz, hsz with
  | [s0, s1, s2, s3], _ =>
    have hlist : ascii "ID3" ++ [v.major, minor, fl] ++ [s0, s1, s2, s3] ++
        (frames.flatMap Frame.bytes ++ (id ++ size ++ flags ++ rest)) =
        0x49 :: 0x44 :: 0x33 :: v.major :: minor :: fl :: s0 :: s1 :: s2 :: s3 ::
          (frames.flatMap Frame.bytes ++ (id ++ size ++ flags ++ rest)) := by
      rw [ascii_ID3]; rfl
    obtain ⟨hidlen, hidb⟩ := Version.table_id v id hid
    have hH : (id ++ size ++ flags).length = v.headerLen := by
      simp only [List.length_append, hidlen, hsize, hflags, Version.headerLen]
    have hS : (frames.flatMap Frame.bytes).length + (id ++ size ++ flags).length
        ≤ (parseSize [s0, s1, s2, s3]).toNat := by
      rw [hH]; omega
    have hreg : (frames.flatMap Frame.bytes ++ (id ++ size ++ flags ++ rest)).take
        (parseSize [s0, s1, s2, s3]).toNat = frames.flatMap Frame.bytes ++ (id ++ size ++ flags ++
          rest.take ((parseSize [s0, s1, s2, s3]).toNat - (frames.flatMap Frame.bytes).length -
            (id ++ size ++ flags).length)) :=
      take_region (frames.flatMap Frame.bytes) (id ++ size ++ flags) rest _ hS
    have hT : (rest.take ((parseSize [s0, s1, s2, s3]).toNat -
        (frames.flatMap Frame.bytes).length - (id ++ size ++ flags).length)).length < N := by
      rw [List.length_take, hH]; omega
    generalize rest.take ((parseSize [s0, s1, s2, s3]).toNat -
      (frames.flatMap Frame.bytes).length - (id ++ size ++ flags).length) = tail at hreg hT
    obtain ⟨p', fuel, hv', hd', hread⟩ := Read_run v minor fl s0 s1 s2 s3 frames _
      (id ++ size ++ flags ++ tail) hwf hreg
    rw [hlist, hread]
    have hh : (p'.HasFrame).1 = true :=
      p'.HasFrame_id id (size ++ flags ++ tail) (by rw [hv']; exact hidlen) hidb
        (by rw [hd']; simp only [List.append_assoc])
    have hr := p'.ReadFrame_overrun
      (frames.foldl (Frame.apply v)
        { Header := some
            { Version := v.major.val, MinorVersion := minor.val,
              Unsynchronization := flagBit fl 7, Extended := flagBit fl 6,
              Experimental := flagBit fl 5, Footer := flagBit fl 4,
              Size := parseSize [s0, s1, s2, s3] } })
      id size flags tail N (by rw [hv']; exact hid)
      (by rw [hv']; exact hsize) (by rw [hv']; exact hflags) (by rw [hv']; exact hN) hT hd'
    rw [frameLoop_abort p' _ _ _ hh hr]

/-- The region of the declared size, on streams read without short reads that report their end
by a `Read` of its own: `Read` never looks at bytes beyond the declared tag size.  Two streams
that each hold at least `10 + S` bytes and agree on their first `10 + S` bytes, `S` being the
size the header declares, get the same outcome, record or panic; and a frame, behind any run of
well-formed frames, whose declared payload reaches past the region of `S` bytes makes `Read`
panic with the end-of-stream error, whatever the stream holds after the region. -/
theorem Read_bounded (s1 s2 : List Byte) (S : Nat)
    (hS : (parseSize ((s1.drop 6).take 4)).toNat = S) (h1 : 10 + S ≤ s1.length)
    (h2 : 10 + S ≤ s2.length) (heq : s1.take (10 + S) = s2.take (10 + S)) :
    Read (Reader.ofBytes s1) = Read (Reader.ofBytes s2)
      ∧ ∀ (v : Version) (minor fl : Byte) (sz : List Byte) (frames : List Frame)
          (id size flags rest : List Byte) (N : Nat), sz.length = 4 →
          (∀ f ∈ frames, f.WellFormed v) →
          ((∃ fld, (id, fld) ∈ v.fieldTable) ∨ id ∈ v.skipIDs) →
          size.length = v.sizeLen → flags.length = v.flagsLen → v.frameSize size = (N : Int) →
          (((frames.flatMap Frame.bytes).length + v.headerLen : Nat) : Int) ≤ parseSize sz →
          parseSize sz < (((frames.flatMap Frame.bytes).length + v.headerLen + N : Nat) : Int) →
          Read (Reader.ofBytes (ascii "ID3" ++ [v.major, minor, fl] ++ sz ++
              (frames.flatMap Frame.bytes ++ (id ++ size ++ flags ++ rest))))
            = .error .eof :=
  ⟨Read_take s1 s2 S hS h1 h2 heq, Read_overrun⟩

set_option maxRecDepth 8192 in
/-- Two v2.3 tags of declared size 13, read without short reads, that differ behind the region
only, and a v2.3 tag of declared size 12 whose "TIT2" frame declares 3 payload bytes, one of
them behind the region. -/
theorem Read_bounded_witness :
    Read (Reader.ofBytes (ascii "ID3" ++ [3, 0, 0, 0, 0, 0, 13] ++ ascii "TIT2" ++
          [0, 0, 0, 3, 0, 0, 0, 0x41, 0x42] ++ ascii "TALB"))
        = Read (Reader.ofBytes (ascii "ID3" ++ [3, 0, 0, 0, 0, 0, 13] ++ ascii "TIT2" ++
          [0, 0, 0, 3, 0, 0, 0, 0x41, 0x42] ++ [0, 7]))
      ∧ Read (Reader.ofBytes (ascii "ID3" ++ [3, 0, 0] ++ [0, 0, 0, 12] ++
          ([] ++ (ascii "TIT2" ++ [0, 0, 0, 3] ++ [0, 0] ++ [0, 0x41, 0x42, 0x43]))))
        = .error .eof := by
  have h := Read_bounded
    (ascii "ID3" ++ [3, 0, 0, 0, 0, 0, 13] ++ ascii "TIT2" ++
      [0, 0, 0, 3, 0, 0, 0, 0x41, 0x42] ++ ascii "TALB")
    (ascii "ID3" ++ [3, 0, 0, 0, 0, 0, 13] ++ ascii "TIT2" ++
      [0, 0, 0, 3, 0, 0, 0, 0x41, 0x42] ++ [0, 7]) 13 (by decide) (by decide) (by decide)
    (by decide)
  refine ⟨h.1, ?_⟩
  exact h.2 .v23 0 0 [0, 0, 0, 12] [] (ascii "TIT2") [0, 0, 0, 3] [0, 0] [0, 0x41, 0x42, 0x43] 3
    rfl (by intro f hf; cases hf) (Or.inl ⟨.name, by decide⟩) rfl rfl (by decide) (by decide)
    (by decide)

/-! ## C11: the end of the region and the end of the stream -/

/-- What `Read` does on a stream of at least ten bytes that starts with "ID3", when the first
`Read` delivers the ten header bytes: the frame loop runs on the region of the declared size,
whose last bytes come with `io.EOF` only when they are the last bytes of the stream. -/
theorem Read_stream (r : Reader) (b3 b4 b5 b6 b7 b8 b9 : Byte) (rest : List Byte)
    (hdata : r.data = 0x49 :: 0x44 :: 0x33 :: b3 :: b4 :: b5 :: b6 :: b7 :: b8 :: b9 :: rest)
    (hfull : r.chunk 10 = 10) :
    Read r =
      let header : ID3v2Header :=
        { Version := b3.val, MinorVersion := b4.val, Unsynchronization := flagBit b5 7,
          Extended := flagBit b5 6, Experimental := flagBit b5 5, Footer := flagBit b5 4,
          Size := parseSize [b6, b7, b8, b9] }
      let limitReader : Reader :=
        { data := rest.take (parseSize [b6, b7, b8, b9]).toNat, pos := 0, short := r.short.tail,
          eofWithData := r.eofWithData && decide (rest.length ≤ (parseSize [b6, b7, b8, b9]).toNat) }
      let parser : Except Panic ID3Parser :=
        if b3.val = 2 then .ok (.v22 ⟨limitReader⟩)
        else if b3.val = 3 then .ok (.v23 ⟨limitReader⟩)
        else if b3.val = 4 then .ok (.v24 ⟨limitReader⟩)
        else .error (.unsupportedVersion b3.val)
      match parser with
      | .error e => .error e
      | .ok parser =>
        match frameLoop (limitReader.data.length + 1) parser { Header := some header } with
        | .error e => .error e
        | .ok file => .ok (some file) := by
  have hid : isID3Tag r = true := by
    rw [isID3Tag_iff, hdata]; rfl
  have hhead : parseID3v2Header r =
      ({ Version := b3.val, MinorVersion := b4.val, Unsynchronization := flagBit b5 7,
         Extended := flagBit b5 6, Experimental := flagBit b5 5, Footer := flagBit b5 4,
         Size := parseSize [b6, b7, b8, b9] },
       { data := rest, pos := r.pos + 10, short := r.short.tail,
         eofWithData := r.eofWithData }) := by
    simp [parseID3v2Header, Reader.Read, hdata, hfull]
  simp only [Read, hid, hhead, LimitReader, NewID3v22Parser, NewID3v23Parser, NewID3v24Parser]
  rfl

set_option maxRecDepth 8192 in
/-- The frame loop in front of a complete "APIC" frame of 4096 payload bytes that ends the
region, read without short reads: a panic when the last bytes come with `io.EOF`, the record
unchanged when they do not. -/
theorem frameLoop_last_frame (flag : Bool) (fuel : Nat) (file : File) :
    frameLoop (fuel + 2)
        (.v23 ⟨⟨ascii "APIC" ++ [0, 0, 0x10, 0] ++ [0, 0] ++ List.replicate 4096 0, 0, [], flag⟩⟩)
        file
      = if flag then .error .eof else .ok file := by
  have hlen : (List.replicate 4096 (0 : Byte)).length = 4096 := List.length_replicate _ _
  have hN : Version.frameSize .v23 [0, 0, 0x10, 0] = ((4096 : Nat) : Int) := by decide
  have hh : ((ID3Parser.v23 ⟨⟨ascii "APIC" ++ [0, 0, 0x10, 0] ++ [0, 0] ++
      List.replicate 4096 0, 0, [], flag⟩⟩).HasFrame).1 = true :=
    ID3Parser.HasFrame_id _ (ascii "APIC") ([0, 0, 0x10, 0] ++ [0, 0] ++ List.replicate 4096 0)
      rfl (by decide) (by simp only [ID3Parser.reader, List.append_assoc])
  cases flag with
  | true =>
    have hr := ID3Parser.ReadFrame_eof_data
      (ID3Parser.v23 ⟨⟨ascii "APIC" ++ [0, 0, 0x10, 0] ++ [0, 0] ++ List.replicate 4096 0,
        0, [], true⟩⟩) file (ascii "APIC") [0, 0, 0x10, 0] [0, 0] (List.replicate 4096 0)
      (Or.inr (by decide)) (by decide) (by decide) hN hlen rfl rfl rfl
    rw [frameLoop_abort _ file _ _ hh hr]
    rfl
  | false =>
    obtain ⟨p', h1, h2, h3, _⟩ := ID3Parser.ReadFrame_skip
      (ID3Parser.v23 ⟨⟨ascii "APIC" ++ [0, 0, 0x10, 0] ++ [0, 0] ++ List.replicate 4096 0,
        0, [], false⟩⟩) file (ascii "APIC") [0, 0, 0x10, 0] [0, 0] (List.replicate 4096 0) []
      4096 (by decide) (by decide) (by decide) hN hlen (by rw [List.append_nil]; rfl) (Or.inl rfl)
    have hstop : (p'.HasFrame).1 = false := by
      cases hb : (p'.HasFrame).1
      · rfl
      · have := (p'.HasFrame_fst.1 hb).1
        rw [h3, h2] at this
        exact absurd this (by decide)
    rw [frameLoop_step _ p' file file _ hh h1, frameLoop_stop p' hstop]
    rfl

/-- C11 (the code at the failing inputs).  Two v2.3 tags of declared size 4106 that agree on
their first 10 + 4106 bytes, a complete "APIC" frame of 4096 payload bytes, and differ in one
byte that follows the region in the second; both streams hand out their last bytes together with
`io.EOF`.  In the first the region ends the stream: the `Read` that takes the last bytes of the
frame comes with the error and `skipBytes` panics.  In the second it does not, and `Read`
returns a record.  And a v2.3 tag of declared size 0 gives a record when it is read in one
piece, and a panic when its first `Read` delivers three bytes. -/
theorem Read_region_end :
    Read ⟨ascii "ID3" ++ [3, 0, 0] ++ [0, 0, 0x20, 0x0A] ++
        (ascii "APIC" ++ [0, 0, 0x10, 0] ++ [0, 0] ++ List.replicate 4096 0), 0, [], true⟩
        = .error .eof
      ∧ Read ⟨ascii "ID3" ++ [3, 0, 0] ++ [0, 0, 0x20, 0x0A] ++
        (ascii "APIC" ++ [0, 0, 0x10, 0] ++ [0, 0] ++ List.replicate 4096 0) ++ [0], 0, [], true⟩
        = .ok (some
            { Header := some
                { Version := 3, MinorVersion := 0, Unsynchronization := false, Extended := false,
                  Experimental := false, Footer := false, Size := 4106 } })
      ∧ Read ⟨ascii "ID3" ++ [3, 0, 0, 0, 0, 0, 0], 0, [], false⟩
        = .ok (some
            { Header := some
                { Version := 3, MinorVersion := 0, Unsynchronization := false, Extended := false,
                  Experimental := false, Footer := false, Size := 0 } })
      ∧ Read ⟨ascii "ID3" ++ [3, 0, 0, 0, 0, 0, 0], 0, [3], false⟩
        = .error (.unsupportedVersion 0) := by
  have hS : parseSize [0, 0, 0x20, 0x0A] = 4106 := by decide
  have hlen : (ascii "APIC" ++ [0, 0, 0x10, 0] ++ [0, 0] ++ List.replicate 4096 (0 : Byte)).length
      = 4106 := by
    simp only [List.length_append, List.length_replicate]
    rfl
  refine ⟨?_, ?_, by decide, by decide⟩
  · rw [Read_stream ⟨ascii "ID3" ++ [3, 0, 0] ++ [0, 0, 0x20, 0x0A] ++
        (ascii "APIC" ++ [0, 0, 0x10, 0] ++ [0, 0] ++ List.replicate 4096 0), 0, [], true⟩
      3 0 0 0 0 0x20 0x0A
      (ascii "APIC" ++ [0, 0, 0x10, 0] ++ [0, 0] ++ List.replicate 4096 0) rfl rfl]
    have e2 : ¬ ((3 : Byte).val = 2) := by decide
    have e3 : (3 : Byte).val = 3 := rfl
    have htake : (ascii "APIC" ++ [0, 0, 0x10, 0] ++ [0, 0] ++ List.replicate 4096 (0 : Byte)).take
        4106 = ascii "APIC" ++ [0, 0, 0x10, 0] ++ [0, 0] ++ List.replicate 4096 0 :=
      List.take_of_length_le (by rw [hlen])
    have hT : (4106 : Int).toNat = 4106 := rfl
    simp only [hS, hT, htake, hlen, Nat.le_refl, decide_True, Bool.and_true, List.tail_nil]
    have h := frameLoop_last_frame true 4105
      { Header := some
          { Version := (3 : Byte).val, MinorVersion := (0 : Byte).val,
            Unsynchronization := flagBit 0 7, Extended := flagBit 0 6,
            Experimental := flagBit 0 5, Footer := flagBit 0 4, Size := 4106 } }
    simp only [if_true] at h
    rw [show 4106 + 1 = 4105 + 2 from rfl]
    simp only [if_neg e2, if_pos e3, h]
  · rw [Read_stream ⟨ascii "ID3" ++ [3, 0, 0] ++ [0, 0, 0x20, 0x0A] ++
        (ascii "APIC" ++ [0, 0, 0x10, 0] ++ [0, 0] ++ List.replicate 4096 0) ++ [0], 0, [], true⟩
      3 0 0 0 0 0x20 0x0A
      (ascii "APIC" ++ [0, 0, 0x10, 0] ++ [0, 0] ++ List.replicate 4096 0 ++ [0]) rfl rfl]
    have e2 : ¬ ((3 : Byte).val = 2) := by decide
    have e3 : (3 : Byte).val = 3 := rfl
    have htake : (ascii "APIC" ++ [0, 0, 0x10, 0] ++ [0, 0] ++ List.replicate 4096 (0 : Byte)
        ++ [0]).take 4106 = ascii "APIC" ++ [0, 0, 0x10, 0] ++ [0, 0] ++ List.replicate 4096 0 :=
      List.take_left' hlen
    have hlen1 : (ascii "APIC" ++ [0, 0, 0x10, 0] ++ [0, 0] ++ List.replicate 4096 (0 : Byte)
        ++ [0]).length = 4107 := by
      rw [List.length_append, hlen]; rfl
    have hT : (4106 : Int).toNat = 4106 := rfl
    have hle : ¬ (4107 ≤ 4106) := by decide
    simp only [hS, hT, htake, hlen, hlen1, hle, decide_False, Bool.and_false, List.tail_nil]
    have h := frameLoop_last_frame false 4105
      { Header := some
          { Version := (3 : Byte).val, MinorVersion := (0 : Byte).val,
            Unsynchronization := flagBit 0 7, Extended := flagBit 0 6,
            Experimental := flagBit 0 5, Footer := flagBit 0 4, Size := 4106 } }
    simp only [Bool.false_eq_true, if_false] at h
    rw [show 4106 + 1 = 4105 + 2 from rfl]
    simp only [if_neg e2, if_pos e3, h]
    rfl

end ID3

namespace ID3

/-! ## C12: last write wins -/

/-- Function `Read` on a well-formed tag (read without short reads): a run of well-formed frames
inside the region, behind which no frame identifier follows.  The record returned is the one the
run leaves. -/
theorem Read_frames (v : Version) (minor fl : Byte) (sz : List Byte) (frames : List Frame)
    (rest : List Byte) (hsz : sz.length = 4) (hwf : ∀ f ∈ frames, f.WellFormed v)
    (hS : (((frames.flatMap Frame.bytes).length : Nat) : Int) ≤ parseSize sz)
    (hstop : ¬ (v.idLen ≤
          (rest.take ((parseSize sz).toNat - (frames.flatMap Frame.bytes).length)).length ∧
        ∀ c ∈ (rest.take ((parseSize sz).toNat - (frames.flatMap Frame.bytes).length)).take
          v.idLen, isIDByte c)) :
    Read (Reader.ofBytes (ascii "ID3" ++ [v.major, minor, fl] ++ sz ++
        (frames.flatMap Frame.bytes ++ rest)))
      = .ok (some (frames.foldl (Frame.apply v)
          { Header := some
              { Version := v.major.val, MinorVersion := minor.val,
                Unsynchronization := flagBit fl 7, Extended := flagBit fl 6,
                Experimental := flagBit fl 5, Footer := flagBit fl 4,
                Size := parseSize sz } })) := by
  match sz, hsz with
  | [s0, s1, s2, s3], _ =>
    have hlist : ascii "ID3" ++ [v.major, minor, fl] ++ [s0, s1, s2, s3] ++
        (frames.flatMap Frame.bytes ++ rest) =
        0x49 :: 0x44 :: 0x33 :: v.major :: minor :: fl :: s0 :: s1 :: s2 :: s3 ::
          (frames.flatMap Frame.bytes ++ rest) := by
      rw [ascii_ID3]; rfl
    have hreg : (frames.flatMap Frame.bytes ++ rest).take (parseSize [s0, s1, s2, s3]).toNat
        = frames.flatMap Frame.bytes ++
          rest.take ((parseSize [s0, s1, s2, s3]).toNat - (frames.flatMap Frame.bytes).length) := by
      rw [List.take_append_eq_append_take, List.take_of_length_le (by omega)]
    generalize rest.take ((parseSize [s0, s1, s2, s3]).toNat -
      (frames.flatMap Frame.bytes).length) = tail at hreg hstop
    obtain ⟨p', fuel, hv', hd', hread⟩ := Read_run v minor fl s0 s1 s2 s3 frames _ tail hwf hreg
    rw [hlist, hread]
    have hno : (p'.HasFrame).1 = false := by
      cases hb : (p'.HasFrame).1
      · rfl
      · exfalso
        apply hstop
        have := p'.HasFrame_fst.1 hb
        rwa [hv', hd'] at this
    rw [frameLoop_stop p' hno]

theorem Frame.WellFormed.decodes {v : Version} {g : Frame} (hwf : g.WellFormed v)
    (fld : Field) (hg : (g.id, fld) ∈ v.fieldTable) : ∃ text, parseString g.payload = .ok text := by
  obtain ⟨_, _, _, hkind⟩ := hwf
  rcases hkind with ⟨_, text, _, hdec⟩ | hskip
  · exact ⟨text, hdec⟩
  · have h1 := (fieldOf_facts v).2 g.id hskip
    have h2 := (v.fieldOf_iff g.id fld).2 hg
    rw [h1] at h2
    exact absurd h2 (by simp)

/-- Last write wins.  On a well-formed tag (a run of well-formed frames inside the region,
behind which no frame identifier follows; read without short reads) `Read` returns a record in
which every field holds the decoded text of the last frame, in stream order, that carries an
identifier of that field, and the empty string when there is none; and the fields are those of
the tag without a frame whose identifier a later frame carries again. -/
theorem Read_last_write_wins (v : Version) (minor fl : Byte) (sz : List Byte)
    (frames : List Frame) (rest : List Byte) (hsz : sz.length = 4)
    (hwf : ∀ f ∈ frames, f.WellFormed v)
    (hS : (((frames.flatMap Frame.bytes).length : Nat) : Int) ≤ parseSize sz)
    (hstop : ¬ (v.idLen ≤
          (rest.take ((parseSize sz).toNat - (frames.flatMap Frame.bytes).length)).length ∧
        ∀ c ∈ (rest.take ((parseSize sz).toNat - (frames.flatMap Frame.bytes).length)).take
          v.idLen, isIDByte c)) :
    ∃ file, Read (Reader.ofBytes (ascii "ID3" ++ [v.major, minor, fl] ++ sz ++
          (frames.flatMap Frame.bytes ++ rest))) = .ok (some file)
      ∧ (∀ (fld : Field) (pre : List Frame) (f : Frame) (post : List Frame) (text : GoString),
          frames = pre ++ f :: post → (f.id, fld) ∈ v.fieldTable →
          (∀ g ∈ post, (g.id, fld) ∉ v.fieldTable) → parseString f.payload = .ok text →
          file.get fld = text)
      ∧ (∀ fld : Field, (∀ g ∈ frames, (g.id, fld) ∉ v.fieldTable) → file.get fld = [])
      ∧ (∀ (pre : List Frame) (f : Frame) (mid : List Frame) (g : Frame) (post : List Frame)
          (minor' fl' : Byte) (sz' rest' : List Byte),
          frames = pre ++ f :: (mid ++ g :: post) → f.id = g.id →
          (∃ fld, (g.id, fld) ∈ v.fieldTable) → sz'.length = 4 →
          ((((pre ++ (mid ++ g :: post)).flatMap Frame.bytes).length : Nat) : Int)
            ≤ parseSize sz' →
          ¬ (v.idLen ≤ (rest'.take ((parseSize sz').toNat -
                ((pre ++ (mid ++ g :: post)).flatMap Frame.bytes).length)).length ∧
              ∀ c ∈ (rest'.take ((parseSize sz').toNat -
                ((pre ++ (mid ++ g :: post)).flatMap Frame.bytes).length)).take v.idLen,
                isIDByte c) →
          ∃ file', Read (Reader.ofBytes (ascii "ID3" ++ [v.major, minor', fl'] ++ sz' ++
                ((pre ++ (mid ++ g :: post)).flatMap Frame.bytes ++ rest'))) = .ok (some file')
            ∧ ∀ fld, file'.get fld = file.get fld) := by
  refine ⟨_, Read_frames v minor fl sz frames rest hsz hwf hS hstop, ?_, ?_, ?_⟩
  · intro fld pre f post text hfr hf hpost hdec
    subst hfr
    exact foldl_apply_last v fld pre post f _ text ((v.fieldOf_iff f.id fld).2 hf)
      (fun g hg h => hpost g hg ((v.fieldOf_iff g.id fld).1 h)) hdec
  · intro fld hnone
    rw [foldl_apply_other v fld frames _
      (fun g hg h => hnone g hg ((v.fieldOf_iff g.id fld).1 h))]
    cases fld <;> rfl
  · intro pre f mid g post minor' fl' sz' rest' hfr hid hg hsz' hS' hstop'
    subst hfr
    have hwf' : ∀ x ∈ pre ++ (mid ++ g :: post), x.WellFormed v := by
      intro x hx
      apply hwf
      rcases List.mem_append.1 hx with h | h
      · exact List.mem_append.2 (Or.inl h)
      · exact List.mem_append.2 (Or.inr (List.mem_cons_of_mem _ h))
    refine ⟨_, Read_frames v minor' fl' sz' _ rest' hsz' hwf' hS' hstop', ?_⟩
    intro fld
    obtain ⟨gf, hgf⟩ := hg
    have hgwf : g.WellFormed v := hwf g (by simp)
    obtain ⟨text, hdec⟩ := hgwf.decodes gf hgf
    rw [foldl_apply_drop v pre mid post f g _ text gf hid ((v.fieldOf_iff g.id gf).2 hgf) hdec fld]
    apply foldl_apply_congr
    cases fld <;> rfl

end ID3

namespace ID3

set_option maxRecDepth 100000 in
/-- Last write wins on a v2.3 tag of declared size 42, read without short reads, with the frames
"TIT2" = "AB", "TALB" = "X", "TIT2" = "CD" and four bytes of padding: the name is "CD", the
album "X". -/
theorem Read_last_write_wins_witness :
    ∃ file, Read (Reader.ofBytes (ascii "ID3" ++ [3, 0, 0] ++ [0, 0, 0, 42] ++
          (ascii "TIT2" ++ [0, 0, 0, 3, 0, 0, 0, 0x41, 0x42] ++
            (ascii "TALB" ++ [0, 0, 0, 2, 0, 0, 0, 0x58] ++
              (ascii "TIT2" ++ [0, 0, 0, 3, 0, 0, 0, 0x43, 0x44] ++ [])) ++ [0, 0, 0, 0])))
        = .ok (some file)
      ∧ file.Name = ascii "CD" ∧ file.Album = ascii "X" ∧ file.Artist = [] := by
  obtain ⟨file, hread, hlast, hnone, _⟩ := Read_last_write_wins .v23 0 0 [0, 0, 0, 42]
    [⟨ascii "TIT2", [0, 0, 0, 3], [0, 0], [0, 0x41, 0x42]⟩,
     ⟨ascii "TALB", [0, 0, 0, 2], [0, 0], [0, 0x58]⟩,
     ⟨ascii "TIT2", [0, 0, 0, 3], [0, 0], [0, 0x43, 0x44]⟩] [0, 0, 0, 0] rfl
    (by
      intro f hf
      simp only [List.mem_cons, List.mem_singleton, List.mem_nil_iff, or_false] at hf
      rcases hf with h | h | h <;> subst h
      · exact ⟨by decide, by decide, by decide, Or.inl ⟨.name, ascii "AB", by decide, by decide⟩⟩
      · exact ⟨by decide, by decide, by decide, Or.inl ⟨.album, ascii "X", by decide, by decide⟩⟩
      · exact ⟨by decide, by decide, by decide, Or.inl ⟨.name, ascii "CD", by decide, by decide⟩⟩)
    (by decide) (by decide)
  refine ⟨file, hread, ?_, ?_, ?_⟩
  · exact hlast .name
      [⟨ascii "TIT2", [0, 0, 0, 3], [0, 0], [0, 0x41, 0x42]⟩,
       ⟨ascii "TALB", [0, 0, 0, 2], [0, 0], [0, 0x58]⟩]
      ⟨ascii "TIT2", [0, 0, 0, 3], [0, 0], [0, 0x43, 0x44]⟩ [] (ascii "CD") rfl (by decide)
      (by intro g hg; cases hg) (by decide)
  · exact hlast .album [⟨ascii "TIT2", [0, 0, 0, 3], [0, 0], [0, 0x41, 0x42]⟩]
      ⟨ascii "TALB", [0, 0, 0, 2], [0, 0], [0, 0x58]⟩
      [⟨ascii "TIT2", [0, 0, 0, 3], [0, 0], [0, 0x43, 0x44]⟩] (ascii "X") rfl (by decide)
      (by decide) (by decide)
  · exact hnone .artist (by decide)

/-- C12 (the code at the failing input): a well-formed v2.3 tag of declared size 24 with two
"TIT2" frames, "A" and then "B", on a stream whose first `Read` delivers nine bytes.  The header
is read by one unchecked `Read`: the size is decoded as 0, no frame is read, and the record
`Read` returns has an empty `Name`, where the tag read in one piece gives the name "B". -/
theorem Read_short_read_last_write :
    Read ⟨ascii "ID3" ++ [3, 0, 0] ++ [0, 0, 0, 0x18] ++
        (ascii "TIT2" ++ [0, 0, 0, 2] ++ [0, 0] ++ [0, 0x41] ++
          (ascii "TIT2" ++ [0, 0, 0, 2] ++ [0, 0] ++ [0, 0x42])), 0, [9], false⟩
      = .ok (some
          { Header := some
              { Version := 3, MinorVersion := 0, Unsynchronization := false, Extended := false,
                Experimental := false, Footer := false, Size := 0 } })
      ∧ Read ⟨ascii "ID3" ++ [3, 0, 0] ++ [0, 0, 0, 0x18] ++
        (ascii "TIT2" ++ [0, 0, 0, 2] ++ [0, 0] ++ [0, 0x41] ++
          (ascii "TIT2" ++ [0, 0, 0, 2] ++ [0, 0] ++ [0, 0x42])), 0, [], false⟩
      = .ok (some
          { Header := some
              { Version := 3, MinorVersion := 0, Unsynchronization := false, Extended := false,
                Experimental := false, Footer := false, Size := 24 },
            Name := ascii "B" }) := by
  decide

/-! ## C13: truncated streams -/

set_option maxRecDepth 8192 in
/-- C13 (the code at the failing inputs): the four bytes "ID3" 03 make `Read` return a record
with an all-zero header of version 3; the nine bytes "ID3" 04 00 00 00 00 00 likewise; and a
v2.3 tag of declared size 6 whose region holds "APIC" and two of the six remaining header bytes
makes `Read` return a record.  No panic in any of the three. -/
theorem Read_truncated_returns :
    Read (Reader.ofBytes (ascii "ID3" ++ [3]))
        = .ok (some { Header := some ⟨3, 0, false, false, false, false, 0⟩ })
      ∧ Read (Reader.ofBytes (ascii "ID3" ++ [4, 0, 0, 0, 0, 0]))
        = .ok (some { Header := some ⟨4, 0, false, false, false, false, 0⟩ })
      ∧ Read (Reader.ofBytes (ascii "ID3" ++ [3, 0, 0, 0, 0, 0, 6] ++ ascii "APIC" ++ [0, 0]))
        = .ok (some { Header := some ⟨3, 0, false, false, false, false, 6⟩ }) := by
  decide

/-! ## C20: the v2.3 frame size -/

theorem bigEndian32_four (b0 b1 b2 b3 : Byte) :
    bigEndian32 [b0, b1, b2, b3]
      = b0.val * 2 ^ 24 + b1.val * 2 ^ 16 + b2.val * 2 ^ 8 + b3.val := by
  have h0 := b0.isLt
  have h1 := b1.isLt
  have h2 := b2.isLt
  have h3 := b3.isLt
  simp only [bigEndian32, List.getD_cons_zero, List.getD_cons_succ]
  have e1 : b3.val ||| b2.val <<< 8 = 2 ^ 8 * b2.val + b3.val := by
    rw [Nat.lor_comm]; exact shl_or_eq_add _ _ 8 (by omega)
  have e2 : b3.val ||| b2.val <<< 8 ||| b1.val <<< 16 = 2 ^ 16 * b1.val + (2 ^ 8 * b2.val + b3.val) := by
    rw [e1, Nat.lor_comm]; exact shl_or_eq_add _ _ 16 (by omega)
  have e3 : b3.val ||| b2.val <<< 8 ||| b1.val <<< 16 ||| b0.val <<< 24
      = 2 ^ 24 * b0.val + (2 ^ 16 * b1.val + (2 ^ 8 * b2.val + b3.val)) := by
    rw [e2, Nat.lor_comm]; exact shl_or_eq_add _ _ 24 (by omega)
  rw [e3]; omega

/-- The v2.3 frame size is the big-endian value of the four size bytes read as a signed 32-bit
integer. -/
theorem frameSize_v23 (b0 b1 b2 b3 : Byte) :
    Version.frameSize .v23 [b0, b1, b2, b3] =
      if b0.val < 0x80 then
        ((b0.val * 2 ^ 24 + b1.val * 2 ^ 16 + b2.val * 2 ^ 8 + b3.val : Nat) : Int)
      else
        ((b0.val * 2 ^ 24 + b1.val * 2 ^ 16 + b2.val * 2 ^ 8 + b3.val : Nat) : Int) - 2 ^ 32 := by
  have h0 := b0.isLt
  have h1 := b1.isLt
  have h2 := b2.isLt
  have h3 := b3.isLt
  simp only [Version.frameSize, bigEndian32_four, toInt32]
  have hm : (b0.val * 2 ^ 24 + b1.val * 2 ^ 16 + b2.val * 2 ^ 8 + b3.val) % 2 ^ 32
      = b0.val * 2 ^ 24 + b1.val * 2 ^ 16 + b2.val * 2 ^ 8 + b3.val :=
    Nat.mod_eq_of_lt (by omega)
  rw [hm]
  by_cases hb : b0.val < 0x80
  · rw [if_pos hb, if_pos (by omega)]
  · rw [if_neg hb, if_neg (by omega)]

/-- C20 (amended): for four size bytes `b0..b3` of a v2.3 frame header with `b0 < 0x80`, the
payload size the v2.3 `ReadFrame` uses is the ordinary big-endian value
`b0*2^24 + b1*2^16 + b2*2^8 + b3`, not negative, no bit masked out: a skipped frame with that
many payload bytes is passed by exactly, and a text frame stores the decoding of exactly that
many payload bytes (when no `Read` reports `io.EOF` together with the last of them). -/
theorem v23_frame_size (b0 b1 b2 b3 : Byte) (hb : b0.val < 0x80) :
    Version.frameSize .v23 [b0, b1, b2, b3]
        = ((b0.val * 2 ^ 24 + b1.val * 2 ^ 16 + b2.val * 2 ^ 8 + b3.val : Nat) : Int)
      ∧ 0 ≤ Version.frameSize .v23 [b0, b1, b2, b3]
      ∧ (∀ (p : v23Parser) (file : File) (id flags payload rest : List Byte),
          id ∈ v23SkipIDs → flags.length = 2 →
          payload.length = b0.val * 2 ^ 24 + b1.val * 2 ^ 16 + b2.val * 2 ^ 8 + b3.val →
          p.reader.data = id ++ [b0, b1, b2, b3] ++ flags ++ payload ++ rest →
          (p.reader.eofWithData = false ∨ payload.length < 4096 ∨ rest ≠ []) →
          ∃ p', p.ReadFrame file = .ok (file, p') ∧ p'.reader.data = rest ∧
            p'.reader.pos = p.reader.pos + 10 + payload.length)
      ∧ (∀ (p : v23Parser) (file : File) (id : GoString) (fld : Field)
          (flags payload rest : List Byte) (text : GoString),
          (id, fld) ∈ Version.fieldTable .v23 → flags.length = 2 →
          payload.length = b0.val * 2 ^ 24 + b1.val * 2 ^ 16 + b2.val * 2 ^ 8 + b3.val →
          parseString payload = .ok text →
          p.reader.data = id ++ [b0, b1, b2, b3] ++ flags ++ payload ++ rest →
          (p.reader.eofWithData = false ∨ payload.length < 4096 ∨ rest ≠ []) →
          ∃ p', p.ReadFrame file = .ok (file.set fld text, p') ∧ p'.reader.data = rest ∧
            p'.reader.pos = p.reader.pos + 10 + payload.length) := by
  have hval := frameSize_v23 b0 b1 b2 b3
  rw [if_pos hb] at hval
  refine ⟨hval, by rw [hval]; exact Int.natCast_nonneg _, ?_, ?_⟩
  · intro p file id flags payload rest hid hflags hpay hdata hq
    obtain ⟨p', h1, _, h3, h4, _⟩ := (ID3Parser.v23 p).ReadFrame_skip file id [b0, b1, b2, b3]
      flags payload rest payload.length hid rfl hflags (by rw [hpay]; exact hval) rfl hdata hq
    cases p' with
    | v23 q =>
      refine ⟨q, ?_, h3, h4⟩
      have := Except.map_eq_ok _ _ _ h1
      obtain ⟨a, ha, hq⟩ := this
      simp only [Prod.mk.injEq, ID3Parser.v23.injEq] at hq
      rw [ha, ← hq.1, ← hq.2]
    | v22 q => simp [ID3Parser.ReadFrame, Except.map] at h1; split at h1 <;> simp at h1
    | v24 q => simp [ID3Parser.ReadFrame, Except.map] at h1; split at h1 <;> simp at h1
  · intro p file id fld flags payload rest text hid hflags hpay hdec hdata hq
    obtain ⟨p', h1, _, h3, h4, _⟩ := (ID3Parser.v23 p).ReadFrame_text file id fld
      [b0, b1, b2, b3] flags payload rest payload.length text hid rfl hflags
      (by rw [hpay]; exact hval) rfl hdec hdata hq
    cases p' with
    | v23 q =>
      refine ⟨q, ?_, h3, h4⟩
      have := Except.map_eq_ok _ _ _ h1
      obtain ⟨a, ha, hq⟩ := this
      simp only [Prod.mk.injEq, ID3Parser.v23.injEq] at hq
      rw [ha, ← hq.1, ← hq.2]
    | v22 q => simp [ID3Parser.ReadFrame, Except.map] at h1; split at h1 <;> simp at h1
    | v24 q => simp [ID3Parser.ReadFrame, Except.map] at h1; split at h1 <;> simp at h1

/-- C20 on the size bytes 00 00 01 02 and a skipped frame "APIC" of 258 payload bytes. -/
theorem v23_frame_size_witness :
    Version.frameSize .v23 [0x00, 0x00, 0x01, 0x02] = 258
      ∧ ∃ p', (v23Parser.mk (Reader.ofBytes (ascii "APIC" ++ [0x00, 0x00, 0x01, 0x02] ++ [0, 0]
            ++ List.replicate 258 7 ++ [9]))).ReadFrame {} = .ok ({}, p')
          ∧ p'.reader.data = [9] := by
  have h := v23_frame_size 0x00 0x00 0x01 0x02 (by decide)
  refine ⟨h.1, ?_⟩
  obtain ⟨p', h1, h2, _⟩ := h.2.2.1
    (v23Parser.mk (Reader.ofBytes (ascii "APIC" ++ [0x00, 0x00, 0x01, 0x02] ++ [0, 0]
      ++ List.replicate 258 7 ++ [9]))) {} (ascii "APIC") [0, 0] (List.replicate 258 7) [9]
    (by decide) rfl (List.length_replicate _ _) rfl (Or.inl rfl)
  exact ⟨p', h1, h2⟩

/-- C20 fails on the code when `b0 ≥ 0x80`: the size bytes 80 00 00 00 give the negative size
`-2^31`, not `2^31`; a skipped frame with these size bytes is left with no payload byte passed,
and a text frame with them panics. -/
theorem v23_frame_size_counterexample :
    Version.frameSize .v23 [0x80, 0x00, 0x00, 0x00] = -2147483648
      ∧ Version.frameSize .v23 [0x80, 0x00, 0x00, 0x00] ≠ ((0x80 * 2 ^ 24 : Nat) : Int)
      ∧ (v23Parser.mk (Reader.ofBytes (ascii "APIC" ++ [0x80, 0, 0, 0] ++ [0, 0]
            ++ [1, 2, 3]))).ReadFrame {}
          = .ok ({}, ⟨⟨[1, 2, 3], 10, [], false⟩⟩)
      ∧ (v23Parser.mk (Reader.ofBytes (ascii "TIT2" ++ [0x80, 0, 0, 0] ++ [0, 0]
            ++ [1, 2, 3]))).ReadFrame {}
          = .error .makeslice := by
  decide

end ID3

namespace ID3

/-! ## C21: an odd number of UTF-16 bytes -/

/-- The loop of `toUTF16` reaches its end on an even number of bytes. -/
theorem toUTF16Loop_even (s0 s1 : Nat) : ∀ (n : Nat) (data : List Byte), data.length = 2 * n →
    ∃ u, toUTF16Loop s0 s1 data = .ok u := by
  intro n
  induction n with
  | zero =>
    intro data hl
    have : data = [] := List.length_eq_zero.1 (by omega)
    subst this
    exact ⟨[], rfl⟩
  | succ n ih =>
    intro data hl
    match data, hl with
    | [], hl => simp at hl
    | [_], hl => simp at hl; omega
    | d0 :: d1 :: rest, hl =>
      obtain ⟨u, hu⟩ := ih rest (by simp only [List.length_cons] at hl; omega)
      exact ⟨_, by rw [toUTF16Loop, hu]⟩

/-- C21: on a byte run with selector 1, the little-endian byte-order mark FF FE and an odd
number (at least 3) of bytes behind the selector, `parseString` succeeds, and its result is the
result on the same run with one zero byte appended: the odd run is padded, not refused. -/
theorem parseString_odd_padded (rest : List Byte) (hodd : rest.length % 2 = 1)
    (h3 : 3 ≤ rest.length) (h0 : rest.getD 0 0 = 0xFF) (h1 : rest.getD 1 0 = 0xFE) :
    (∃ text, parseString (0x01 :: rest) = .ok text) ∧
      parseString (0x01 :: rest) = parseString ((0x01 :: rest) ++ [0x00]) := by
  match rest, h3, h0, h1, hodd with
  | b0 :: b1 :: payload, _, h0, h1, hodd =>
    simp only [List.getD_cons_zero, List.getD_cons_succ] at h0 h1
    subst h0 h1
    simp only [List.length_cons] at hodd
    have hp : payload.length % 2 > 0 := by omega
    have hq : ¬ (payload ++ [0]).length % 2 > 0 := by
      rw [List.length_append, List.length_singleton]; omega
    have hsel : (0x01 : Byte) ≠ 0 := by decide
    have hl : toUTF16 (0xFF :: 0xFE :: payload) = toUTF16Loop 0 8 (payload ++ [0]) := by
      rw [toUTF16_cons, if_pos ⟨rfl, rfl⟩, if_pos hp]
    have hr : toUTF16 (0xFF :: 0xFE :: (payload ++ [0])) = toUTF16Loop 0 8 (payload ++ [0]) := by
      rw [toUTF16_cons, if_pos ⟨rfl, rfl⟩, if_neg hq]
    obtain ⟨u, hu⟩ := toUTF16Loop_even 0 8 ((payload.length + 1) / 2) (payload ++ [0])
      (by rw [List.length_append, List.length_singleton]; omega)
    constructor
    · exact ⟨trimRightNul (runesToString (utf16Decode u)),
        by simp only [parseString, if_neg hsel, if_true, hl, hu]⟩
    · simp only [parseString, if_neg hsel, if_true, hl, List.cons_append, hr]

/-- C21 on the run `[0x01, 0xFF, 0xFE, 0x41]`: the text is "A", as for
`[0x01, 0xFF, 0xFE, 0x41, 0x00]`. -/
theorem parseString_odd_padded_witness :
    parseString [0x01, 0xFF, 0xFE, 0x41] = .ok (ascii "A") ∧
      parseString [0x01, 0xFF, 0xFE, 0x41] = parseString [0x01, 0xFF, 0xFE, 0x41, 0x00] :=
  ⟨by decide,
    (parseString_odd_padded [0xFF, 0xFE, 0x41] (by decide) (by decide) (by decide) (by decide)).2⟩

end ID3

namespace ID3

/-! ## C22: a text frame of size 0 -/

/-- Function `readString` for 0 bytes: `parseString` gets the empty run and indexes it. -/
theorem readString_zero (r : Reader) : readString r 0 = .error .indexOutOfRange := by
  simp [readString, readBytes, readBytesLoop, parseString]

/-- Method `ReadFrame` in front of a field-producing frame header that declares size 0. -/
theorem ID3Parser.ReadFrame_empty (p : ID3Parser) (file : File) (id : GoString) (fld : Field)
    (size flags tail : List Byte) (hid : (id, fld) ∈ p.version.fieldTable)
    (hsize : size.length = p.version.sizeLen) (hflags : flags.length = p.version.flagsLen)
    (hzero : p.version.frameSize size = 0)
    (hdata : p.reader.data = id ++ size ++ flags ++ tail) :
    p.ReadFrame file = .error .indexOutOfRange := by
  have hl := (Version.table_id p.version id (Or.inl ⟨fld, hid⟩)).1
  cases p with
  | v22 p =>
    simp only [ID3Parser.version, Version.sizeLen, Version.flagsLen, Version.idLen,
      ID3Parser.reader] at *
    have hf : flags = [] := List.length_eq_zero.1 hflags
    subst hf
    obtain ⟨r, _, _, heq⟩ := p.ReadFrame_v22_header file id size tail hl hsize
      (by rw [hdata]; simp only [List.append_assoc, List.append_nil])
    simp only [Version.fieldTable, List.mem_cons, Prod.mk.injEq, List.mem_nil_iff,
      or_false] at hid
    rcases hid with h | h | h | h | h | h | h <;> obtain ⟨rfl, rfl⟩ := h <;>
      simp +decide only [ID3Parser.ReadFrame, heq, hzero, readString_zero, Except.map, if_true,
        if_false]
  | v23 p =>
    simp only [ID3Parser.version, Version.sizeLen, Version.flagsLen, Version.idLen,
      ID3Parser.reader] at *
    obtain ⟨r, _, _, heq⟩ := p.ReadFrame_v23_header file id size flags tail hl hsize hflags hdata
    simp only [Version.fieldTable, List.mem_cons, Prod.mk.injEq, List.mem_nil_iff,
      or_false] at hid
    rcases hid with h | h | h | h | h | h | h | h <;> obtain ⟨rfl, rfl⟩ := h <;>
      simp +decide only [ID3Parser.ReadFrame, heq, hzero, readString_zero, Except.map, if_true,
        if_false]
  | v24 p =>
    simp only [ID3Parser.version, Version.sizeLen, Version.flagsLen, Version.idLen,
      ID3Parser.reader] at *
    obtain ⟨r, _, _, heq⟩ := p.ReadFrame_v24_header file id size flags tail hl hsize hflags hdata
    simp only [Version.fieldTable, List.mem_cons, Prod.mk.injEq, List.mem_nil_iff,
      or_false] at hid
    rcases hid with h | h | h | h | h | h | h | h <;> obtain ⟨rfl, rfl⟩ := h <;>
      simp +decide only [ID3Parser.ReadFrame, heq, hzero, readString_zero, Except.map, if_true,
        if_false]

/-- Function `Read` on a tag with a field-producing frame of declared size 0 behind a run of
well-formed frames. -/
theorem Read_empty (v : Version) (minor fl : Byte) (sz : List Byte) (frames : List Frame)
    (id : GoString) (fld : Field) (size flags rest : List Byte) (hsz : sz.length = 4)
    (hwf : ∀ f ∈ frames, f.WellFormed v) (hid : (id, fld) ∈ v.fieldTable)
    (hsize : size.length = v.sizeLen) (hflags : flags.length = v.flagsLen)
    (hzero : v.frameSize size = 0)
    (hin : (((frames.flatMap Frame.bytes).length + v.headerLen : Nat) : Int) ≤ parseSize sz) :
    Read (Reader.ofBytes (ascii "ID3" ++ [v.major, minor, fl] ++ sz ++
        (frames.flatMap Frame.bytes ++ (id ++ size ++ flags ++ rest))))
      = .error .indexOutOfRange := by
  obtain ⟨hidlen, hidb⟩ := Version.table_id v id (Or.inl ⟨fld, hid⟩)
  match sz, hsz with
  | [s0, s1, s2, s3], _ =>
    have hlist : ascii "ID3" ++ [v.major, minor, fl] ++ [s0, s1, s2, s3] ++
        (frames.flatMap Frame.bytes ++ (id ++ size ++ flags ++ rest)) =
        0x49 :: 0x44 :: 0x33 :: v.major :: minor :: fl :: s0 :: s1 :: s2 :: s3 ::
          (frames.flatMap Frame.bytes ++ (id ++ size ++ flags ++ rest)) := by
      rw [ascii_ID3]; rfl
    rw [hlist, Read_tag]
    have hH : (id ++ size ++ flags).length = v.headerLen := by
      simp only [List.length_append, hidlen, hsize, hflags, Version.headerLen]
    have hS : (frames.flatMap Frame.bytes).length + (id ++ size ++ flags).length
        ≤ (parseSize [s0, s1, s2, s3]).toNat := by
      rw [hH]; omega
    have hreg : (frames.flatMap Frame.bytes ++ (id ++ size ++ flags ++ rest)).take
        (parseSize [s0, s1, s2, s3]).toNat = frames.flatMap Frame.bytes ++ (id ++ size ++ flags ++
          rest.take ((parseSize [s0, s1, s2, s3]).toNat - (frames.flatMap Frame.bytes).length -
            (id ++ size ++ flags).length)) :=
      take_region (frames.flatMap Frame.bytes) (id ++ size ++ flags) rest _ hS
    rw [hreg]
    generalize rest.take ((parseSize [s0, s1, s2, s3]).toNat -
      (frames.flatMap Frame.bytes).length - (id ++ size ++ flags).length) = tail
    obtain ⟨p', file', hv', hd', _, hloop⟩ := frameLoop_frames v frames
      (v.parser (Reader.mk (frames.flatMap Frame.bytes ++ (id ++ size ++ flags ++ tail)) 0 []
        false))
      { Header := some
          { Version := v.major.val, MinorVersion := minor.val,
            Unsynchronization := flagBit fl 7, Extended := flagBit fl 6,
            Experimental := flagBit fl 5, Footer := flagBit fl 4,
            Size := parseSize [s0, s1, s2, s3] } }
      (id ++ size ++ flags ++ tail) (v.parser_version _) hwf (by rw [v.parser_reader])
      (by rw [v.parser_reader])
    have hfl := frames_length_le v frames hwf
    have hfuel : (frames.flatMap Frame.bytes ++ (id ++ size ++ flags ++ tail)).length + 1 =
        frames.length + (((frames.flatMap Frame.bytes ++ (id ++ size ++ flags ++ tail)).length
          - frames.length) + 1) := by
      have : (frames.flatMap Frame.bytes).length ≤
          (frames.flatMap Frame.bytes ++ (id ++ size ++ flags ++ tail)).length := by
        rw [List.length_append]; omega
      omega
    rw [hfuel, hloop]
    have hh : (p'.HasFrame).1 = true :=
      p'.HasFrame_id id (size ++ flags ++ tail) (by rw [hv']; exact hidlen) hidb
        (by rw [hd']; simp only [List.append_assoc])
    have hr := p'.ReadFrame_empty file' id fld size flags tail (by rw [hv']; exact hid)
      (by rw [hv']; exact hsize) (by rw [hv']; exact hflags) (by rw [hv']; exact hzero) hd'
    rw [frameLoop_abort p' file' _ _ hh hr]

/-- Empty text frames: for every version and every field-producing identifier, `ReadFrame` on a
frame header that declares a payload of size 0 panics (`parseString` indexes the selector byte
of an empty run) and stores nothing, and `Read` on a tag (read without short reads) that holds
such a frame behind any run of well-formed frames ends in that panic: no record is returned. -/
theorem empty_text_frame_aborts (v : Version) (minor fl : Byte) (sz : List Byte)
    (frames : List Frame) (id : GoString) (fld : Field) (size flags rest : List Byte)
    (hsz : sz.length = 4) (hwf : ∀ f ∈ frames, f.WellFormed v)
    (hid : (id, fld) ∈ v.fieldTable) (hsize : size.length = v.sizeLen)
    (hflags : flags.length = v.flagsLen) (hzero : v.frameSize size = 0)
    (hin : (((frames.flatMap Frame.bytes).length + v.headerLen : Nat) : Int) ≤ parseSize sz) :
    (∀ (p : ID3Parser) (file : File) (tail : List Byte), p.version = v →
        p.reader.data = id ++ size ++ flags ++ tail →
        p.ReadFrame file = .error .indexOutOfRange)
      ∧ Read (Reader.ofBytes (ascii "ID3" ++ [v.major, minor, fl] ++ sz ++
          (frames.flatMap Frame.bytes ++ (id ++ size ++ flags ++ rest))))
        = .error .indexOutOfRange := by
  constructor
  · intro p file tail hv hdata
    subst hv
    exact p.ReadFrame_empty file id fld size flags tail hid hsize hflags hzero hdata
  · exact Read_empty v minor fl sz frames id fld size flags rest hsz hwf hid hsize hflags hzero
      hin

set_option maxRecDepth 8192 in
/-- A v2.3 tag of declared size 22, read without short reads, that holds a "TIT2" frame with the
text "A" and then a "TALB" frame of size 0: `Read` panics, the name "A" is not returned. -/
theorem empty_text_frame_aborts_witness :
    Read (Reader.ofBytes (ascii "ID3" ++ [3, 0, 0] ++ [0, 0, 0, 0x16] ++
        (ascii "TIT2" ++ [0, 0, 0, 2] ++ [0, 0] ++ [0, 0x41] ++
          (ascii "TALB" ++ [0, 0, 0, 0] ++ [0, 0]))))
      = .error .indexOutOfRange := by
  have h := (empty_text_frame_aborts .v23 0 0 [0, 0, 0, 0x16]
    [⟨ascii "TIT2", [0, 0, 0, 2], [0, 0], [0, 0x41]⟩] (ascii "TALB") .album [0, 0, 0, 0] [0, 0]
    [] rfl
    (by
      intro f hf
      rw [List.mem_singleton] at hf
      subst hf
      exact ⟨by decide, by decide, by decide, Or.inl ⟨.name, ascii "A", by decide, by decide⟩⟩)
    (by decide) (by decide) (by decide) (by decide) (by decide)).2
  exact h

set_option maxRecDepth 8192 in
/-- C22 (the code at the failing input): a v2.3 tag of declared size 22 that holds a "TIT2"
frame with the text "A" and then a "TALB" frame of size 0, on a stream whose first `Read`
delivers nine bytes.  The header is read by one unchecked `Read`: the size is decoded as 0, the
region is empty, no frame is read, and `Read` returns a record where the tag read in one piece
makes it panic. -/
theorem Read_short_read_empty_frame :
    Read ⟨ascii "ID3" ++ [3, 0, 0] ++ [0, 0, 0, 0x16] ++
        (ascii "TIT2" ++ [0, 0, 0, 2] ++ [0, 0] ++ [0, 0x41] ++
          (ascii "TALB" ++ [0, 0, 0, 0] ++ [0, 0])), 0, [9], false⟩
      = .ok (some
          { Header := some
              { Version := 3, MinorVersion := 0, Unsynchronization := false, Extended := false,
                Experimental := false, Footer := false, Size := 0 } })
      ∧ Read ⟨ascii "ID3" ++ [3, 0, 0] ++ [0, 0, 0, 0x16] ++
        (ascii "TIT2" ++ [0, 0, 0, 2] ++ [0, 0] ++ [0, 0x41] ++
          (ascii "TALB" ++ [0, 0, 0, 0] ++ [0, 0])), 0, [], false⟩
      = .error .indexOutOfRange := by
  decide

end ID3

namespace ID3

/-! ## Every read ends: what the loops return, under any schedule of short reads -/

/-- A `Read` that delivers bytes moves the reader past them. -/
theorem Reader.Read_advanced (r : Reader) (n : Nat) (hn : 0 < n) (hd : r.data ≠ []) :
    ∃ got err r', r.Read n = (got, err, r') ∧ 0 < got.length ∧ got.length ≤ n ∧
      r.Advanced r' got.length := by
  obtain ⟨k, r1, hread, hk0, hkn, hdata, hpos, hflag, hshort, _⟩ := r.Read_some n hn hd
  have hlenpos : 0 < r.data.length := List.length_pos.2 hd
  have hlen : (r.data.take k).length = min k r.data.length := List.length_take _ _
  have hdrop : r.data.drop k = r.data.drop (r.data.take k).length := by
    by_cases hk : k ≤ r.data.length
    · rw [hlen, Nat.min_eq_left hk]
    · rw [hlen, Nat.min_eq_right (by omega), List.drop_of_length_le (by omega),
        List.drop_of_length_le (Nat.le_refl _)]
  exact ⟨_, _, r1, hread, by omega, by omega, by rw [hdata, hdrop], hpos, hflag, 1, hshort⟩

/-- The loop of `readBytes` either returns, having moved `need` bytes ahead, or panics with the
end-of-stream error. -/
theorem readBytesLoop_cases (fuel : Nat) : ∀ (r : Reader) (need : Nat) (b : List Byte),
    need ≤ fuel →
    (∃ b' r', readBytesLoop fuel r need b = .ok (b', r') ∧ r.Advanced r' need) ∨
      readBytesLoop fuel r need b = .error .eof := by
  induction fuel with
  | zero =>
    intro r need b hf
    have h0 : need = 0 := by omega
    subst h0
    exact Or.inl ⟨b, r, by simp [readBytesLoop], Reader.Advanced.zero r⟩
  | succ fuel ih =>
    intro r need b hf
    cases need with
    | zero => exact Or.inl ⟨b, r, by simp [readBytesLoop], Reader.Advanced.zero r⟩
    | succ need =>
      by_cases hd : r.data = []
      · exact Or.inr (by simp only [readBytesLoop, r.Read_eof (need + 1) (by omega) hd])
      · obtain ⟨got, err, r1, hread, hg0, hgn, hadv⟩ := r.Read_advanced (need + 1) (by omega) hd
        cases err with
        | true => exact Or.inr (by simp only [readBytesLoop, hread])
        | false =>
          rcases ih r1 (need + 1 - got.length) (b ++ got) (by omega) with ⟨b', r2, h, hadv2⟩ | h
          · refine Or.inl ⟨b', r2, by simp only [readBytesLoop, hread, h], ?_⟩
            have h2 := hadv.trans hadv2
            rwa [show got.length + (need + 1 - got.length) = need + 1 by omega] at h2
          · exact Or.inr (by simp only [readBytesLoop, hread, h])

/-- Function `readBytes` either returns, having moved `c` bytes ahead, or panics with the
end-of-stream error or in `make`: its loop does not run on. -/
theorem readBytes_cases (r : Reader) (c : Int) :
    (∃ b r', readBytes r c = .ok (b, r') ∧ r.Advanced r' c.toNat) ∨
      readBytes r c = .error .eof ∨ readBytes r c = .error .makeslice := by
  by_cases hneg : c < 0
  · exact Or.inr (Or.inr (by simp only [readBytes, hneg, if_true]))
  · simp only [readBytes, hneg, if_false]
    rcases readBytesLoop_cases c.toNat r c.toNat [] (Nat.le_refl _) with h | h
    · exact Or.inl h
    · exact Or.inr (Or.inl h)

/-- The loop of `skipBytes` either returns, having moved `need` bytes ahead, or panics with the
end-of-stream error. -/
theorem skipBytesLoop_cases (fuel : Nat) : ∀ (r : Reader) (need : Nat), need ≤ fuel →
    (∃ r', skipBytesLoop fuel r need = .ok r' ∧ r.Advanced r' need) ∨
      skipBytesLoop fuel r need = .error .eof := by
  induction fuel with
  | zero =>
    intro r need hf
    have h0 : need = 0 := by omega
    subst h0
    exact Or.inl ⟨r, by simp [skipBytesLoop], Reader.Advanced.zero r⟩
  | succ fuel ih =>
    intro r need hf
    cases need with
    | zero => exact Or.inl ⟨r, by simp [skipBytesLoop], Reader.Advanced.zero r⟩
    | succ need =>
      have hstop : 0 < (if need + 1 > 1024 * 4 then 1024 * 4 else need + 1) := by
        split <;> omega
      by_cases hd : r.data = []
      · exact Or.inr (by simp only [skipBytesLoop, r.Read_eof _ hstop hd])
      · obtain ⟨got, err, r1, hread, hg0, hgn, hadv⟩ := r.Read_advanced _ hstop hd
        have hgn' : got.length ≤ need + 1 := by
          split at hgn <;> omega
        cases err with
        | true => exact Or.inr (by simp only [skipBytesLoop, hread])
        | false =>
          rcases ih r1 (need + 1 - got.length) (by omega) with ⟨r2, h, hadv2⟩ | h
          · refine Or.inl ⟨r2, by simp only [skipBytesLoop, hread, h], ?_⟩
            have h2 := hadv.trans hadv2
            rwa [show got.length + (need + 1 - got.length) = need + 1 by omega] at h2
          · exact Or.inr (by simp only [skipBytesLoop, hread, h])

/-- Function `skipBytes` either returns, having moved `c` bytes ahead (none for a negative `c`),
or panics with the end-of-stream error. -/
theorem skipBytes_cases (r : Reader) (c : Int) :
    (∃ r', skipBytes r c = .ok r' ∧ r.Advanced r' c.toNat) ∨ skipBytes r c = .error .eof :=
  skipBytesLoop_cases c.toNat r c.toNat (Nat.le_refl _)

/-- The loop of `io.ReadFull` returns, with or without an error, having moved some bytes
ahead. -/
theorem readFullLoop_returns (fuel : Nat) : ∀ (r : Reader) (need : Nat) (b : List Byte),
    need ≤ fuel →
    ∃ buf err r' k, readFullLoop fuel r need b = .ok (buf, err, r') ∧ r.Advanced r' k := by
  induction fuel with
  | zero =>
    intro r need b hf
    have h0 : need = 0 := by omega
    subst h0
    exact ⟨b, false, r, 0, by simp [readFullLoop], Reader.Advanced.zero r⟩
  | succ fuel ih =>
    intro r need b hf
    cases need with
    | zero => exact ⟨b, false, r, 0, by simp [readFullLoop], Reader.Advanced.zero r⟩
    | succ need =>
      by_cases hd : r.data = []
      · exact ⟨b ++ [], decide (([] : List Byte).length < need + 1), r, 0,
          by simp only [readFullLoop, r.Read_eof (need + 1) (by omega) hd],
          Reader.Advanced.zero r⟩
      · obtain ⟨got, err, r1, hread, hg0, hgn, hadv⟩ := r.Read_advanced (need + 1) (by omega) hd
        cases err with
        | true =>
          exact ⟨b ++ got, decide (got.length < need + 1), r1, _,
            by simp only [readFullLoop, hread], hadv⟩
        | false =>
          obtain ⟨buf, err, r2, m, hloop, hadv2⟩ :=
            ih r1 (need + 1 - got.length) (b ++ got) (by omega)
          exact ⟨buf, err, r2, _, by simp only [readFullLoop, hread, hloop], hadv.trans hadv2⟩

/-- Call `binary.Read` returns, whether the bytes were there or not, having moved some bytes
ahead. -/
theorem binaryRead_returns (r : Reader) (n : Nat) :
    ∃ x r' k, binaryRead r n = .ok (x, r') ∧ r.Advanced r' k := by
  obtain ⟨buf, err, r', k, h, hadv⟩ := readFullLoop_returns n r n [] (Nat.le_refl n)
  cases err with
  | true => exact ⟨none, r', k, by simp only [binaryRead, h], hadv⟩
  | false => exact ⟨some buf, r', k, by simp only [binaryRead, h], hadv⟩

/-- The loop of `toUTF16` and the checks before it raise panics of the source only. -/
theorem toUTF16_terminates (data : List Byte) : toUTF16 data ≠ .error .diverge := by
  intro h
  simp only [toUTF16] at h
  split_ifs at h <;>
    first
    | exact absurd (toUTF16Loop_error _ _ _ _ _ (Nat.le_refl _) h) (by simp)
    | simp at h

theorem parseString_terminates (data : List Byte) : parseString data ≠ .error .diverge := by
  intro h
  unfold parseString at h
  split at h
  · simp at h
  · split_ifs at h
    · split at h
      · rename_i e' heq
        simp at h; subst h
        exact toUTF16_terminates _ heq
      · simp at h
    · simp at h

/-- Function `readString` either returns, having moved `c` bytes ahead, or panics with a panic
of the source. -/
theorem readString_cases (r : Reader) (c : Int) :
    (∃ s r', readString r c = .ok (s, r') ∧ r.Advanced r' c.toNat) ∨
      ∃ e, readString r c = .error e ∧ e ≠ .diverge := by
  rcases readBytes_cases r c with ⟨b, r', h, hadv⟩ | h | h
  · cases hp : parseString b with
    | ok s => exact Or.inl ⟨s, r', by simp only [readString, h, hp], hadv⟩
    | error e =>
      refine Or.inr ⟨e, by simp only [readString, h, hp], ?_⟩
      intro he
      subst he
      exact parseString_terminates b hp
  · exact Or.inr ⟨.eof, by simp only [readString, h], by simp⟩
  · exact Or.inr ⟨.makeslice, by simp only [readString, h], by simp⟩

end ID3

namespace ID3

/-! ## Every frame read ends, and moves ahead -/

/-- A `case` of `ReadFrame` that stores a text: it returns behind the payload or panics. -/
theorem readString_branch {P : Type} (rd : P → Reader) (f : GoString × Reader → File × P)
    (hf : ∀ s r, rd (f (s, r)).2 = r) (r0 r : Reader) (k m : Nat) (hk : r0.Advanced r k)
    (hm : m ≤ k) (c : Int) :
    (∃ file' p' n, (readString r c).map f = .ok (file', p') ∧ m ≤ n ∧ r0.Advanced (rd p') n) ∨
      ∃ e, (readString r c).map f = .error e ∧ e ≠ .diverge := by
  rcases readString_cases r c with ⟨s, r', h, hadv⟩ | ⟨e, h, he⟩
  · refine Or.inl ⟨(f (s, r')).1, (f (s, r')).2, k + c.toNat, by rw [h]; rfl, by omega, ?_⟩
    rw [hf]
    exact hk.trans hadv
  · exact Or.inr ⟨e, by rw [h]; rfl, he⟩

/-- A `case` of `ReadFrame` that skips the payload: it returns behind the bytes skipped or
panics. -/
theorem skipBytes_branch {P : Type} (rd : P → Reader) (f : Reader → File × P)
    (hf : ∀ r, rd (f r).2 = r) (r0 r : Reader) (k m : Nat) (hk : r0.Advanced r k)
    (hm : m ≤ k) (c : Int) :
    (∃ file' p' n, (skipBytes r c).map f = .ok (file', p') ∧ m ≤ n ∧ r0.Advanced (rd p') n) ∨
      ∃ e, (skipBytes r c).map f = .error e ∧ e ≠ .diverge := by
  rcases skipBytes_cases r c with ⟨r', h, hadv⟩ | h
  · refine Or.inl ⟨(f r').1, (f r').2, k + c.toNat, by rw [h]; rfl, by omega, ?_⟩
    rw [hf]
    exact hk.trans hadv
  · exact Or.inr ⟨.eof, by rw [h]; rfl, by simp⟩

/-- Method `ReadFrame` of `v22Parser` returns at least 3 bytes ahead, or panics. -/
theorem v22Parser.ReadFrame_v22_outcome (p : v22Parser) (file : File) :
    (∃ file' p' n, p.ReadFrame file = .ok (file', p') ∧ 3 ≤ n ∧ p.reader.Advanced p'.reader n) ∨
      ∃ e, p.ReadFrame file = .error e ∧ e ≠ .diverge := by
  generalize hx : p.ReadFrame file = x
  unfold v22Parser.ReadFrame at hx
  rcases readBytes_cases p.reader 3 with ⟨id, r1, h1, a1⟩ | h1 | h1
  · have a1' : p.reader.Advanced r1 3 := a1
    rcases readBytes_cases r1 3 with ⟨size, r2, h2, a2⟩ | h2 | h2
    · have a2' : p.reader.Advanced r2 (3 + 3) := a1'.trans a2
      simp only [h1, h2] at hx
      split_ifs at hx <;> subst hx
      iterate 7
        exact readString_branch v22Parser.reader _ (fun _ _ => rfl) p.reader r2 (3 + 3) 3 a2'
          (by omega) _
      · exact skipBytes_branch v22Parser.reader _ (fun _ => rfl) p.reader r2 (3 + 3) 3 a2'
          (by omega) _
      · exact Or.inr ⟨_, rfl, by simp⟩
    · exact Or.inr ⟨.eof, by simp only [h1, h2] at hx; exact hx.symm, by simp⟩
    · exact Or.inr ⟨.makeslice, by simp only [h1, h2] at hx; exact hx.symm, by simp⟩
  · exact Or.inr ⟨.eof, by simp only [h1] at hx; exact hx.symm, by simp⟩
  · exact Or.inr ⟨.makeslice, by simp only [h1] at hx; exact hx.symm, by simp⟩

set_option maxHeartbeats 2000000 in
/-- Method `ReadFrame` of `v23Parser` returns at least 4 bytes ahead, or panics. -/
theorem v23Parser.ReadFrame_v23_outcome (p : v23Parser) (file : File) :
    (∃ file' p' n, p.ReadFrame file = .ok (file', p') ∧ 4 ≤ n ∧ p.reader.Advanced p'.reader n) ∨
      ∃ e, p.ReadFrame file = .error e ∧ e ≠ .diverge := by
  generalize hx : p.ReadFrame file = x
  unfold v23Parser.ReadFrame at hx
  rcases readBytes_cases p.reader 4 with ⟨id, r1, h1, a1⟩ | h1 | h1
  · have a1' : p.reader.Advanced r1 4 := a1
    obtain ⟨size, r2, k2, h2, a2⟩ := binaryRead_returns r1 4
    obtain ⟨flags, r3, k3, h3, a3⟩ := binaryRead_returns r2 2
    have a3' : p.reader.Advanced r3 (4 + k2 + k3) := (a1'.trans a2).trans a3
    simp only [h1, h2, h3] at hx
    split_ifs at hx <;> subst hx
    iterate 8
      exact readString_branch v23Parser.reader _ (fun _ _ => rfl) p.reader r3 (4 + k2 + k3) 4
        a3' (by omega) _
    · exact skipBytes_branch v23Parser.reader _ (fun _ => rfl) p.reader r3 (4 + k2 + k3) 4
        a3' (by omega) _
    · exact Or.inr ⟨_, rfl, by simp⟩
  · exact Or.inr ⟨.eof, by simp only [h1] at hx; exact hx.symm, by simp⟩
  · exact Or.inr ⟨.makeslice, by simp only [h1] at hx; exact hx.symm, by simp⟩

/-- Method `ReadFrame` of `v24Parser` returns at least 4 bytes ahead, or panics. -/
theorem v24Parser.ReadFrame_v24_outcome (p : v24Parser) (file : File) :
    (∃ file' p' n, p.ReadFrame file = .ok (file', p') ∧ 4 ≤ n ∧ p.reader.Advanced p'.reader n) ∨
      ∃ e, p.ReadFrame file = .error e ∧ e ≠ .diverge := by
  generalize hx : p.ReadFrame file = x
  unfold v24Parser.ReadFrame at hx
  rcases readBytes_cases p.reader 4 with ⟨id, r1, h1, a1⟩ | h1 | h1
  · have a1' : p.reader.Advanced r1 4 := a1
    rcases readBytes_cases r1 4 with ⟨size, r2, h2, a2⟩ | h2 | h2
    · rcases readBytes_cases r2 2 with ⟨flags, r3, h3, a3⟩ | h3 | h3
      · have a3' : p.reader.Advanced r3 (4 + 4 + 2) := (a1'.trans a2).trans a3
        simp only [h1, h2, h3] at hx
        split_ifs at hx <;> subst hx
        iterate 8
          exact readString_branch v24Parser.reader _ (fun _ _ => rfl) p.reader r3 (4 + 4 + 2) 4
            a3' (by omega) _
        · exact skipBytes_branch v24Parser.reader _ (fun _ => rfl) p.reader r3 (4 + 4 + 2) 4
            a3' (by omega) _
        · exact Or.inr ⟨_, rfl, by simp⟩
      · exact Or.inr ⟨.eof, by simp only [h1, h2, h3] at hx; exact hx.symm, by simp⟩
      · exact Or.inr ⟨.makeslice, by simp only [h1, h2, h3] at hx; exact hx.symm, by simp⟩
    · exact Or.inr ⟨.eof, by simp only [h1, h2] at hx; exact hx.symm, by simp⟩
    · exact Or.inr ⟨.makeslice, by simp only [h1, h2] at hx; exact hx.symm, by simp⟩
  · exact Or.inr ⟨.eof, by simp only [h1] at hx; exact hx.symm, by simp⟩
  · exact Or.inr ⟨.makeslice, by simp only [h1] at hx; exact hx.symm, by simp⟩

/-- Method `ReadFrame` either panics, with a panic of the source, or returns with the reader at
least the length of an identifier ahead. -/
theorem ID3Parser.ReadFrame_outcome (p : ID3Parser) (file : File) :
    (∃ file' p' n, p.ReadFrame file = .ok (file', p') ∧ p'.version = p.version ∧
        p.version.idLen ≤ n ∧ p.reader.Advanced p'.reader n) ∨
      ∃ e, p.ReadFrame file = .error e ∧ e ≠ .diverge := by
  cases p with
  | v22 q =>
    rcases q.ReadFrame_v22_outcome file with ⟨file', q', n, h, hn, hadv⟩ | ⟨e, h, he⟩
    · exact Or.inl ⟨file', .v22 q', n, by simp only [ID3Parser.ReadFrame, h, Except.map], rfl,
        hn, hadv⟩
    · exact Or.inr ⟨e, by simp only [ID3Parser.ReadFrame, h, Except.map], he⟩
  | v23 q =>
    rcases q.ReadFrame_v23_outcome file with ⟨file', q', n, h, hn, hadv⟩ | ⟨e, h, he⟩
    · exact Or.inl ⟨file', .v23 q', n, by simp only [ID3Parser.ReadFrame, h, Except.map], rfl,
        hn, hadv⟩
    · exact Or.inr ⟨e, by simp only [ID3Parser.ReadFrame, h, Except.map], he⟩
  | v24 q =>
    rcases q.ReadFrame_v24_outcome file with ⟨file', q', n, h, hn, hadv⟩ | ⟨e, h, he⟩
    · exact Or.inl ⟨file', .v24 q', n, by simp only [ID3Parser.ReadFrame, h, Except.map], rfl,
        hn, hadv⟩
    · exact Or.inr ⟨e, by simp only [ID3Parser.ReadFrame, h, Except.map], he⟩

end ID3

namespace ID3

/-! ## C23: the frame loop ends -/

theorem Version.idLen_pos (v : Version) : 0 < v.idLen := by
  cases v <;> decide

/-- What is left of the region behind a reader that has moved ahead. -/
theorem Reader.Advanced.length {r r' : Reader} {n : Nat} (h : r.Advanced r' n) :
    r'.data.length = r.data.length - n := by
  rw [h.1, List.length_drop]

/-- One turn of the frame loop with a counter, when `ReadFrame` returns. -/
theorem frameLoopIterations_step (p p1 : ID3Parser) (file file1 : File) (fuel : Nat)
    (hh : (p.HasFrame).1 = true) (hr : p.ReadFrame file = .ok (file1, p1)) :
    frameLoopIterations (fuel + 1) p file = frameLoopIterations fuel p1 file1 + 1 := by
  have h2 := p.HasFrame_snd
  rw [frameLoopIterations]
  split
  · rename_i heq
    rw [heq] at hh
    exact absurd hh (by simp)
  · rename_i q heq
    rw [heq] at h2
    simp only at h2
    subst h2
    simp only [hr]

/-- One turn of the frame loop with a counter, when `ReadFrame` panics. -/
theorem frameLoopIterations_abort (p : ID3Parser) (file : File) (e : Panic) (fuel : Nat)
    (hh : (p.HasFrame).1 = true) (hr : p.ReadFrame file = .error e) :
    frameLoopIterations (fuel + 1) p file = 1 := by
  have h2 := p.HasFrame_snd
  rw [frameLoopIterations]
  split
  · rename_i heq
    rw [heq] at hh
    exact absurd hh (by simp)
  · rename_i q heq
    rw [heq] at h2
    simp only at h2
    subst h2
    simp only [hr]

theorem frameLoopIterations_stop (p : ID3Parser) (h : (p.HasFrame).1 = false) (fuel : Nat)
    (file : File) : frameLoopIterations fuel p file = 0 := by
  cases fuel with
  | zero => rfl
  | succ fuel =>
    rw [frameLoopIterations]
    split
    · rfl
    · rename_i heq
      rw [heq] at h
      exact absurd h (by simp)

/-- Arithmetic of the bound: a frame of at least `k` bytes uses up one of the `len / k` turns. -/
theorem div_after_frame (len k n : Nat) (hk : 0 < k) (hkn : k ≤ n) (hlen : k ≤ len) :
    (len - n) / k + 1 ≤ len / k := by
  have h1 : (len - n) / k ≤ (len - k) / k := Nat.div_le_div_right (by omega)
  have h2 : (len - k) / k + 1 = len / k := by
    rw [← Nat.add_div_right _ hk, Nat.sub_add_cancel hlen]
  omega

/-- The frame loop enters its body at most `len / k` times, for a region of `len` bytes and
identifiers of `k` bytes. -/
theorem frameLoopIterations_le (fuel : Nat) : ∀ (p : ID3Parser) (file : File),
    frameLoopIterations fuel p file ≤ p.reader.data.length / p.version.idLen := by
  induction fuel with
  | zero => intro p file; exact Nat.zero_le _
  | succ fuel ih =>
    intro p file
    cases hh : (p.HasFrame).1 with
    | false => rw [frameLoopIterations_stop p hh]; exact Nat.zero_le _
    | true =>
      have hlen := (p.HasFrame_fst.1 hh).1
      rcases p.ReadFrame_outcome file with ⟨file1, p1, n, hr, hv, hn, hadv⟩ | ⟨e, hr, _⟩
      · rw [frameLoopIterations_step p p1 file file1 fuel hh hr]
        have h1 := ih p1 file1
        rw [hv, hadv.length] at h1
        have h2 := div_after_frame p.reader.data.length p.version.idLen n p.version.idLen_pos hn
          hlen
        omega
      · rw [frameLoopIterations_abort p file e fuel hh hr]
        exact (Nat.one_le_div_iff p.version.idLen_pos).2 hlen

/-- The frame loop is over within `len / k + 1` tests of `HasFrame`: with that budget, or any
larger one, the model returns what the loop returns. -/
theorem frameLoop_budget (fuel : Nat) : ∀ (fuel' : Nat) (p : ID3Parser) (file : File),
    p.reader.data.length / p.version.idLen < fuel →
    p.reader.data.length / p.version.idLen < fuel' →
    frameLoop fuel p file ≠ .error .diverge ∧ frameLoop fuel p file = frameLoop fuel' p file := by
  induction fuel with
  | zero => intro fuel' p file h; exact absurd h (Nat.not_lt_zero _)
  | succ fuel ih =>
    intro fuel' p file h h'
    cases fuel' with
    | zero => exact absurd h' (Nat.not_lt_zero _)
    | succ fuel' =>
      cases hh : (p.HasFrame).1 with
      | false =>
        rw [frameLoop_stop p hh, frameLoop_stop p hh]
        exact ⟨by simp, rfl⟩
      | true =>
        have hlen := (p.HasFrame_fst.1 hh).1
        rcases p.ReadFrame_outcome file with ⟨file1, p1, n, hr, hv, hn, hadv⟩ | ⟨e, hr, he⟩
        · rw [frameLoop_step p p1 file file1 fuel hh hr,
            frameLoop_step p p1 file file1 fuel' hh hr]
          have h2 : p1.reader.data.length / p1.version.idLen + 1
              ≤ p.reader.data.length / p.version.idLen := by
            rw [hv, hadv.length]
            exact div_after_frame _ _ n p.version.idLen_pos hn hlen
          exact ih fuel' p1 file1 (by omega) (by omega)
        · rw [frameLoop_abort p file e fuel hh hr, frameLoop_abort p file e fuel' hh hr]
          exact ⟨by simpa using he, rfl⟩

/-- The region `Read` hands to the parser holds at most as many bytes as the tag declares. -/
theorem LimitReader_length (r : Reader) (S : Int) : (LimitReader r S).data.length ≤ S.toNat := by
  simp only [LimitReader, List.length_take]
  exact Nat.min_le_left _ _

/-- Function `Read` returns a record, or `nil`, or panics with a panic of the source, on every
stream and under every schedule of short reads: the budget of its frame loop is never used
up. -/
theorem Read_total (reader : Reader) : Read reader ≠ .error .diverge := by
  have key : ∀ (v : Version) (r : Reader) (file : File),
      frameLoop (r.data.length + 1) (v.parser r) file ≠ .error .diverge := by
    intro v r file
    refine (frameLoop_budget _ (r.data.length + 1) (v.parser r) file ?_ ?_).1 <;>
      (rw [v.parser_reader]
       exact Nat.lt_succ_of_le (Nat.div_le_self _ _))
  intro h
  simp only [Read] at h
  split_ifs at h
  · have k := key .v22 (LimitReader (parseID3v2Header reader).2 (parseID3v2Header reader).1.Size)
      { Header := some (parseID3v2Header reader).1 }
    dsimp only at h
    split at h
    · rename_i e heq
      simp only [Except.error.injEq] at h
      subst h
      exact k heq
    · simp at h
  · have k := key .v23 (LimitReader (parseID3v2Header reader).2 (parseID3v2Header reader).1.Size)
      { Header := some (parseID3v2Header reader).1 }
    dsimp only at h
    split at h
    · rename_i e heq
      simp only [Except.error.injEq] at h
      subst h
      exact k heq
    · simp at h
  · have k := key .v24 (LimitReader (parseID3v2Header reader).2 (parseID3v2Header reader).1.Size)
      { Header := some (parseID3v2Header reader).1 }
    dsimp only at h
    split at h
    · rename_i e heq
      simp only [Except.error.injEq] at h
      subst h
      exact k heq
    · simp at h
  · simp at h

end ID3

namespace ID3

/-- C23: `Read` terminates on every finite byte stream, however its reads are cut: it returns a
record or `nil`, or it panics with a panic of the source.  Whenever `HasFrame` returns true, the
`ReadFrame` that follows either panics or returns with the cursor at least the length of an
identifier ahead (3 bytes for v2.2, 4 bytes for v2.3 and v2.4).  So, on the region of a tag of
declared size `S`, the frame loop enters its body at most `S / 3` (v2.2) or `S / 4` (v2.3, v2.4)
times, and it is over within one more test of `HasFrame` than that. -/
theorem Read_terminates :
    (∀ reader : Reader, Read reader ≠ .error .diverge) ∧
      (Version.idLen .v22 = 3 ∧ Version.idLen .v23 = 4 ∧ Version.idLen .v24 = 4) ∧
      (∀ (p : ID3Parser) (file : File), (p.HasFrame).1 = true →
        (∃ e, (p.HasFrame).2.ReadFrame file = .error e ∧ e ≠ .diverge) ∨
          ∃ file' p' n, (p.HasFrame).2.ReadFrame file = .ok (file', p') ∧
            p.version.idLen ≤ n ∧ p.reader.Advanced p'.reader n) ∧
      (∀ (v : Version) (reader : Reader) (S : Int) (file : File) (fuel : Nat),
        frameLoopIterations fuel (v.parser (LimitReader reader S)) file ≤ S.toNat / v.idLen ∧
          (S.toNat / v.idLen < fuel →
            frameLoop fuel (v.parser (LimitReader reader S)) file ≠ .error .diverge ∧
              frameLoop fuel (v.parser (LimitReader reader S)) file =
                frameLoop (S.toNat / v.idLen + 1) (v.parser (LimitReader reader S)) file)) := by
  refine ⟨Read_total, ⟨rfl, rfl, rfl⟩, ?_, ?_⟩
  · intro p file _
    rw [p.HasFrame_snd]
    rcases p.ReadFrame_outcome file with ⟨file', p', n, hr, _, hn, hadv⟩ | h
    · exact Or.inr ⟨file', p', n, hr, hn, hadv⟩
    · exact Or.inl h
  · intro v reader S file fuel
    have hq : (v.parser (LimitReader reader S)).reader.data.length /
        (v.parser (LimitReader reader S)).version.idLen ≤ S.toNat / v.idLen := by
      rw [v.parser_reader, v.parser_version]
      exact Nat.div_le_div_right (LimitReader_length reader S)
    constructor
    · exact Nat.le_trans (frameLoopIterations_le fuel _ file) hq
    · intro hfuel
      exact frameLoop_budget fuel (S.toNat / v.idLen + 1) _ file (by omega) (by omega)

set_option maxRecDepth 8192 in
/-- C23 on a v2.2 tag of declared size 7 that holds one "TT2" frame: `Read` returns when the
stream is delivered in reads of ten, one and two bytes, and the frame loop enters its body once,
which is at most `7 / 3`. -/
theorem Read_terminates_witness :
    Read (Reader.mk (ascii "ID3" ++ [2, 0, 0, 0, 0, 0, 7] ++ ascii "TT2" ++ [0, 0, 1, 0x41]) 0
        [10, 1, 2] false) ≠ .error .diverge ∧
      frameLoopIterations 8
          (Version.v22.parser (LimitReader (Reader.ofBytes (ascii "TT2" ++ [0, 0, 1, 0x41])) 7))
          {} = 1 ∧
      frameLoopIterations 8
          (Version.v22.parser (LimitReader (Reader.ofBytes (ascii "TT2" ++ [0, 0, 1, 0x41])) 7))
          {} ≤ 7 / 3 :=
  ⟨Read_terminates.1 _, by decide, (Read_terminates.2.2.2 .v22 _ 7 {} 8).1⟩

end ID3
